import Mathlib

/-!
# Things service (`things/service.go`): access control, lookaside caches, lifecycle

A shallow embedding of the `thingsService` of `things/service.go`.

* Go `error` results are `Option Error` (`none` is `nil`); a Go `(T, error)` result is
  the pair `T × Option Error`, so that the value returned next to an error is visible.
* The service reaches its collaborators only through interfaces.  They are embedded as
  records of functions over three abstract stores: `DB` (the four repositories share one
  database), `C` (the three caches) and `I` (the ID provider).  Retrievals and cache
  lookups read the store; writes return the new store.
* Every call the service makes on a collaborator is appended to `World.trace`, in call
  order, so that "is invoked", "is not invoked" and "happens before" can be stated.
-/

namespace Mainflux

/-! ## Data model -/

/-- The error values of `pkg/errors` that the service returns or wraps, every other
error (`other`), and `errors.Wrap wrapper err`. -/
inductive Error where
  | ErrAuthorization
  | ErrAuthentication
  | ErrNotFound
  | ErrCreateEntity
  | ErrConflict
  | ErrProfileAssigned
  | other (msg : String)
  | wrap (wrapper err : Error)
  deriving DecidableEq, Repr

/-- A value of a `map[string]interface{}`.  The service never looks inside a value;
arrays and objects are carried in their JSON text. -/
inductive Value where
  | null
  | bool (b : Bool)
  | number (n : Int)
  | string (s : String)
  | composite (json : String)
  deriving DecidableEq, Repr

/-- The entries of a non-nil Go map, as an association list (keys are distinct in a
well-formed map). -/
abbrev Entries := List (String × Value)

/-- A Go `map[string]interface{}`: `none` is the nil map. -/
abbrev Metadata := Option Entries

/-- Modelled from the spec: the struct `Thing`, declared in a file of the package that
is not among the sources; the attributes of the data model, as `service.go` and the
transport read and write them. -/
structure Thing where
  ID : String
  GroupID : String
  ProfileID : String
  Name : String
  Key : String
  Metadata : Metadata
  deriving DecidableEq, Repr

/-- Modelled from the spec: the struct `Profile`, see `Thing`. -/
structure Profile where
  ID : String
  GroupID : String
  Name : String
  Config : Metadata
  Metadata : Metadata
  deriving DecidableEq, Repr

/-- Modelled from the spec: the struct `Group`, see `Thing`; the timestamps are
numbers. -/
structure Group where
  ID : String
  OrgID : String
  Name : String
  Description : String
  Metadata : Metadata
  CreatedAt : Nat
  UpdatedAt : Nat
  deriving DecidableEq, Repr

/-- Modelled from the spec: the struct `GroupMembership`, see `Thing`. -/
structure GroupMembership where
  MemberID : String
  GroupID : String
  Email : String
  Role : String
  deriving DecidableEq, Repr

/-- A user of `protomfx.UsersRes`: ID and email. -/
structure User where
  Id : String
  Email : String
  deriving DecidableEq, Repr

/-- Modelled from the spec: `apiutil.PageMetadata`, which is not among the sources; the
service passes it to the repositories unread. -/
structure PageMetadata where
  Offset : Nat
  Limit : Nat
  Order : String
  Dir : String
  Name : String
  deriving DecidableEq, Repr

/-- Modelled from the spec: the struct `ThingsPage`, a page of a listing. -/
structure ThingsPage where
  Total : Nat
  Things : List Thing
  deriving DecidableEq, Repr

/-- Modelled from the spec: the struct `ProfilesPage`, a page of a listing. -/
structure ProfilesPage where
  Total : Nat
  Profiles : List Profile
  deriving DecidableEq, Repr

/-- The struct `Backup`. -/
structure Backup where
  Things : List Thing
  Profiles : List Profile
  Groups : List Group
  GroupMemberships : List GroupMembership
  deriving DecidableEq, Repr

/-- The struct `UserAccessReq`. -/
structure UserAccessReq where
  Token : String
  ID : String
  Action : String
  deriving DecidableEq, Repr

/-- The struct `ThingAccessReq`. -/
structure ThingAccessReq where
  Key : String
  ID : String
  deriving DecidableEq, Repr

/-- The request `protomfx.AuthorizeReq`. -/
structure AuthorizeReq where
  Token : String
  Object : String
  Subject : String
  Action : String
  deriving DecidableEq, Repr

/-- The role constant `Viewer`. -/
def Viewer : String := "viewer"

/-- The role constant `Editor`. -/
def Editor : String := "editor"

/-- The role constant `Admin`. -/
def Admin : String := "admin"

/-- The role constant `Owner`. -/
def Owner : String := "owner"

/-- Modelled from the spec: the subject constants of package `auth` (`auth.RootSub`,
`auth.OrgSub`, `auth.GroupSub`), which is not among the sources: "org", "group", and a
root subject for admin checks. -/
def RootSub : String := "root"

/-- Modelled from the spec: `auth.OrgSub`, see `RootSub`. -/
def OrgSub : String := "org"

/-- Modelled from the spec: `auth.GroupSub`, see `RootSub`. -/
def GroupSub : String := "group"

/-- The value `Thing{}`. -/
def Thing.zero : Thing := ⟨"", "", "", "", "", none⟩

/-- The value `Profile{}`. -/
def Profile.zero : Profile := ⟨"", "", "", none, none⟩

/-! ## Collaborator interfaces -/

/-- `protomfx.AuthServiceClient`, the external authorization and identity service. -/
structure AuthServiceClient where
  Authorize : AuthorizeReq → Option Error
  Identify : String → String × Option Error

/-- `protomfx.UsersServiceClient`. -/
structure UsersServiceClient where
  GetUsersByIDs : List String → List User × Option Error

/-- `things.ThingRepository`, over the database `DB`. -/
structure ThingRepository (DB : Type) where
  Save : DB → List Thing → (List Thing × Option Error) × DB
  Update : DB → Thing → Option Error × DB
  UpdateKey : DB → String → String → Option Error × DB
  RetrieveByID : DB → String → Thing × Option Error
  RetrieveByKey : DB → String → String × Option Error
  RetrieveAll : DB → PageMetadata → ThingsPage × Option Error
  RetrieveByGroups : DB → List String → PageMetadata → ThingsPage × Option Error
  RetrieveByProfile : DB → String → PageMetadata → ThingsPage × Option Error
  BackupAll : DB → List Thing × Option Error
  BackupByGroups : DB → List String → List Thing × Option Error
  Remove : DB → List String → Option Error × DB

/-- `things.ProfileRepository`. -/
structure ProfileRepository (DB : Type) where
  Save : DB → List Profile → (List Profile × Option Error) × DB
  Update : DB → Profile → Option Error × DB
  RetrieveByID : DB → String → Profile × Option Error
  RetrieveByThing : DB → String → Profile × Option Error
  RetrieveAll : DB → PageMetadata → ProfilesPage × Option Error
  RetrieveByGroups : DB → List String → PageMetadata → ProfilesPage × Option Error
  BackupAll : DB → List Profile × Option Error
  BackupByGroups : DB → List String → List Profile × Option Error
  Remove : DB → List String → Option Error × DB

/-- `things.GroupRepository`, the methods `service.go` calls. -/
structure GroupRepository (DB : Type) where
  Save : DB → Group → (Group × Option Error) × DB
  RetrieveIDsByOrg : DB → String → List String × Option Error
  RetrieveIDsByOrgMembership : DB → String → String → List String × Option Error
  BackupAll : DB → List Group × Option Error
  BackupByOrg : DB → String → List Group × Option Error

/-- `things.GroupMembershipsRepository`, the methods `service.go` calls. -/
structure GroupMembershipsRepository (DB : Type) where
  Save : DB → GroupMembership → Option Error × DB
  RetrieveGroupIDsByMember : DB → String → List String × Option Error
  BackupAll : DB → List GroupMembership × Option Error
  BackupByGroup : DB → String → List GroupMembership × Option Error

/-- `things.ThingCache`: thing key to thing ID, and thing ID to group ID. -/
structure ThingCache (C : Type) where
  ID : C → String → String × Option Error
  Save : C → String → String → Option Error × C
  ViewGroup : C → String → String × Option Error
  SaveGroup : C → String → String → Option Error × C
  Remove : C → String → Option Error × C
  RemoveGroup : C → String → Option Error × C

/-- `things.ProfileCache`: profile ID to group ID. -/
structure ProfileCache (C : Type) where
  ViewGroup : C → String → String × Option Error
  SaveGroup : C → String → String → Option Error × C
  RemoveGroup : C → String → Option Error × C

/-- `things.GroupCache`, the method `service.go` calls. -/
structure GroupCache (C : Type) where
  RetrieveGroupIDsByMember : C → String → List String × Option Error

/-- `uuid.IDProvider`. -/
structure IDProvider (I : Type) where
  ID : I → (String × Option Error) × I

/-- The struct `thingsService`. -/
structure thingsService (DB C I : Type) where
  auth : AuthServiceClient
  users : UsersServiceClient
  things : ThingRepository DB
  profiles : ProfileRepository DB
  groups : GroupRepository DB
  groupMemberships : GroupMembershipsRepository DB
  profileCache : ProfileCache C
  thingCache : ThingCache C
  groupCache : GroupCache C
  idProvider : IDProvider I

/-- One call of the service on a collaborator, with its arguments. -/
inductive Call where
  | authAuthorize (req : AuthorizeReq)
  | authIdentify (token : String)
  | usersGetUsersByIDs (ids : List String)
  | thingsSave (ths : List Thing)
  | thingsUpdate (th : Thing)
  | thingsUpdateKey (id key : String)
  | thingsRetrieveByID (id : String)
  | thingsRetrieveByKey (key : String)
  | thingsRetrieveAll (pm : PageMetadata)
  | thingsRetrieveByGroups (ids : List String) (pm : PageMetadata)
  | thingsRetrieveByProfile (id : String) (pm : PageMetadata)
  | thingsBackupAll
  | thingsBackupByGroups (ids : List String)
  | thingsRemove (ids : List String)
  | profilesSave (prs : List Profile)
  | profilesUpdate (pr : Profile)
  | profilesRetrieveByID (id : String)
  | profilesRetrieveByThing (id : String)
  | profilesRetrieveAll (pm : PageMetadata)
  | profilesRetrieveByGroups (ids : List String) (pm : PageMetadata)
  | profilesBackupAll
  | profilesBackupByGroups (ids : List String)
  | profilesRemove (ids : List String)
  | groupsSave (g : Group)
  | groupsRetrieveIDsByOrg (orgID : String)
  | groupsRetrieveIDsByOrgMembership (orgID memberID : String)
  | groupsBackupAll
  | groupsBackupByOrg (orgID : String)
  | groupMembershipsSave (gm : GroupMembership)
  | groupMembershipsRetrieveGroupIDsByMember (memberID : String)
  | groupMembershipsBackupAll
  | groupMembershipsBackupByGroup (groupID : String)
  | thingCacheID (key : String)
  | thingCacheSave (key id : String)
  | thingCacheViewGroup (id : String)
  | thingCacheSaveGroup (id groupID : String)
  | thingCacheRemove (id : String)
  | thingCacheRemoveGroup (id : String)
  | profileCacheViewGroup (id : String)
  | profileCacheSaveGroup (id groupID : String)
  | profileCacheRemoveGroup (id : String)
  | groupCacheRetrieveGroupIDsByMember (memberID : String)
  | idProviderID
  deriving DecidableEq, Repr

/-- What the service acts on: the database behind the repositories, the cache store,
the ID provider, and the calls made so far (oldest first). -/
structure World (DB C I : Type) where
  db : DB
  cache : C
  idp : I
  trace : List Call

variable {DB C I : Type}

/-- Record a call. -/
def World.log (w : World DB C I) (c : Call) : World DB C I :=
  { w with trace := w.trace ++ [c] }

/-! ## Resolution through the lookaside caches -/

/-- The method `thingsService.isAdmin`. -/
def isAdmin (ts : thingsService DB C I) (token : String) (w : World DB C I) :
    Option Error × World DB C I :=
  let req : AuthorizeReq := { Token := token, Object := "", Subject := RootSub, Action := "" }
  let w := w.log (.authAuthorize req)
  match ts.auth.Authorize req with
  | some err => (some (Error.wrap Error.ErrAuthorization err), w)
  | none => (none, w)

/-- The method `thingsService.canAccessOrg`. -/
def canAccessOrg (ts : thingsService DB C I) (token orgID subject action : String)
    (w : World DB C I) : Option Error × World DB C I :=
  let req : AuthorizeReq :=
    { Token := token, Object := orgID, Subject := subject, Action := action }
  let w := w.log (.authAuthorize req)
  match ts.auth.Authorize req with
  | some err => (some (Error.wrap Error.ErrAuthorization err), w)
  | none => (none, w)

/-- Modelled from the spec: `thingsService.canAccessGroup` is defined in a file of the
package that is not among the sources.  The spec (Access Control Evaluator, steps 2 and
3): call `isAdmin(token)`; if it succeeds, grant unconditionally; otherwise call the
external Authorize RPC with token, object the group ID, subject "group" and the action;
any RPC failure is wrapped as an authorization error. -/
def canAccessGroup (ts : thingsService DB C I) (token groupID action : String)
    (w : World DB C I) : Option Error × World DB C I :=
  match isAdmin ts token w with
  | (none, w) => (none, w)
  | (some _, w) =>
    let req : AuthorizeReq :=
      { Token := token, Object := groupID, Subject := GroupSub, Action := action }
    let w := w.log (.authAuthorize req)
    match ts.auth.Authorize req with
    | some err => (some (Error.wrap Error.ErrAuthorization err), w)
    | none => (none, w)

/-- The method `thingsService.Identify`. -/
def Identify (ts : thingsService DB C I) (key : String) (w : World DB C I) :
    (String × Option Error) × World DB C I :=
  let w := w.log (.thingCacheID key)
  match ts.thingCache.ID w.cache key with
  | (id, none) => ((id, none), w)
  | (_, some _) =>
    let w := w.log (.thingsRetrieveByKey key)
    match ts.things.RetrieveByKey w.db key with
    | (_, some err) => (("", some err), w)
    | (id, none) =>
      let w := w.log (.thingCacheSave key id)
      match ts.thingCache.Save w.cache key id with
      | (some err, c) => (("", some err), { w with cache := c })
      | (none, c) => ((id, none), { w with cache := c })

/-- The method `thingsService.getGroupIDByThingID`. -/
def getGroupIDByThingID (ts : thingsService DB C I) (thID : String) (w : World DB C I) :
    (String × Option Error) × World DB C I :=
  let w := w.log (.thingCacheViewGroup thID)
  match ts.thingCache.ViewGroup w.cache thID with
  | (grID, none) => ((grID, none), w)
  | (_, some _) =>
    let w := w.log (.thingsRetrieveByID thID)
    match ts.things.RetrieveByID w.db thID with
    | (_, some err) => (("", some err), w)
    | (th, none) =>
      let w := w.log (.thingCacheSaveGroup th.ID th.GroupID)
      match ts.thingCache.SaveGroup w.cache th.ID th.GroupID with
      | (some err, c) => (("", some err), { w with cache := c })
      | (none, c) => ((th.GroupID, none), { w with cache := c })

/-- The method `thingsService.getGroupIDByProfileID`. -/
def getGroupIDByProfileID (ts : thingsService DB C I) (prID : String) (w : World DB C I) :
    (String × Option Error) × World DB C I :=
  let w := w.log (.profileCacheViewGroup prID)
  match ts.profileCache.ViewGroup w.cache prID with
  | (grID, none) => ((grID, none), w)
  | (_, some _) =>
    let w := w.log (.profilesRetrieveByID prID)
    match ts.profiles.RetrieveByID w.db prID with
    | (_, some err) => (("", some err), w)
    | (pr, none) =>
      let w := w.log (.profileCacheSaveGroup pr.ID pr.GroupID)
      match ts.profileCache.SaveGroup w.cache pr.ID pr.GroupID with
      | (some err, c) => (("", some err), { w with cache := c })
      | (none, c) => ((pr.GroupID, none), { w with cache := c })

/-- The method `thingsService.getGroupIDsByMemberID`. -/
def getGroupIDsByMemberID (ts : thingsService DB C I) (memberID : String)
    (w : World DB C I) : (List String × Option Error) × World DB C I :=
  let w := w.log (.groupCacheRetrieveGroupIDsByMember memberID)
  match ts.groupCache.RetrieveGroupIDsByMember w.cache memberID with
  | (grIDs, none) => ((grIDs, none), w)
  | (_, some _) =>
    let w := w.log (.groupMembershipsRetrieveGroupIDsByMember memberID)
    match ts.groupMemberships.RetrieveGroupIDsByMember w.db memberID with
    | (_, some err) => (([], some err), w)
    | (grIDs, none) => ((grIDs, none), w)

/-- The method `thingsService.GetGroupIDByThingID`. -/
def GetGroupIDByThingID (ts : thingsService DB C I) (thingID : String)
    (w : World DB C I) : (String × Option Error) × World DB C I :=
  getGroupIDByThingID ts thingID w

/-- The method `thingsService.GetGroupIDByProfileID`. -/
def GetGroupIDByProfileID (ts : thingsService DB C I) (profileID : String)
    (w : World DB C I) : (String × Option Error) × World DB C I :=
  getGroupIDByProfileID ts profileID w

/-! ## Access control evaluator -/

/-- The method `thingsService.CanUserAccessThing`. -/
def CanUserAccessThing (ts : thingsService DB C I) (req : UserAccessReq)
    (w : World DB C I) : Option Error × World DB C I :=
  match getGroupIDByThingID ts req.ID w with
  | ((_, some err), w) => (some err, w)
  | ((grID, none), w) => canAccessGroup ts req.Token grID req.Action w

/-- The method `thingsService.CanUserAccessProfile`. -/
def CanUserAccessProfile (ts : thingsService DB C I) (req : UserAccessReq)
    (w : World DB C I) : Option Error × World DB C I :=
  match getGroupIDByProfileID ts req.ID w with
  | ((_, some err), w) => (some err, w)
  | ((grID, none), w) => canAccessGroup ts req.Token grID req.Action w

/-- The method `thingsService.CanUserAccessGroup`. -/
def CanUserAccessGroup (ts : thingsService DB C I) (req : UserAccessReq)
    (w : World DB C I) : Option Error × World DB C I :=
  canAccessGroup ts req.Token req.ID req.Action w

/-- The method `thingsService.CanThingAccessGroup`. -/
def CanThingAccessGroup (ts : thingsService DB C I) (req : ThingAccessReq)
    (w : World DB C I) : Option Error × World DB C I :=
  match Identify ts req.Key w with
  | ((_, some err), w) => (some err, w)
  | ((thID, none), w) =>
    match getGroupIDByThingID ts thID w with
    | ((_, some err), w) => (some err, w)
    | ((grID, none), w) =>
      if grID ≠ req.ID then (some Error.ErrAuthorization, w) else (none, w)

/-! ## Entity lifecycle manager -/

/-- The method `thingsService.createThing`.  The Go function fills `thing.ID` and
`thing.Key` in place; here the filled thing is threaded through. -/
def createThing (ts : thingsService DB C I) (thing : Thing) (w : World DB C I) :
    (Thing × Option Error) × World DB C I :=
  let withID : (Thing × Option Error) × World DB C I :=
    if thing.ID = "" then
      let w := w.log .idProviderID
      match ts.idProvider.ID w.idp with
      | ((_, some err), i) => ((Thing.zero, some err), { w with idp := i })
      | ((id, none), i) => (({ thing with ID := id }, none), { w with idp := i })
    else ((thing, none), w)
  match withID with
  | ((_, some err), w) => ((Thing.zero, some err), w)
  | ((thing, none), w) =>
    let withKey : (Thing × Option Error) × World DB C I :=
      if thing.Key = "" then
        let w := w.log .idProviderID
        match ts.idProvider.ID w.idp with
        | ((_, some err), i) => ((Thing.zero, some err), { w with idp := i })
        | ((key, none), i) => (({ thing with Key := key }, none), { w with idp := i })
      else ((thing, none), w)
    match withKey with
    | ((_, some err), w) => ((Thing.zero, some err), w)
    | ((thing, none), w) =>
      let w := w.log (.thingsSave [thing])
      match ts.things.Save w.db [thing] with
      | ((_, some err), db) => ((Thing.zero, some err), { w with db := db })
      | (([], none), db) => ((Thing.zero, some Error.ErrCreateEntity), { w with db := db })
      | ((th :: _, none), db) => ((th, none), { w with db := db })

/-- The loop of `thingsService.CreateThings` over the things still to create; `ths`
are the things created so far.  (A nil slice and an empty slice are both `[]`.) -/
def CreateThings_loop (ts : thingsService DB C I) (token : String) :
    List Thing → List Thing → World DB C I → (List Thing × Option Error) × World DB C I
  | [], ths, w => ((ths, none), w)
  | thing :: rest, ths, w =>
    let ar : UserAccessReq := { Token := token, ID := thing.GroupID, Action := Editor }
    match CanUserAccessGroup ts ar w with
    | (some err, w) => (([], some err), w)
    | (none, w) =>
      match getGroupIDByProfileID ts thing.ProfileID w with
      | ((_, some err), w) => (([], some err), w)
      | ((prGrID, none), w) =>
        if prGrID ≠ thing.GroupID then (([], some Error.ErrAuthorization), w)
        else
          match createThing ts thing w with
          | ((_, some err), w) => (([], some err), w)
          | ((th, none), w) => CreateThings_loop ts token rest (ths ++ [th]) w

/-- The method `thingsService.CreateThings`. -/
def CreateThings (ts : thingsService DB C I) (token : String) (things : List Thing)
    (w : World DB C I) : (List Thing × Option Error) × World DB C I :=
  CreateThings_loop ts token things [] w

/-- The method `thingsService.UpdateThing`. -/
def UpdateThing (ts : thingsService DB C I) (token : String) (thing : Thing)
    (w : World DB C I) : Option Error × World DB C I :=
  let ar : UserAccessReq := { Token := token, ID := thing.ID, Action := Editor }
  match CanUserAccessThing ts ar w with
  | (some err, w) => (some err, w)
  | (none, w) =>
    match getGroupIDByThingID ts thing.ID w with
    | ((_, some err), w) => (some err, w)
    | ((thGrID, none), w) =>
      match getGroupIDByProfileID ts thing.ProfileID w with
      | ((_, some err), w) => (some err, w)
      | ((prGrID, none), w) =>
        if prGrID ≠ thGrID then (some Error.ErrAuthorization, w)
        else
          let w := w.log (.thingsUpdate thing)
          match ts.things.Update w.db thing with
          | (err, db) => (err, { w with db := db })

/-- The assignment `m[k] = v` on a non-nil map. -/
def setEntry : Entries → String → Value → Entries
  | [], k, v => [(k, v)]
  | (k', v') :: m, k, v => if k' = k then (k, v) :: m else (k', v') :: setEntry m k v

/-- The assignments `dst[k] = v` for the entries `(k, v)` of `src`, on a non-nil
`dst`. -/
def mergeEntries (dst src : Entries) : Entries :=
  src.foldl (fun m kv => setEntry m kv.1 kv.2) dst

/-- The statement `for k, v := range src { dst[k] = v }`: the resulting `dst`, or
`none` when an assignment is made on a nil `dst`, which is a run-time panic
("assignment to entry in nil map").  Ranging over a nil or empty map assigns nothing. -/
def mergeMetadata (dst src : Metadata) : Option Metadata :=
  match src with
  | none => some dst
  | some [] => some dst
  | some (e :: es) =>
    match dst with
    | none => none
    | some d => some (some (mergeEntries d (e :: es)))

/-- How a call ends: it returns its result, or the goroutine panics. -/
inductive Outcome (α : Type) where
  | returned (a : α)
  | panicked
  deriving DecidableEq, Repr

/-- The method `thingsService.UpdateThingsMetadata`: its single loop. -/
def UpdateThingsMetadata (ts : thingsService DB C I) (token : String) :
    List Thing → World DB C I → Outcome (Option Error) × World DB C I
  | [], w => (.returned none, w)
  | thing :: rest, w =>
    let ar : UserAccessReq := { Token := token, ID := thing.ID, Action := Editor }
    match CanUserAccessThing ts ar w with
    | (some err, w) => (.returned (some err), w)
    | (none, w) =>
      let w := w.log (.thingsRetrieveByID thing.ID)
      match ts.things.RetrieveByID w.db thing.ID with
      | (_, some err) => (.returned (some err), w)
      | (th, none) =>
        match mergeMetadata th.Metadata thing.Metadata with
        | none => (.panicked, w)
        | some md =>
          let th := { th with Metadata := md }
          let w := w.log (.thingsUpdate th)
          match ts.things.Update w.db th with
          | (some err, db) => (.returned (some err), { w with db := db })
          | (none, db) => UpdateThingsMetadata ts token rest { w with db := db }

/-- The method `thingsService.UpdateKey`. -/
def UpdateKey (ts : thingsService DB C I) (token id key : String) (w : World DB C I) :
    Option Error × World DB C I :=
  let ar : UserAccessReq := { Token := token, ID := id, Action := Editor }
  match CanUserAccessThing ts ar w with
  | (some err, w) => (some err, w)
  | (none, w) =>
    let w := w.log (.thingsUpdateKey id key)
    match ts.things.UpdateKey w.db id key with
    | (err, db) => (err, { w with db := db })

/-- The loop of `thingsService.RemoveThings`: per ID, the access check and the two
cache purges. -/
def RemoveThings_loop (ts : thingsService DB C I) (token : String) :
    List String → World DB C I → Option Error × World DB C I
  | [], w => (none, w)
  | id :: rest, w =>
    let ar : UserAccessReq := { Token := token, ID := id, Action := Editor }
    match CanUserAccessThing ts ar w with
    | (some err, w) => (some err, w)
    | (none, w) =>
      let w := w.log (.thingCacheRemove id)
      match ts.thingCache.Remove w.cache id with
      | (some err, c) => (some err, { w with cache := c })
      | (none, c) =>
        let w := { w with cache := c }
        let w := w.log (.thingCacheRemoveGroup id)
        match ts.thingCache.RemoveGroup w.cache id with
        | (some err, c) => (some err, { w with cache := c })
        | (none, c) => RemoveThings_loop ts token rest { w with cache := c }

/-- The method `thingsService.RemoveThings`. -/
def RemoveThings (ts : thingsService DB C I) (token : String) (ids : List String)
    (w : World DB C I) : Option Error × World DB C I :=
  match RemoveThings_loop ts token ids w with
  | (some err, w) => (some err, w)
  | (none, w) =>
    let w := w.log (.thingsRemove ids)
    match ts.things.Remove w.db ids with
    | (some err, db) => (some err, { w with db := db })
    | (none, db) => (none, { w with db := db })

/-- The method `thingsService.createProfile`. -/
def createProfile (ts : thingsService DB C I) (profile : Profile) (w : World DB C I) :
    (Profile × Option Error) × World DB C I :=
  let withID : (Profile × Option Error) × World DB C I :=
    if profile.ID = "" then
      let w := w.log .idProviderID
      match ts.idProvider.ID w.idp with
      | ((_, some err), i) => ((Profile.zero, some err), { w with idp := i })
      | ((prID, none), i) => (({ profile with ID := prID }, none), { w with idp := i })
    else ((profile, none), w)
  match withID with
  | ((_, some err), w) => ((Profile.zero, some err), w)
  | ((profile, none), w) =>
    let w := w.log (.profilesSave [profile])
    match ts.profiles.Save w.db [profile] with
    | ((_, some err), db) => ((Profile.zero, some err), { w with db := db })
    | (([], none), db) => ((Profile.zero, some Error.ErrCreateEntity), { w with db := db })
    | ((pr :: _, none), db) => ((pr, none), { w with db := db })

/-- The loop of `thingsService.CreateProfiles`; `prs` are the profiles created so
far. -/
def CreateProfiles_loop (ts : thingsService DB C I) (token : String) :
    List Profile → List Profile → World DB C I →
      (List Profile × Option Error) × World DB C I
  | [], prs, w => ((prs, none), w)
  | profile :: rest, prs, w =>
    let ar : UserAccessReq := { Token := token, ID := profile.GroupID, Action := Editor }
    match CanUserAccessGroup ts ar w with
    | (some err, w) => (([], some err), w)
    | (none, w) =>
      match createProfile ts profile w with
      | ((_, some err), w) => (([], some err), w)
      | ((pr, none), w) => CreateProfiles_loop ts token rest (prs ++ [pr]) w

/-- The method `thingsService.CreateProfiles`. -/
def CreateProfiles (ts : thingsService DB C I) (token : String) (profiles : List Profile)
    (w : World DB C I) : (List Profile × Option Error) × World DB C I :=
  CreateProfiles_loop ts token profiles [] w

/-- The method `thingsService.UpdateProfile`. -/
def UpdateProfile (ts : thingsService DB C I) (token : String) (profile : Profile)
    (w : World DB C I) : Option Error × World DB C I :=
  let ar : UserAccessReq := { Token := token, ID := profile.ID, Action := Editor }
  match CanUserAccessProfile ts ar w with
  | (some err, w) => (some err, w)
  | (none, w) =>
    let w := w.log (.profilesUpdate profile)
    match ts.profiles.Update w.db profile with
    | (err, db) => (err, { w with db := db })

/-- The loop of `thingsService.RemoveProfiles`: per ID, the access check and the cache
purge. -/
def RemoveProfiles_loop (ts : thingsService DB C I) (token : String) :
    List String → World DB C I → Option Error × World DB C I
  | [], w => (none, w)
  | id :: rest, w =>
    let ar : UserAccessReq := { Token := token, ID := id, Action := Editor }
    match CanUserAccessProfile ts ar w with
    | (some err, w) => (some err, w)
    | (none, w) =>
      let w := w.log (.profileCacheRemoveGroup id)
      match ts.profileCache.RemoveGroup w.cache id with
      | (some err, c) => (some err, { w with cache := c })
      | (none, c) => RemoveProfiles_loop ts token rest { w with cache := c }

/-- The method `thingsService.RemoveProfiles`. -/
def RemoveProfiles (ts : thingsService DB C I) (token : String) (ids : List String)
    (w : World DB C I) : Option Error × World DB C I :=
  match RemoveProfiles_loop ts token ids w with
  | (some err, w) => (some err, w)
  | (none, w) =>
    let w := w.log (.profilesRemove ids)
    match ts.profiles.Remove w.db ids with
    | (err, db) => (err, { w with db := db })

/-! ## Restore -/

/-- The first loop of `thingsService.Restore`: one `groups.Save` per group. -/
def Restore_groups (ts : thingsService DB C I) :
    List Group → World DB C I → Option Error × World DB C I
  | [], w => (none, w)
  | group :: rest, w =>
    let w := w.log (.groupsSave group)
    match ts.groups.Save w.db group with
    | ((_, some err), db) => (some err, { w with db := db })
    | ((_, none), db) => Restore_groups ts rest { w with db := db }

/-- The last loop of `thingsService.Restore`: one `groupMemberships.Save` per
membership, built from member, group and role. -/
def Restore_groupMemberships (ts : thingsService DB C I) :
    List GroupMembership → World DB C I → Option Error × World DB C I
  | [], w => (none, w)
  | g :: rest, w =>
    let gm : GroupMembership :=
      { MemberID := g.MemberID, GroupID := g.GroupID, Email := "", Role := g.Role }
    let w := w.log (.groupMembershipsSave gm)
    match ts.groupMemberships.Save w.db gm with
    | (some err, db) => (some err, { w with db := db })
    | (none, db) => Restore_groupMemberships ts rest { w with db := db }

/-- The method `thingsService.Restore`. -/
def Restore (ts : thingsService DB C I) (token : String) (backup : Backup)
    (w : World DB C I) : Option Error × World DB C I :=
  match isAdmin ts token w with
  | (some err, w) => (some err, w)
  | (none, w) =>
    match Restore_groups ts backup.Groups w with
    | (some err, w) => (some err, w)
    | (none, w) =>
      let w := w.log (.thingsSave backup.Things)
      match ts.things.Save w.db backup.Things with
      | ((_, some err), db) => (some err, { w with db := db })
      | ((_, none), db) =>
        let w := { w with db := db }
        let w := w.log (.profilesSave backup.Profiles)
        match ts.profiles.Save w.db backup.Profiles with
        | ((_, some err), db) => (some err, { w with db := db })
        | ((_, none), db) => Restore_groupMemberships ts backup.GroupMemberships { w with db := db }

/-! ## An in-memory instance of the collaborators -/

/-- Modelled from the spec: the database behind the four repositories, whose
implementations are not among the sources: the persisted rows of each entity kind. -/
structure MemDB where
  things : List Thing
  profiles : List Profile
  groups : List Group
  memberships : List GroupMembership
  deriving DecidableEq, Repr

/-- Modelled from the spec: the store behind the three lookaside caches, whose
implementations are not among the sources: thing key to thing ID, thing ID to group ID,
profile ID to group ID, member ID to group IDs. -/
structure MemCache where
  thingIDs : List (String × String)
  thingGroups : List (String × String)
  profileGroups : List (String × String)
  memberGroups : List (String × List String)
  deriving DecidableEq, Repr

/-- The row of the thing with the given ID. -/
def MemDB.thing (db : MemDB) (id : String) : Option Thing :=
  db.things.find? (fun t => t.ID == id)

/-- The row of the profile with the given ID. -/
def MemDB.profile (db : MemDB) (id : String) : Option Profile :=
  db.profiles.find? (fun p => p.ID == id)

/-- A page of a listing: offset and limit applied to the matching rows. -/
def page {α : Type} (pm : PageMetadata) (rows : List α) : List α :=
  (rows.drop pm.Offset).take pm.Limit

/-- Modelled from the spec: the thing repository.  IDs are unique and the Key is
globally unique (a duplicate is a Conflict); a lookup that finds nothing is NotFound;
`Save` returns what it persisted; `Update` rewrites name, profile and metadata of the
row, the fields an update request carries (the thing keeps its group: `UpdateThing`
compares against the thing's current group; the key changes through `UpdateKey` only);
`Remove` deletes the rows. -/
def memThings : ThingRepository MemDB where
  Save := fun db ths =>
    if ths.all (fun t => db.things.all (fun r => r.ID != t.ID && r.Key != t.Key))
        && (ths.map (fun t => t.ID)).Nodup && (ths.map (fun t => t.Key)).Nodup then
      ((ths, none), { db with things := db.things ++ ths })
    else (([], some Error.ErrConflict), db)
  Update := fun db th =>
    match db.thing th.ID with
    | none => (some Error.ErrNotFound, db)
    | some _ =>
      (none, { db with things := db.things.map (fun r =>
        if r.ID = th.ID then
          { r with Name := th.Name, ProfileID := th.ProfileID, Metadata := th.Metadata }
        else r) })
  UpdateKey := fun db id key =>
    match db.thing id with
    | none => (some Error.ErrNotFound, db)
    | some _ =>
      if db.things.any (fun r => r.Key == key && r.ID != id) then
        (some Error.ErrConflict, db)
      else
        (none, { db with things := db.things.map (fun r =>
          if r.ID = id then { r with Key := key } else r) })
  RetrieveByID := fun db id =>
    match db.thing id with
    | some th => (th, none)
    | none => (Thing.zero, some Error.ErrNotFound)
  RetrieveByKey := fun db key =>
    match db.things.find? (fun t => t.Key == key) with
    | some th => (th.ID, none)
    | none => ("", some Error.ErrNotFound)
  RetrieveAll := fun db pm => (⟨db.things.length, page pm db.things⟩, none)
  RetrieveByGroups := fun db ids pm =>
    let rows := db.things.filter (fun t => ids.contains t.GroupID)
    (⟨rows.length, page pm rows⟩, none)
  RetrieveByProfile := fun db id pm =>
    let rows := db.things.filter (fun t => t.ProfileID == id)
    (⟨rows.length, page pm rows⟩, none)
  BackupAll := fun db => (db.things, none)
  BackupByGroups := fun db ids => (db.things.filter (fun t => ids.contains t.GroupID), none)
  Remove := fun db ids =>
    (none, { db with things := db.things.filter (fun t => !ids.contains t.ID) })

/-- Modelled from the spec: the profile repository.  IDs are unique; the GroupID of a
profile is immutable after creation, so `Update` rewrites name, config and metadata;
removing a profile that things still reference is ProfileAssigned. -/
def memProfiles : ProfileRepository MemDB where
  Save := fun db prs =>
    if prs.all (fun p => db.profiles.all (fun r => r.ID != p.ID))
        && (prs.map (fun p => p.ID)).Nodup then
      ((prs, none), { db with profiles := db.profiles ++ prs })
    else (([], some Error.ErrConflict), db)
  Update := fun db pr =>
    match db.profile pr.ID with
    | none => (some Error.ErrNotFound, db)
    | some _ =>
      (none, { db with profiles := db.profiles.map (fun r =>
        if r.ID = pr.ID then
          { r with Name := pr.Name, Config := pr.Config, Metadata := pr.Metadata }
        else r) })
  RetrieveByID := fun db id =>
    match db.profile id with
    | some pr => (pr, none)
    | none => (Profile.zero, some Error.ErrNotFound)
  RetrieveByThing := fun db thID =>
    match db.thing thID with
    | none => (Profile.zero, some Error.ErrNotFound)
    | some th =>
      match db.profile th.ProfileID with
      | some pr => (pr, none)
      | none => (Profile.zero, some Error.ErrNotFound)
  RetrieveAll := fun db pm => (⟨db.profiles.length, page pm db.profiles⟩, none)
  RetrieveByGroups := fun db ids pm =>
    let rows := db.profiles.filter (fun p => ids.contains p.GroupID)
    (⟨rows.length, page pm rows⟩, none)
  BackupAll := fun db => (db.profiles, none)
  BackupByGroups := fun db ids =>
    (db.profiles.filter (fun p => ids.contains p.GroupID), none)
  Remove := fun db ids =>
    if db.things.any (fun t => ids.contains t.ProfileID) then
      (some Error.ErrProfileAssigned, db)
    else (none, { db with profiles := db.profiles.filter (fun p => !ids.contains p.ID) })

/-- Modelled from the spec: the group repository (unique IDs). -/
def memGroups : GroupRepository MemDB where
  Save := fun db g =>
    if db.groups.all (fun r => r.ID != g.ID) then
      ((g, none), { db with groups := db.groups ++ [g] })
    else ((g, some Error.ErrConflict), db)
  RetrieveIDsByOrg := fun db orgID =>
    ((db.groups.filter (fun g => g.OrgID == orgID)).map (fun g => g.ID), none)
  RetrieveIDsByOrgMembership := fun db orgID memberID =>
    ((db.groups.filter (fun g => g.OrgID == orgID
        && db.memberships.any (fun m => m.GroupID == g.ID && m.MemberID == memberID))).map
      (fun g => g.ID), none)
  BackupAll := fun db => (db.groups, none)
  BackupByOrg := fun db orgID => (db.groups.filter (fun g => g.OrgID == orgID), none)

/-- Modelled from the spec: the group membership repository; the pair of member and
group is unique. -/
def memGroupMemberships : GroupMembershipsRepository MemDB where
  Save := fun db gm =>
    if db.memberships.all (fun r => !(r.MemberID == gm.MemberID && r.GroupID == gm.GroupID))
    then (none, { db with memberships := db.memberships ++ [gm] })
    else (some Error.ErrConflict, db)
  RetrieveGroupIDsByMember := fun db memberID =>
    ((db.memberships.filter (fun m => m.MemberID == memberID)).map (fun m => m.GroupID), none)
  BackupAll := fun db => (db.memberships, none)
  BackupByGroup := fun db groupID =>
    (db.memberships.filter (fun m => m.GroupID == groupID), none)

/-- Look a key up in an association list; a miss is reported as an error. -/
def cacheGet (m : List (String × String)) (k : String) : String × Option Error :=
  match m.lookup k with
  | some v => (v, none)
  | none => ("", some Error.ErrNotFound)

/-- Modelled from the spec: the thing cache.  `ID` and `ViewGroup` answer or miss,
`Save` and `SaveGroup` store an entry, `Remove` deletes the key entries of a thing ID,
`RemoveGroup` deletes the group entry of a thing ID. -/
def memThingCache : ThingCache MemCache where
  ID := fun c key => cacheGet c.thingIDs key
  Save := fun c key id =>
    (none, { c with thingIDs := (key, id) :: c.thingIDs.filter (fun e => e.1 != key) })
  ViewGroup := fun c id => cacheGet c.thingGroups id
  SaveGroup := fun c id grID =>
    (none, { c with thingGroups := (id, grID) :: c.thingGroups.filter (fun e => e.1 != id) })
  Remove := fun c id =>
    (none, { c with thingIDs := c.thingIDs.filter (fun e => e.2 != id) })
  RemoveGroup := fun c id =>
    (none, { c with thingGroups := c.thingGroups.filter (fun e => e.1 != id) })

/-- Modelled from the spec: the profile cache, see `memThingCache`. -/
def memProfileCache : ProfileCache MemCache where
  ViewGroup := fun c id => cacheGet c.profileGroups id
  SaveGroup := fun c id grID =>
    (none,
      { c with profileGroups := (id, grID) :: c.profileGroups.filter (fun e => e.1 != id) })
  RemoveGroup := fun c id =>
    (none, { c with profileGroups := c.profileGroups.filter (fun e => e.1 != id) })

/-- Modelled from the spec: the group cache, member ID to reachable group IDs. -/
def memGroupCache : GroupCache MemCache where
  RetrieveGroupIDsByMember := fun c memberID =>
    match c.memberGroups.lookup memberID with
    | some ids => (ids, none)
    | none => ([], some Error.ErrNotFound)

/-- Modelled from the spec: the ID provider, a supply of unique identifiers that
fails when it is exhausted. -/
def memIDProvider : IDProvider (List String) where
  ID := fun supply =>
    match supply with
    | id :: rest => ((id, none), rest)
    | [] => (("", some (Error.other "no identifier")), [])

/-- The service over the in-memory collaborators, for a given external authorization
service and users service. -/
def memService (auth : AuthServiceClient) (users : UsersServiceClient) :
    thingsService MemDB MemCache (List String) where
  auth := auth
  users := users
  things := memThings
  profiles := memProfiles
  groups := memGroups
  groupMemberships := memGroupMemberships
  profileCache := memProfileCache
  thingCache := memThingCache
  groupCache := memGroupCache
  idProvider := memIDProvider

/-- The empty tenant: no rows, empty caches, no call made. -/
def emptyWorld (supply : List String) : World MemDB MemCache (List String) :=
  { db := ⟨[], [], [], []⟩, cache := ⟨[], [], [], []⟩, idp := supply, trace := [] }

/-! ## Calls and frames -/

/-- The calls made between `w` and a later world `w'`. -/
def calls (w w' : World DB C I) : List Call := w'.trace.drop w.trace.length

/-- A call that changes a repository. -/
def Call.isWrite : Call → Bool
  | .thingsSave _ | .thingsUpdate _ | .thingsUpdateKey _ _ | .thingsRemove _
  | .profilesSave _ | .profilesUpdate _ | .profilesRemove _
  | .groupsSave _ | .groupMembershipsSave _ => true
  | _ => false

/-- A call on the external authorization and identity service. -/
def Call.isAuthRPC : Call → Bool
  | .authAuthorize _ | .authIdentify _ => true
  | _ => false

/-- A call of the resolution paths: a cache lookup or cache write of the thing and
profile caches, or a repository retrieval by ID or by key. -/
def Call.isResolution : Call → Bool
  | .thingCacheID _ | .thingCacheSave _ _ | .thingCacheViewGroup _
  | .thingCacheSaveGroup _ _ | .profileCacheViewGroup _ | .profileCacheSaveGroup _ _
  | .thingsRetrieveByID _ | .thingsRetrieveByKey _ | .profilesRetrieveByID _ => true
  | _ => false

/-- A call that is a resolution call, an authorization RPC or a cache purge: what the
access checks and the purge loops do. -/
def Call.isCheck : Call → Bool
  | .thingCacheRemove _ | .thingCacheRemoveGroup _ | .profileCacheRemoveGroup _ => true
  | c => c.isResolution || c.isAuthRPC

/-- `w'` is `w` after calls that all satisfy `P`. -/
def Extends (P : Call → Prop) (w w' : World DB C I) : Prop :=
  ∃ evs, w'.trace = w.trace ++ evs ∧ ∀ c ∈ evs, P c

/-! ## Fixtures: an external authorization service and sample entities -/

/-- An authorization service: token "admin" passes every check, token "user" passes
the checks on group `g1` only, every other token is refused. -/
def sampleAuth : AuthServiceClient where
  Authorize := fun req =>
    if req.Token = "admin" then none
    else if req.Token = "user" ∧ req.Subject = GroupSub ∧ req.Object = "g1" then none
    else some (Error.other "unauthorized")
  Identify := fun token =>
    if token = "admin" ∨ token = "user" then (token, none)
    else ("", some (Error.other "unauthenticated"))

/-- A users service that knows nobody. -/
def sampleUsers : UsersServiceClient where
  GetUsersByIDs := fun _ => ([], none)

/-- The in-memory service behind `sampleAuth`. -/
def sampleService : thingsService MemDB MemCache (List String) :=
  memService sampleAuth sampleUsers

/-- Profile `p1` of group `g1`. -/
def profileP1 : Profile := ⟨"p1", "g1", "profile-1", none, none⟩

/-- Profile `p2` of group `g2`. -/
def profileP2 : Profile := ⟨"p2", "g2", "profile-2", none, none⟩

/-- Thing `t1` of group `g1`, with profile `p1`, key `k1` and the metadata `a = 1`. -/
def thingT1 : Thing := ⟨"t1", "g1", "p1", "thing-1", "k1", some [("a", .number 1)]⟩

/-- Thing `t2` of group `g2`, with profile `p2`, key `k2` and no metadata. -/
def thingT2 : Thing := ⟨"t2", "g2", "p2", "thing-2", "k2", none⟩

/-- A tenant with the profiles `p1` (group `g1`) and `p2` (group `g2`) and the things
`t1` (group `g1`, profile `p1`, key `k1`) and `t2` (group `g2`, profile `p2`, key `k2`);
the caches are empty. -/
def sampleWorld : World MemDB MemCache (List String) :=
  { db := ⟨[thingT1, thingT2], [profileP1, profileP2], [], []⟩
    cache := ⟨[], [], [], []⟩
    idp := ["id-1", "id-2", "id-3"]
    trace := [] }

/-- A thing cache that is switched off: every lookup misses, every write and purge
succeeds and stores nothing. -/
def disabledThingCache : ThingCache MemCache where
  ID := fun _ _ => ("", some Error.ErrNotFound)
  Save := fun c _ _ => (none, c)
  ViewGroup := fun _ _ => ("", some Error.ErrNotFound)
  SaveGroup := fun c _ _ => (none, c)
  Remove := fun c _ => (none, c)
  RemoveGroup := fun c _ => (none, c)

/-- A profile cache that is switched off. -/
def disabledProfileCache : ProfileCache MemCache where
  ViewGroup := fun _ _ => ("", some Error.ErrNotFound)
  SaveGroup := fun c _ _ => (none, c)
  RemoveGroup := fun c _ => (none, c)

/-- A group cache that is switched off. -/
def disabledGroupCache : GroupCache MemCache where
  RetrieveGroupIDsByMember := fun _ _ => ([], some Error.ErrNotFound)

/-- The sample service with its three caches switched off. -/
def uncachedService : thingsService MemDB MemCache (List String) :=
  { sampleService with
    thingCache := disabledThingCache
    profileCache := disabledProfileCache
    groupCache := disabledGroupCache }

/-! ## Reachable tenants and the group invariant -/

/-- The group of the persisted thing with the given ID. -/
def thingGroup (db : MemDB) (id : String) : Option String :=
  (db.thing id).map (fun t => t.GroupID)

/-- The group of the persisted profile with the given ID. -/
def profileGroup (db : MemDB) (id : String) : Option String :=
  (db.profile id).map (fun p => p.GroupID)

/-- The invariant of the data model: every persisted thing has the group of the
persisted profile it names. -/
def GroupConsistent (db : MemDB) : Prop :=
  ∀ t ∈ db.things, profileGroup db t.ProfileID = some t.GroupID

instance (db : MemDB) : Decidable (GroupConsistent db) := by
  unfold GroupConsistent
  infer_instance

/-- What holds of database and caches together in a tenant that was never restored:
the group invariant, distinct thing IDs, and group caches that agree with the rows. -/
structure Coherent (db : MemDB) (c : MemCache) : Prop where
  consistent : GroupConsistent db
  nodup : (db.things.map (fun t => t.ID)).Nodup
  thingCache : ∀ id g, c.thingGroups.lookup id = some g → thingGroup db id = some g
  profileCache : ∀ id g, c.profileGroups.lookup id = some g → profileGroup db id = some g

/-- A call of one of the mutating service operations. -/
inductive Op where
  | createProfiles (token : String) (profiles : List Profile)
  | createThings (token : String) (things : List Thing)
  | updateThing (token : String) (thing : Thing)
  | updateThingsMetadata (token : String) (things : List Thing)
  | updateKey (token id key : String)
  | updateProfile (token : String) (profile : Profile)
  | removeThings (token : String) (ids : List String)
  | removeProfiles (token : String) (ids : List String)
  | restore (token : String) (backup : Backup)

/-- Run an operation: the world it leaves when it succeeds (returns a nil error),
`none` when it returns an error or panics. -/
def Op.exec (ts : thingsService DB C I) : Op → World DB C I → Option (World DB C I)
  | .createProfiles token profiles, w =>
    match CreateProfiles ts token profiles w with
    | ((_, none), w') => some w'
    | ((_, some _), _) => none
  | .createThings token things, w =>
    match CreateThings ts token things w with
    | ((_, none), w') => some w'
    | ((_, some _), _) => none
  | .updateThing token thing, w =>
    match UpdateThing ts token thing w with
    | (none, w') => some w'
    | (some _, _) => none
  | .updateThingsMetadata token things, w =>
    match UpdateThingsMetadata ts token things w with
    | (.returned none, w') => some w'
    | _ => none
  | .updateKey token id key, w =>
    match UpdateKey ts token id key w with
    | (none, w') => some w'
    | (some _, _) => none
  | .updateProfile token profile, w =>
    match UpdateProfile ts token profile w with
    | (none, w') => some w'
    | (some _, _) => none
  | .removeThings token ids, w =>
    match RemoveThings ts token ids w with
    | (none, w') => some w'
    | (some _, _) => none
  | .removeProfiles token ids, w =>
    match RemoveProfiles ts token ids w with
    | (none, w') => some w'
    | (some _, _) => none
  | .restore token backup, w =>
    match Restore ts token backup w with
    | (none, w') => some w'
    | (some _, _) => none

/-- The worlds reachable from an empty tenant by successful operations, each of them
`allowed` in the world it is called in, over the in-memory collaborators; the external
authorization service may answer differently from one call to the next. -/
inductive Reachable (allowed : World MemDB MemCache (List String) → Op → Prop) :
    World MemDB MemCache (List String) → Prop
  | empty (supply : List String) : Reachable allowed (emptyWorld supply)
  | step {w w' : World MemDB MemCache (List String)} (auth : AuthServiceClient)
      (users : UsersServiceClient) (op : Op) :
      Reachable allowed w → allowed w op → op.exec (memService auth users) w = some w' →
      Reachable allowed w'

/-- A backup is consistent for a tenant when each of its things has the group of the
profile it names, that profile being already persisted or in the backup. -/
def Backup.consistentFor (backup : Backup) (db : MemDB) : Prop :=
  ∀ t ∈ backup.Things,
    profileGroup { db with profiles := db.profiles ++ backup.Profiles } t.ProfileID
      = some t.GroupID

instance (backup : Backup) (db : MemDB) : Decidable (backup.consistentFor db) := by
  unfold Backup.consistentFor
  infer_instance

/-- Every operation is admitted, a `Restore` only with a backup that is consistent for
the tenant it is restored into. -/
def Op.consistentRestore (w : World MemDB MemCache (List String)) : Op → Prop
  | .restore _ backup => backup.consistentFor w.db
  | _ => True

/-- The tenant after an admin restores, into the empty tenant, a backup whose only
thing is in group `g1` and names the profile `p2` of group `g2`. -/
def mismatchWorld : World MemDB MemCache (List String) :=
  (Restore sampleService "admin"
    ⟨[⟨"t9", "g1", "p2", "thing-9", "k9", none⟩], [profileP2], [], []⟩ (emptyWorld [])).2

/-- The tenant in which key `k` was first the key of thing `t1` and identified (which
caches it), then `t1` got another key, then thing `t2` was created with key `k`. -/
def staleKeyWorld : World MemDB MemCache (List String) :=
  let w1 := (CreateProfiles sampleService "admin" [profileP1] (emptyWorld [])).2
  let w2 := (CreateThings sampleService "admin" [⟨"t1", "g1", "p1", "thing-1", "k", none⟩] w1).2
  let w3 := (Identify sampleService "k" w2).2
  let w4 := (UpdateKey sampleService "admin" "t1" "k-new" w3).2
  (CreateThings sampleService "admin" [⟨"t2", "g1", "p1", "thing-2", "k", none⟩] w4).2

/-- The tenant after user "user" creates, in the empty tenant, the profile `p1` and the
thing `t1` and renames `t1`, and the admin then restores a backup with the thing `t2`
and its profile `p2`. -/
def consistentWorld : World MemDB MemCache (List String) :=
  let w1 := (CreateProfiles sampleService "user" [profileP1] (emptyWorld [])).2
  let w2 := (CreateThings sampleService "user" [thingT1] w1).2
  let w3 := (UpdateThing sampleService "user" { thingT1 with Name := "renamed" } w2).2
  (Restore sampleService "admin" ⟨[thingT2], [profileP2], [], []⟩ w3).2

/-! ## Backup, scoped listings, and the write plan of Restore -/

/-- The value `Backup{}`. -/
def Backup.zero : Backup := ⟨[], [], [], []⟩

/-- The value `ThingsPage{}`. -/
def ThingsPage.zero : ThingsPage := ⟨0, []⟩

/-- The value `ProfilesPage{}`. -/
def ProfilesPage.zero : ProfilesPage := ⟨0, []⟩

set_option linter.dupNamespace false in
/-- The struct `BackupGroupMemberships`. -/
structure BackupGroupMemberships where
  BackupGroupMemberships : List GroupMembership
  deriving DecidableEq, Repr

/-- The method `thingsService.Backup` (named with its receiver: `Backup` is also the
struct it returns). -/
def thingsService.Backup (ts : thingsService DB C I) (token : String) (w : World DB C I) :
    (Mainflux.Backup × Option Error) × World DB C I :=
  match isAdmin ts token w with
  | (some err, w) => ((Mainflux.Backup.zero, some err), w)
  | (none, w) =>
    let w := w.log .groupsBackupAll
    match ts.groups.BackupAll w.db with
    | (_, some err) => ((Mainflux.Backup.zero, some err), w)
    | (groups, none) =>
      let w := w.log .groupMembershipsBackupAll
      match ts.groupMemberships.BackupAll w.db with
      | (_, some err) => ((Mainflux.Backup.zero, some err), w)
      | (groupMemberships, none) =>
        let w := w.log .thingsBackupAll
        match ts.things.BackupAll w.db with
        | (_, some err) => ((Mainflux.Backup.zero, some err), w)
        | (things, none) =>
          let w := w.log .profilesBackupAll
          match ts.profiles.BackupAll w.db with
          | (_, some err) => ((Mainflux.Backup.zero, some err), w)
          | (profiles, none) =>
            (({ Things := things, Profiles := profiles, Groups := groups,
                GroupMemberships := groupMemberships }, none), w)

/-- The map built by the assignments `emailMap[user.Id] = user.Email` over the users in
order, as an association list in which a later assignment to a key stands before, and
so shadows, the earlier ones. -/
def emailMap (users : List User) : List (String × String) :=
  users.foldl (fun m user => (user.Id, user.Email) :: m) []

/-- The method `thingsService.BackupGroupMemberships` (named with its receiver:
`BackupGroupMemberships` is also the struct it returns).  Reading a key that is not in
`emailMap` gives the empty string. -/
def thingsService.BackupGroupMemberships (ts : thingsService DB C I) (token groupID : String)
    (w : World DB C I) : (Mainflux.BackupGroupMemberships × Option Error) × World DB C I :=
  let ar : UserAccessReq := { Token := token, ID := groupID, Action := Owner }
  match CanUserAccessGroup ts ar w with
  | (some err, w) => ((⟨[]⟩, some err), w)
  | (none, w) =>
    let w := w.log (.groupMembershipsBackupByGroup groupID)
    match ts.groupMemberships.BackupByGroup w.db groupID with
    | (_, some err) => ((⟨[]⟩, some err), w)
    | (groupMemberships, none) =>
      let memberIDs := groupMemberships.map (fun gm => gm.MemberID)
      let w := w.log (.usersGetUsersByIDs memberIDs)
      match ts.users.GetUsersByIDs memberIDs with
      | (_, some err) => ((⟨[]⟩, some err), w)
      | (users, none) =>
        ((⟨groupMemberships.map (fun gm =>
            { gm with Email := ((emailMap users).lookup gm.MemberID).getD "" })⟩, none), w)

/-- The method `thingsService.ListThingsByOrg`.  In the admin branch the error of
`RetrieveIDsByOrg` is local to the inner `if`; the `err` returned after it is the one
of `isAdmin`, which is nil there. -/
def ListThingsByOrg (ts : thingsService DB C I) (token orgID : String) (pm : PageMetadata)
    (w : World DB C I) : (ThingsPage × Option Error) × World DB C I :=
  match isAdmin ts token w with
  | (none, w) =>
    let w := w.log (.groupsRetrieveIDsByOrg orgID)
    match ts.groups.RetrieveIDsByOrg w.db orgID with
    | (grIDs, none) =>
      let w := w.log (.thingsRetrieveByGroups grIDs pm)
      (ts.things.RetrieveByGroups w.db grIDs pm, w)
    | (_, some _) => ((ThingsPage.zero, none), w)
  | (some _, w) =>
    match canAccessOrg ts token orgID OrgSub Viewer w with
    | (some err, w) => ((ThingsPage.zero, some err), w)
    | (none, w) =>
      let w := w.log (.authIdentify token)
      match ts.auth.Identify token with
      | (_, some err) => ((ThingsPage.zero, some (Error.wrap Error.ErrAuthentication err)), w)
      | (user, none) =>
        let w := w.log (.groupsRetrieveIDsByOrgMembership orgID user)
        match ts.groups.RetrieveIDsByOrgMembership w.db orgID user with
        | (_, some err) => ((ThingsPage.zero, some err), w)
        | (grIDs, none) =>
          let w := w.log (.thingsRetrieveByGroups grIDs pm)
          (ts.things.RetrieveByGroups w.db grIDs pm, w)

/-- The method `thingsService.ListProfilesByOrg`, see `ListThingsByOrg`. -/
def ListProfilesByOrg (ts : thingsService DB C I) (token orgID : String) (pm : PageMetadata)
    (w : World DB C I) : (ProfilesPage × Option Error) × World DB C I :=
  match isAdmin ts token w with
  | (none, w) =>
    let w := w.log (.groupsRetrieveIDsByOrg orgID)
    match ts.groups.RetrieveIDsByOrg w.db orgID with
    | (grIDs, none) =>
      let w := w.log (.profilesRetrieveByGroups grIDs pm)
      (ts.profiles.RetrieveByGroups w.db grIDs pm, w)
    | (_, some _) => ((ProfilesPage.zero, none), w)
  | (some _, w) =>
    match canAccessOrg ts token orgID OrgSub Viewer w with
    | (some err, w) => ((ProfilesPage.zero, some err), w)
    | (none, w) =>
      let w := w.log (.authIdentify token)
      match ts.auth.Identify token with
      | (_, some err) =>
        ((ProfilesPage.zero, some (Error.wrap Error.ErrAuthentication err)), w)
      | (user, none) =>
        let w := w.log (.groupsRetrieveIDsByOrgMembership orgID user)
        match ts.groups.RetrieveIDsByOrgMembership w.db orgID user with
        | (_, some err) => ((ProfilesPage.zero, some err), w)
        | (grIDs, none) =>
          let w := w.log (.profilesRetrieveByGroups grIDs pm)
          (ts.profiles.RetrieveByGroups w.db grIDs pm, w)

/-- A call on a repository, read or write. -/
def Call.isRepo : Call → Bool
  | .authAuthorize _ | .authIdentify _ | .usersGetUsersByIDs _
  | .thingCacheID _ | .thingCacheSave _ _ | .thingCacheViewGroup _
  | .thingCacheSaveGroup _ _ | .thingCacheRemove _ | .thingCacheRemoveGroup _
  | .profileCacheViewGroup _ | .profileCacheSaveGroup _ _ | .profileCacheRemoveGroup _
  | .groupCacheRetrieveGroupIDsByMember _ | .idProviderID => false
  | _ => true

/-- The membership that `Restore` saves for a membership of the backup: member, group
and role. -/
def restoredMembership (g : GroupMembership) : GroupMembership :=
  { MemberID := g.MemberID, GroupID := g.GroupID, Email := "", Role := g.Role }

/-- The repository writes of a restore as the specification orders them: `groups.Save`
once per group in backup order, then `things.Save` with all things, then
`profiles.Save` with all profiles, then `groupMemberships.Save` once per membership in
backup order. -/
def restoreWrites (backup : Backup) : List Call :=
  backup.Groups.map Call.groupsSave ++
    [Call.thingsSave backup.Things, Call.profilesSave backup.Profiles] ++
    backup.GroupMemberships.map (fun g => Call.groupMembershipsSave (restoredMembership g))

/-- What one of the four `Save` calls does to the database: its error and the database
it leaves. -/
def Call.apply (ts : thingsService DB C I) : Call → DB → Option Error × DB
  | .groupsSave g, db => ((ts.groups.Save db g).1.2, (ts.groups.Save db g).2)
  | .thingsSave ths, db => ((ts.things.Save db ths).1.2, (ts.things.Save db ths).2)
  | .profilesSave prs, db => ((ts.profiles.Save db prs).1.2, (ts.profiles.Save db prs).2)
  | .groupMembershipsSave gm, db => ts.groupMemberships.Save db gm
  | _, db => (none, db)

/-- The database after the writes `cs`, made one after the other. -/
def applyWrites (ts : thingsService DB C I) (cs : List Call) (db : DB) : DB :=
  cs.foldl (fun db c => (c.apply ts db).2) db

/-- Every write of `cs`, made one after the other from `db`, succeeds. -/
def allSucceed (ts : thingsService DB C I) : List Call → DB → Prop
  | [], _ => True
  | c :: cs, db => (c.apply ts db).1 = none ∧ allSucceed ts cs (c.apply ts db).2

instance allSucceed.decidable (ts : thingsService DB C I) :
    (cs : List Call) → (db : DB) → Decidable (allSucceed ts cs db)
  | [], _ => isTrue trivial
  | c :: cs, db =>
    have := allSucceed.decidable ts cs (c.apply ts db).2
    inferInstanceAs
      (Decidable ((c.apply ts db).1 = none ∧ allSucceed ts cs (c.apply ts db).2))

/-- Make the writes `cs` in order, each on the database left by the one before, and
stop at the first that fails, returning its error. -/
def runWrites (ts : thingsService DB C I) : List Call → World DB C I →
    Option Error × World DB C I
  | [], w => (none, w)
  | c :: cs, w =>
    match c.apply ts w.db with
    | (some err, db) => (some err, { w.log c with db := db })
    | (none, db) => runWrites ts cs { w.log c with db := db }

/-! ## Well-formed rows -/

/-- Modelled from the spec: the constraints of the persisted rows of a tenant.  IDs are
unique for each kind of entity, the key of a thing is unique, a member has one
membership for each group, and a persisted membership is member, group and role: the
email is not a stored attribute (`Restore` saves none). -/
structure MemDB.WellFormed (db : MemDB) : Prop where
  things_ids : (db.things.map (fun t => t.ID)).Nodup
  things_keys : (db.things.map (fun t => t.Key)).Nodup
  profiles_ids : (db.profiles.map (fun p => p.ID)).Nodup
  groups_ids : (db.groups.map (fun g => g.ID)).Nodup
  memberships_pairs : (db.memberships.map (fun m => (m.MemberID, m.GroupID))).Nodup
  memberships_email : ∀ m ∈ db.memberships, m.Email = ""

/-! ## Fixtures: a tenant with groups, members and a users directory -/

/-- A things repository whose `Save` reports success, stores nothing and returns an
empty list; every other method is that of `memThings`. -/
def silentThings : ThingRepository MemDB :=
  { memThings with Save := fun db _ => (([], none), db) }

/-- The sample service over `silentThings`. -/
def silentService : thingsService MemDB MemCache (List String) :=
  { sampleService with things := silentThings }

/-- A users service with one account: the user "user" with the email
"user@example.com". -/
def directoryUsers : UsersServiceClient where
  GetUsersByIDs := fun ids =>
    ([(⟨"user", "user@example.com"⟩ : User)].filter (fun u => ids.contains u.Id), none)

/-- An authorization service: as `sampleAuth`, and token "user" also passes the checks
on the org `o1`. -/
def orgAuth : AuthServiceClient where
  Authorize := fun req =>
    if req.Token = "admin" then none
    else if req.Token = "user" ∧ ((req.Subject = GroupSub ∧ req.Object = "g1")
        ∨ (req.Subject = OrgSub ∧ req.Object = "o1")) then none
    else some (Error.other "unauthorized")
  Identify := sampleAuth.Identify

/-- The in-memory service behind `orgAuth` and `directoryUsers`. -/
def tenantService : thingsService MemDB MemCache (List String) :=
  memService orgAuth directoryUsers

/-- Group `g1` of org `o1`. -/
def groupG1 : Group := ⟨"g1", "o1", "group-1", "", none, 1, 1⟩

/-- Group `g2` of org `o1`. -/
def groupG2 : Group := ⟨"g2", "o1", "group-2", "", none, 2, 2⟩

/-- The tenant of `sampleWorld` with its groups `g1` and `g2`, both of org `o1`, and one
membership: user "user" is a viewer of `g1`. -/
def tenantWorld : World MemDB MemCache (List String) :=
  { db := ⟨[thingT1, thingT2], [profileP1, profileP2], [groupG1, groupG2],
      [⟨"user", "g1", "", "viewer"⟩]⟩
    cache := ⟨[], [], [], []⟩
    idp := ["id-1", "id-2", "id-3"]
    trace := [] }

/-! ## Listings, backups of an org, publisher configuration -/

/-- The method `thingsService.ListThings`. -/
def ListThings (ts : thingsService DB C I) (token : String) (pm : PageMetadata)
    (w : World DB C I) : (ThingsPage × Option Error) × World DB C I :=
  match isAdmin ts token w with
  | (none, w) =>
    let w := w.log (.thingsRetrieveAll pm)
    (ts.things.RetrieveAll w.db pm, w)
  | (some _, w) =>
    let w := w.log (.authIdentify token)
    match ts.auth.Identify token with
    | (_, some err) => ((ThingsPage.zero, some (Error.wrap Error.ErrAuthentication err)), w)
    | (res, none) =>
      match getGroupIDsByMemberID ts res w with
      | ((_, some err), w) => ((ThingsPage.zero, some err), w)
      | ((grIDs, none), w) =>
        let w := w.log (.thingsRetrieveByGroups grIDs pm)
        (ts.things.RetrieveByGroups w.db grIDs pm, w)

/-- The method `thingsService.ListProfiles`. -/
def ListProfiles (ts : thingsService DB C I) (token : String) (pm : PageMetadata)
    (w : World DB C I) : (ProfilesPage × Option Error) × World DB C I :=
  match isAdmin ts token w with
  | (none, w) =>
    let w := w.log (.profilesRetrieveAll pm)
    (ts.profiles.RetrieveAll w.db pm, w)
  | (some _, w) =>
    let w := w.log (.authIdentify token)
    match ts.auth.Identify token with
    | (_, some err) =>
      ((ProfilesPage.zero, some (Error.wrap Error.ErrAuthentication err)), w)
    | (res, none) =>
      match getGroupIDsByMemberID ts res w with
      | ((_, some err), w) => ((ProfilesPage.zero, some err), w)
      | ((grIDs, none), w) =>
        let w := w.log (.profilesRetrieveByGroups grIDs pm)
        (ts.profiles.RetrieveByGroups w.db grIDs pm, w)

/-- The struct `BackupGroupsByOrg`. -/
structure BackupGroupsByOrg where
  Groups : List Group
  deriving DecidableEq, Repr

/-- The struct `ThingsBackup`. -/
structure ThingsBackup where
  Things : List Thing
  deriving DecidableEq, Repr

/-- The struct `ProfilesBackup`. -/
structure ProfilesBackup where
  Profiles : List Profile
  deriving DecidableEq, Repr

/-- The method `thingsService.BackupGroupsByOrg` (named with its receiver:
`BackupGroupsByOrg` is also the struct it returns). -/
def thingsService.BackupGroupsByOrg (ts : thingsService DB C I) (token orgID : String)
    (w : World DB C I) : (Mainflux.BackupGroupsByOrg × Option Error) × World DB C I :=
  match canAccessOrg ts token orgID OrgSub Owner w with
  | (some err, w) => ((⟨[]⟩, some err), w)
  | (none, w) =>
    let w := w.log (.groupsBackupByOrg orgID)
    match ts.groups.BackupByOrg w.db orgID with
    | (_, some err) => ((⟨[]⟩, some err), w)
    | (groups, none) => ((⟨groups⟩, none), w)

/-- The method `thingsService.BackupThingsByOrg`. -/
def BackupThingsByOrg (ts : thingsService DB C I) (token orgID : String)
    (w : World DB C I) : (ThingsBackup × Option Error) × World DB C I :=
  match canAccessOrg ts token orgID OrgSub Owner w with
  | (some err, w) => ((⟨[]⟩, some err), w)
  | (none, w) =>
    let w := w.log (.groupsRetrieveIDsByOrg orgID)
    match ts.groups.RetrieveIDsByOrg w.db orgID with
    | (_, some err) => ((⟨[]⟩, some err), w)
    | (grIDs, none) =>
      let w := w.log (.thingsBackupByGroups grIDs)
      match ts.things.BackupByGroups w.db grIDs with
      | (_, some err) => ((⟨[]⟩, some err), w)
      | (things, none) => ((⟨things⟩, none), w)

/-- The method `thingsService.BackupProfilesByOrg`. -/
def BackupProfilesByOrg (ts : thingsService DB C I) (token orgID : String)
    (w : World DB C I) : (ProfilesBackup × Option Error) × World DB C I :=
  match canAccessOrg ts token orgID OrgSub Owner w with
  | (some err, w) => ((⟨[]⟩, some err), w)
  | (none, w) =>
    let w := w.log (.groupsRetrieveIDsByOrg orgID)
    match ts.groups.RetrieveIDsByOrg w.db orgID with
    | (_, some err) => ((⟨[]⟩, some err), w)
    | (grIDs, none) =>
      let w := w.log (.profilesBackupByGroups grIDs)
      match ts.profiles.BackupByGroups w.db grIDs with
      | (_, some err) => ((⟨[]⟩, some err), w)
      | (profiles, none) => ((⟨profiles⟩, none), w)

/-- The struct `PubConfInfo`. -/
structure PubConfInfo where
  PublisherID : String
  ProfileConfig : Metadata
  deriving DecidableEq, Repr

/-- The value `PubConfInfo{}`. -/
def PubConfInfo.zero : PubConfInfo := ⟨"", none⟩

/-- The method `thingsService.GetPubConfByKey`. -/
def GetPubConfByKey (ts : thingsService DB C I) (thingKey : String) (w : World DB C I) :
    (PubConfInfo × Option Error) × World DB C I :=
  let w := w.log (.thingCacheID thingKey)
  let resolved : (String × Option Error) × World DB C I :=
    match ts.thingCache.ID w.cache thingKey with
    | (thID, none) => ((thID, none), w)
    | (_, some _) =>
      let w := w.log (.thingsRetrieveByKey thingKey)
      match ts.things.RetrieveByKey w.db thingKey with
      | (_, some err) => (("", some err), w)
      | (id, none) =>
        let w := w.log (.thingCacheSave thingKey id)
        match ts.thingCache.Save w.cache thingKey id with
        | (some err, c) => (("", some err), { w with cache := c })
        | (none, c) => ((id, none), { w with cache := c })
  match resolved with
  | ((_, some err), w) => ((PubConfInfo.zero, some err), w)
  | ((thID, none), w) =>
    let w := w.log (.profilesRetrieveByThing thID)
    match ts.profiles.RetrieveByThing w.db thID with
    | (_, some err) => ((PubConfInfo.zero, some err), w)
    | (profile, none) =>
      (({ PublisherID := thID, ProfileConfig := profile.Config }, none), w)

/-! ## The rules service: `Publish` -/

/-- Modelled from the spec: `protomfx.Message`, which is not among the sources: the
fields `Publish` reads or sets.  A payload (`[]byte`) is carried as its text. -/
structure Message where
  Publisher : String
  Subject : String
  ContentType : String
  Payload : String
  deriving DecidableEq, Repr

/-- What `json.Unmarshal` stores in an `interface{}`: nil (`null`, to which the JSON
null decodes), a bool, a `float64` (of type `F`), a string, a `[]interface{}` or a
`map[string]interface{}`, whose entries are listed with distinct keys. -/
inductive JSONValue (F : Type) where
  | null
  | bool (b : Bool)
  | number (f : F)
  | string (s : String)
  | array (items : List (JSONValue F))
  | object (fields : List (String × JSONValue F))

/-- Modelled from the spec: the struct `Action` of a rule, which is not among the
sources: the fields `Publish` reads.  `Kind` is the Go field `Type`. -/
structure Action where
  Kind : String
  ID : String
  deriving DecidableEq, Repr

/-- A call of `Publish` on a collaborator. -/
inductive PubCall where
  | thingsGetProfileIDByThingID (id : String)
  | rulesRetrieveByProfile (profileID : String)
  | publisherPublish (msg : Message)
  deriving DecidableEq, Repr

/-- The state around a `Publish` call: the publisher and the calls made so far. -/
structure PubWorld (P : Type) where
  pub : P
  trace : List PubCall

/-- Record a call. -/
def PubWorld.log {P : Type} (w : PubWorld P) (c : PubCall) : PubWorld P :=
  { w with trace := w.trace ++ [c] }

/-- A group repository whose `RetrieveIDsByOrg` fails; every other method is that of
`memGroups`. -/
def brokenGroups : GroupRepository MemDB :=
  { memGroups with RetrieveIDsByOrg := fun _ _ => ([], some (Error.other "db down")) }

/-- The tenant service over `brokenGroups`. -/
def brokenGroupsService : thingsService MemDB MemCache (List String) :=
  { tenantService with groups := brokenGroups }

/-- A thing cache that cannot be written: every lookup misses and every write fails
with "cache down"; the purges are those of `memThingCache`. -/
def readOnlyThingCache : ThingCache MemCache :=
  { memThingCache with
    ID := fun _ _ => ("", some Error.ErrNotFound)
    Save := fun c _ _ => (some (Error.other "cache down"), c)
    ViewGroup := fun _ _ => ("", some Error.ErrNotFound)
    SaveGroup := fun c _ _ => (some (Error.other "cache down"), c) }

/-- A profile cache that cannot be written. -/
def readOnlyProfileCache : ProfileCache MemCache :=
  { memProfileCache with
    ViewGroup := fun _ _ => ("", some Error.ErrNotFound)
    SaveGroup := fun c _ _ => (some (Error.other "cache down"), c) }

/-- The sample service over caches that cannot be written. -/
def readOnlyCacheService : thingsService MemDB MemCache (List String) :=
  { sampleService with
    thingCache := readOnlyThingCache
    profileCache := readOnlyProfileCache }

/-- The tenant of `sampleWorld` with a warm thing cache: the keys and the groups of
`t1` and `t2` are cached. -/
def warmWorld : World MemDB MemCache (List String) :=
  { sampleWorld with
    cache := ⟨[("k1", "t1"), ("k2", "t2")], [("t1", "g1"), ("t2", "g2")], [], []⟩ }

/-! ## Fixtures: a JSON codec for whole numbers -/

/-- A token of a JSON text. -/
inductive Token where
  | lbrace
  | rbrace
  | lbrack
  | rbrack
  | colon
  | comma
  | str (s : String)
  | num (n : Int)
  | tru
  | fls
  | nul

/-- The entries `fields` of an object with the entry of `key` put before them; a later
entry of the same key wins, as in a Go map. -/
def putFirst (key : String) (value : JSONValue Int) (fields : List (String × JSONValue Int)) :
    List (String × JSONValue Int) :=
  if fields.any (fun e => e.1 == key) then fields else (key, value) :: fields

mutual

/-- Read a value at the head of the tokens. -/
def parseValue : Nat → List Token → Option (JSONValue Int × List Token)
  | 0, _ => none
  | _ + 1, .str s :: ts => some (.string s, ts)
  | _ + 1, .num n :: ts => some (.number n, ts)
  | _ + 1, .tru :: ts => some (.bool true, ts)
  | _ + 1, .fls :: ts => some (.bool false, ts)
  | _ + 1, .nul :: ts => some (.null, ts)
  | _ + 1, .lbrack :: .rbrack :: ts => some (.array [], ts)
  | fuel + 1, .lbrack :: ts =>
    match parseElems fuel ts with
    | some (items, rest) => some (.array items, rest)
    | none => none
  | _ + 1, .lbrace :: .rbrace :: ts => some (.object [], ts)
  | fuel + 1, .lbrace :: ts =>
    match parseMembers fuel ts with
    | some (fields, rest) => some (.object fields, rest)
    | none => none
  | _, _ => none

/-- Read the items of a non-empty array, up to its closing bracket. -/
def parseElems : Nat → List Token → Option (List (JSONValue Int) × List Token)
  | 0, _ => none
  | fuel + 1, ts =>
    match parseValue fuel ts with
    | some (v, .comma :: rest) =>
      match parseElems fuel rest with
      | some (vs, rest) => some (v :: vs, rest)
      | none => none
    | some (v, .rbrack :: rest) => some ([v], rest)
    | _ => none

/-- Read the entries of a non-empty object, up to its closing brace. -/
def parseMembers : Nat → List Token → Option (List (String × JSONValue Int) × List Token)
  | 0, _ => none
  | fuel + 1, .str key :: .colon :: ts =>
    match parseValue fuel ts with
    | some (v, .comma :: rest) =>
      match parseMembers fuel rest with
      | some (fields, rest) => some (putFirst key v fields, rest)
      | none => none
    | some (v, .rbrace :: rest) => some ([(key, v)], rest)
    | _ => none
  | _, _ => none

end

/-- The characters `json.Marshal` writes for a character of a string that has no quote,
backslash or control character: itself, or the escape of `<`, `>`, `&` and of the two
line separators. -/
def encodeChar (c : Char) : List Char :=
  if c.toNat = 60 then [Char.ofNat 92] ++ "u003c".toList
  else if c.toNat = 62 then [Char.ofNat 92] ++ "u003e".toList
  else if c.toNat = 38 then [Char.ofNat 92] ++ "u0026".toList
  else if c.toNat = 8232 then [Char.ofNat 92] ++ "u2028".toList
  else if c.toNat = 8233 then [Char.ofNat 92] ++ "u2029".toList
  else [c]

/-- The text of a string. -/
def encodeString (s : String) : String :=
  String.mk ([Char.ofNat 34] ++ (s.toList.map encodeChar).flatten ++ [Char.ofNat 34])

/-- The order of `sort.Strings`: by bytes, which for UTF-8 is by code points. -/
def keyLE : List Char → List Char → Bool
  | [], _ => true
  | _ :: _, [] => false
  | a :: as, b :: bs => a.toNat < b.toNat || (a.toNat == b.toNat && keyLE as bs)

/-- Insert an entry into entries sorted by key. -/
def insertByKey (e : String × String) : List (String × String) → List (String × String)
  | [] => [e]
  | x :: xs => if keyLE e.1.toList x.1.toList then e :: x :: xs else x :: insertByKey e xs

/-- Join texts with commas. -/
def commaJoin : List String → String
  | [] => ""
  | [x] => x
  | x :: xs => x ++ "," ++ commaJoin xs

mutual

/-- The text of a value as `json.Marshal` writes it: no spaces, the keys of an object
in sorted order, a whole number in decimal digits. -/
def encodeValue : JSONValue Int → String
  | .null => "null"
  | .bool true => "true"
  | .bool false => "false"
  | .number n => toString n
  | .string s => encodeString s
  | .array items => "[" ++ commaJoin (encodeItems items) ++ "]"
  | .object fields =>
    String.mk [Char.ofNat 123]
      ++ commaJoin (((encodeFields fields).foldr insertByKey []).map
          (fun e => encodeString e.1 ++ ":" ++ e.2))
      ++ String.mk [Char.ofNat 125]

/-- The texts of the items of an array. -/
def encodeItems : List (JSONValue Int) → List String
  | [] => []
  | v :: vs => encodeValue v :: encodeItems vs

/-- The keys of an object, each with the text of its value. -/
def encodeFields : List (String × JSONValue Int) → List (String × String)
  | [] => []
  | (k, v) :: rest => (k, encodeValue v) :: encodeFields rest

end

@[simp] theorem World.log_db (w : World DB C I) (c : Call) : (w.log c).db = w.db := rfl

@[simp] theorem World.log_cache (w : World DB C I) (c : Call) : (w.log c).cache = w.cache := rfl

@[simp] theorem World.log_idp (w : World DB C I) (c : Call) : (w.log c).idp = w.idp := rfl

@[simp] theorem World.log_trace (w : World DB C I) (c : Call) :
    (w.log c).trace = w.trace ++ [c] := rfl

theorem Call.isResolution_not_write {c : Call} (h : c.isResolution = true) :
    c.isWrite = false := by
  cases c <;> simp_all [Call.isResolution, Call.isWrite]

theorem Call.isResolution_not_auth {c : Call} (h : c.isResolution = true) :
    c.isAuthRPC = false := by
  cases c <;> simp_all [Call.isResolution, Call.isAuthRPC]

theorem Call.isResolution_check {c : Call} (h : c.isResolution = true) :
    c.isCheck = true := by
  cases c <;> simp_all [Call.isResolution, Call.isCheck]

theorem Call.isAuthRPC_check {c : Call} (h : c.isAuthRPC = true) : c.isCheck = true := by
  cases c <;> simp_all [Call.isAuthRPC, Call.isCheck, Call.isResolution]

theorem Call.isCheck_not_write {c : Call} (h : c.isCheck = true) : c.isWrite = false := by
  cases c <;> simp_all [Call.isCheck, Call.isWrite, Call.isResolution, Call.isAuthRPC]

theorem Extends.refl (P : Call → Prop) (w : World DB C I) : Extends P w w :=
  ⟨[], by simp, by simp⟩

theorem Extends.trans {P : Call → Prop} {w₁ w₂ w₃ : World DB C I}
    (h₁ : Extends P w₁ w₂) (h₂ : Extends P w₂ w₃) : Extends P w₁ w₃ := by
  obtain ⟨e₁, ht₁, hp₁⟩ := h₁
  obtain ⟨e₂, ht₂, hp₂⟩ := h₂
  refine ⟨e₁ ++ e₂, by rw [ht₂, ht₁, List.append_assoc], ?_⟩
  intro c hc
  rcases List.mem_append.mp hc with h | h
  · exact hp₁ c h
  · exact hp₂ c h

theorem Extends.mono {P Q : Call → Prop} {w w' : World DB C I} (h : Extends P w w')
    (hPQ : ∀ c, P c → Q c) : Extends Q w w' := by
  obtain ⟨e, ht, hp⟩ := h
  exact ⟨e, ht, fun c hc => hPQ c (hp c hc)⟩

theorem Extends.mem_calls {P : Call → Prop} {w w' : World DB C I} (h : Extends P w w') :
    ∀ c ∈ calls w w', P c := by
  obtain ⟨e, ht, hp⟩ := h
  simpa [calls, ht] using hp

theorem calls_of_trace {w w' : World DB C I} {evs : List Call}
    (h : w'.trace = w.trace ++ evs) : calls w w' = evs := by
  simp [calls, h]

theorem filter_isWrite_eq_nil {evs : List Call} (h : ∀ c ∈ evs, c.isWrite = false) :
    evs.filter Call.isWrite = [] := by
  rw [List.filter_eq_nil_iff]
  intro c hc
  simp [h c hc]

/-! ## Frames: what the resolutions, access checks and loops leave unchanged -/

theorem isAdmin_frame (ts : thingsService DB C I) (token : String) (w : World DB C I) :
    (isAdmin ts token w).2.db = w.db ∧ (isAdmin ts token w).2.cache = w.cache ∧
    (isAdmin ts token w).2.idp = w.idp ∧
    Extends (fun c => c.isAuthRPC = true) w (isAdmin ts token w).2 := by
  unfold isAdmin
  simp only []
  split <;> simp [Extends, Call.isAuthRPC]

theorem canAccessOrg_frame (ts : thingsService DB C I) (token orgID subject action : String)
    (w : World DB C I) :
    (canAccessOrg ts token orgID subject action w).2.db = w.db ∧
    (canAccessOrg ts token orgID subject action w).2.cache = w.cache ∧
    (canAccessOrg ts token orgID subject action w).2.idp = w.idp ∧
    Extends (fun c => c.isAuthRPC = true) w (canAccessOrg ts token orgID subject action w).2 := by
  unfold canAccessOrg
  simp only []
  split <;> simp [Extends, Call.isAuthRPC]

theorem canAccessGroup_frame (ts : thingsService DB C I) (token groupID action : String)
    (w : World DB C I) :
    (canAccessGroup ts token groupID action w).2.db = w.db ∧
    (canAccessGroup ts token groupID action w).2.cache = w.cache ∧
    (canAccessGroup ts token groupID action w).2.idp = w.idp ∧
    Extends (fun c => c.isAuthRPC = true) w (canAccessGroup ts token groupID action w).2 := by
  unfold canAccessGroup
  have h1 := isAdmin_frame ts token w
  rcases h : isAdmin ts token w with ⟨_ | e, w1⟩
  · rw [h] at h1
    exact h1
  · rw [h] at h1
    obtain ⟨hd, hc, hi, he⟩ := h1
    simp only [] at hd hc hi he ⊢
    have h2 : Extends (fun c => c.isAuthRPC = true) w1 (w1.log (.authAuthorize
        { Token := token, Object := groupID, Subject := GroupSub, Action := action })) :=
      ⟨[_], rfl, by simp [Call.isAuthRPC]⟩
    split <;> exact ⟨hd, hc, hi, he.trans h2⟩

theorem Identify_frame (ts : thingsService DB C I) (key : String) (w : World DB C I) :
    (Identify ts key w).2.db = w.db ∧ (Identify ts key w).2.idp = w.idp ∧
    Extends (fun c => c.isResolution = true) w (Identify ts key w).2 := by
  unfold Identify
  simp only []
  split
  · simp [Extends, Call.isResolution]
  · split
    · simp [Extends, Call.isResolution]
    · split <;> simp [Extends, Call.isResolution]

theorem getGroupIDByThingID_frame (ts : thingsService DB C I) (thID : String)
    (w : World DB C I) :
    (getGroupIDByThingID ts thID w).2.db = w.db ∧
    (getGroupIDByThingID ts thID w).2.idp = w.idp ∧
    Extends (fun c => c.isResolution = true) w (getGroupIDByThingID ts thID w).2 := by
  unfold getGroupIDByThingID
  simp only []
  split
  · simp [Extends, Call.isResolution]
  · split
    · simp [Extends, Call.isResolution]
    · split <;> simp [Extends, Call.isResolution]

theorem getGroupIDByProfileID_frame (ts : thingsService DB C I) (prID : String)
    (w : World DB C I) :
    (getGroupIDByProfileID ts prID w).2.db = w.db ∧
    (getGroupIDByProfileID ts prID w).2.idp = w.idp ∧
    Extends (fun c => c.isResolution = true) w (getGroupIDByProfileID ts prID w).2 := by
  unfold getGroupIDByProfileID
  simp only []
  split
  · simp [Extends, Call.isResolution]
  · split
    · simp [Extends, Call.isResolution]
    · split <;> simp [Extends, Call.isResolution]

theorem CanUserAccessGroup_frame (ts : thingsService DB C I) (req : UserAccessReq)
    (w : World DB C I) :
    (CanUserAccessGroup ts req w).2.db = w.db ∧
    (CanUserAccessGroup ts req w).2.cache = w.cache ∧
    (CanUserAccessGroup ts req w).2.idp = w.idp ∧
    Extends (fun c => c.isAuthRPC = true) w (CanUserAccessGroup ts req w).2 :=
  canAccessGroup_frame ts req.Token req.ID req.Action w

theorem CanUserAccessThing_frame (ts : thingsService DB C I) (req : UserAccessReq)
    (w : World DB C I) :
    (CanUserAccessThing ts req w).2.db = w.db ∧
    (CanUserAccessThing ts req w).2.idp = w.idp ∧
    Extends (fun c => c.isCheck = true) w (CanUserAccessThing ts req w).2 := by
  unfold CanUserAccessThing
  have h1 := getGroupIDByThingID_frame ts req.ID w
  rcases h : getGroupIDByThingID ts req.ID w with ⟨⟨g, _ | e⟩, w1⟩
  · rw [h] at h1
    have h2 := canAccessGroup_frame ts req.Token g req.Action w1
    simp only []
    refine ⟨by rw [h2.1, h1.1], by rw [h2.2.2.1, h1.2.1], ?_⟩
    exact (h1.2.2.mono fun c => Call.isResolution_check).trans
      (h2.2.2.2.mono fun c => Call.isAuthRPC_check)
  · rw [h] at h1
    exact ⟨h1.1, h1.2.1, h1.2.2.mono fun c => Call.isResolution_check⟩

theorem CanUserAccessProfile_frame (ts : thingsService DB C I) (req : UserAccessReq)
    (w : World DB C I) :
    (CanUserAccessProfile ts req w).2.db = w.db ∧
    (CanUserAccessProfile ts req w).2.idp = w.idp ∧
    Extends (fun c => c.isCheck = true) w (CanUserAccessProfile ts req w).2 := by
  unfold CanUserAccessProfile
  have h1 := getGroupIDByProfileID_frame ts req.ID w
  rcases h : getGroupIDByProfileID ts req.ID w with ⟨⟨g, _ | e⟩, w1⟩
  · rw [h] at h1
    have h2 := canAccessGroup_frame ts req.Token g req.Action w1
    simp only []
    refine ⟨by rw [h2.1, h1.1], by rw [h2.2.2.1, h1.2.1], ?_⟩
    exact (h1.2.2.mono fun c => Call.isResolution_check).trans
      (h2.2.2.2.mono fun c => Call.isAuthRPC_check)
  · rw [h] at h1
    exact ⟨h1.1, h1.2.1, h1.2.2.mono fun c => Call.isResolution_check⟩

theorem RemoveThings_loop_append (ts : thingsService DB C I) (token : String)
    (pre rest : List String) (w : World DB C I) :
    RemoveThings_loop ts token (pre ++ rest) w =
      match RemoveThings_loop ts token pre w with
      | (none, w1) => RemoveThings_loop ts token rest w1
      | (some e, w1) => (some e, w1) := by
  induction pre generalizing w with
  | nil => simp [RemoveThings_loop]
  | cons id pre ih =>
    simp only [List.cons_append, RemoveThings_loop]
    split
    · rfl
    · split
      · rfl
      · split
        · rfl
        · exact ih _

theorem RemoveProfiles_loop_append (ts : thingsService DB C I) (token : String)
    (pre rest : List String) (w : World DB C I) :
    RemoveProfiles_loop ts token (pre ++ rest) w =
      match RemoveProfiles_loop ts token pre w with
      | (none, w1) => RemoveProfiles_loop ts token rest w1
      | (some e, w1) => (some e, w1) := by
  induction pre generalizing w with
  | nil => simp [RemoveProfiles_loop]
  | cons id pre ih =>
    simp only [List.cons_append, RemoveProfiles_loop]
    split
    · rfl
    · split
      · rfl
      · exact ih _

theorem RemoveThings_loop_frame (ts : thingsService DB C I) (token : String)
    (ids : List String) (w : World DB C I) :
    (RemoveThings_loop ts token ids w).2.db = w.db ∧
    (RemoveThings_loop ts token ids w).2.idp = w.idp ∧
    Extends (fun c => c.isCheck = true) w (RemoveThings_loop ts token ids w).2 := by
  induction ids generalizing w with
  | nil => exact ⟨rfl, rfl, Extends.refl _ _⟩
  | cons id ids ih =>
    have h1 := CanUserAccessThing_frame ts ⟨token, id, Editor⟩ w
    simp only [RemoveThings_loop]
    rcases ha : CanUserAccessThing ts ⟨token, id, Editor⟩ w with ⟨_ | e, w1⟩
    · rw [ha] at h1
      obtain ⟨hd, hi, he⟩ := h1
      simp only [] at hd hi he ⊢
      have he1 : Extends (fun c => c.isCheck = true) w (w1.log (.thingCacheRemove id)) :=
        he.trans ⟨[_], rfl, by simp [Call.isCheck]⟩
      split
      · exact ⟨hd, hi, he1⟩
      · next c1 hc1 =>
        have he2 : Extends (fun c => c.isCheck = true) w
            (({ w1.log (.thingCacheRemove id) with cache := c1 } : World DB C I).log
              (.thingCacheRemoveGroup id)) :=
          he1.trans ⟨[_], rfl, by simp [Call.isCheck]⟩
        split
        · exact ⟨hd, hi, he2⟩
        · next c2 hc2 =>
          have := ih ({ ({ w1.log (.thingCacheRemove id) with cache := c1 } :
            World DB C I).log (.thingCacheRemoveGroup id) with cache := c2 })
          exact ⟨this.1.trans hd, this.2.1.trans hi, he2.trans this.2.2⟩
    · rw [ha] at h1
      exact h1

theorem RemoveProfiles_loop_frame (ts : thingsService DB C I) (token : String)
    (ids : List String) (w : World DB C I) :
    (RemoveProfiles_loop ts token ids w).2.db = w.db ∧
    (RemoveProfiles_loop ts token ids w).2.idp = w.idp ∧
    Extends (fun c => c.isCheck = true) w (RemoveProfiles_loop ts token ids w).2 := by
  induction ids generalizing w with
  | nil => exact ⟨rfl, rfl, Extends.refl _ _⟩
  | cons id ids ih =>
    have h1 := CanUserAccessProfile_frame ts ⟨token, id, Editor⟩ w
    simp only [RemoveProfiles_loop]
    rcases ha : CanUserAccessProfile ts ⟨token, id, Editor⟩ w with ⟨_ | e, w1⟩
    · rw [ha] at h1
      obtain ⟨hd, hi, he⟩ := h1
      simp only [] at hd hi he ⊢
      have he1 : Extends (fun c => c.isCheck = true) w
          (w1.log (.profileCacheRemoveGroup id)) :=
        he.trans ⟨[_], rfl, by simp [Call.isCheck]⟩
      split
      · exact ⟨hd, hi, he1⟩
      · next c1 hc1 =>
        have := ih ({ w1.log (.profileCacheRemoveGroup id) with cache := c1 })
        exact ⟨this.1.trans hd, this.2.1.trans hi, he1.trans this.2.2⟩
    · rw [ha] at h1
      exact h1

theorem UpdateThingsMetadata_append (ts : thingsService DB C I) (token : String)
    (pre rest : List Thing) (w : World DB C I) :
    UpdateThingsMetadata ts token (pre ++ rest) w =
      match UpdateThingsMetadata ts token pre w with
      | (.returned none, w1) => UpdateThingsMetadata ts token rest w1
      | r => r := by
  induction pre generalizing w with
  | nil => simp [UpdateThingsMetadata]
  | cons th pre ih =>
    simp only [List.cons_append, UpdateThingsMetadata]
    split
    · rfl
    · split
      · rfl
      · split
        · rfl
        · split
          · rfl
          · exact ih _

theorem UpdateThingsMetadata_extends (ts : thingsService DB C I) (token : String)
    (things : List Thing) (w : World DB C I) :
    Extends (fun _ => True) w (UpdateThingsMetadata ts token things w).2 := by
  induction things generalizing w with
  | nil => exact Extends.refl _ _
  | cons thing rest ih =>
    have h1 := CanUserAccessThing_frame ts ⟨token, thing.ID, Editor⟩ w
    simp only [UpdateThingsMetadata]
    rcases ha : CanUserAccessThing ts ⟨token, thing.ID, Editor⟩ w with ⟨_ | e, w1⟩
    · rw [ha] at h1
      have he : Extends (fun _ => True) w w1 := h1.2.2.mono fun _ _ => trivial
      simp only [] at he ⊢
      have he1 : Extends (fun _ => True) w (w1.log (.thingsRetrieveByID thing.ID)) :=
        he.trans ⟨[_], rfl, by simp⟩
      split
      · exact he1
      · next th hth =>
        split
        · exact he1
        · next md hmd =>
          have he2 : Extends (fun _ => True) w
              ((w1.log (.thingsRetrieveByID thing.ID)).log
                (.thingsUpdate { th with Metadata := md })) :=
            he1.trans ⟨[_], rfl, by simp⟩
          split
          · exact he2.trans ⟨[], by simp, by simp⟩
          · next db hdb =>
            exact (he2.trans ⟨[], by simp, by simp⟩).trans (ih _)
    · rw [ha] at h1
      exact h1.2.2.mono fun _ _ => trivial

/-! ## Association lists and row lookups -/

theorem lookup_cons_eq {β : Type} (k0 : String) (v0 : β) (m : List (String × β))
    (k : String) :
    ((k0, v0) :: m).lookup k = if k = k0 then some v0 else m.lookup k := by
  by_cases h : k = k0
  · subst h
    simp [List.lookup]
  · have hb : (k == k0) = false := by simpa using h
    simp [List.lookup, hb, h]

theorem lookup_setEntry (m : Entries) (k : String) (v : Value) (k' : String) :
    (setEntry m k v).lookup k' = if k' = k then some v else m.lookup k' := by
  induction m with
  | nil => simp [setEntry, lookup_cons_eq]
  | cons e m ih =>
    obtain ⟨k0, v0⟩ := e
    by_cases h0 : k0 = k
    · subst h0
      by_cases h : k' = k0 <;> simp [setEntry, lookup_cons_eq, h]
    · by_cases h : k' = k
      · subst h
        have hne : ¬ k' = k0 := fun h => h0 h.symm
        simp [setEntry, lookup_cons_eq, h0, hne, ih]
      · by_cases h1 : k' = k0 <;> simp [setEntry, lookup_cons_eq, h0, h, h1, ih]

theorem lookup_eq_none_of_not_mem_keys (m : Entries) (k : String)
    (h : k ∉ m.map Prod.fst) : m.lookup k = none := by
  induction m with
  | nil => rfl
  | cons e m ih =>
    obtain ⟨k0, v0⟩ := e
    simp only [List.map_cons, List.mem_cons, not_or] at h
    simp [lookup_cons_eq, h.1, ih h.2]

theorem lookup_mergeEntries (M N : Entries) (hN : (N.map Prod.fst).Nodup) (k : String) :
    (mergeEntries M N).lookup k =
      match N.lookup k with
      | some v => some v
      | none => M.lookup k := by
  induction N generalizing M with
  | nil => simp [mergeEntries, List.lookup]
  | cons e N ih =>
    obtain ⟨k0, v0⟩ := e
    simp only [List.map_cons, List.nodup_cons] at hN
    have hstep : mergeEntries M ((k0, v0) :: N) = mergeEntries (setEntry M k0 v0) N := rfl
    rw [hstep, ih _ hN.2]
    by_cases h : k = k0
    · subst h
      simp [lookup_cons_eq, lookup_eq_none_of_not_mem_keys N k hN.1, lookup_setEntry]
    · simp [lookup_cons_eq, h, lookup_setEntry]

theorem lookup_filter_snd_ne (l : List (String × String)) (K id : String)
    (h : ∀ e ∈ l, e.1 = K → e.2 = id) :
    (l.filter (fun e => e.2 != id)).lookup K = none := by
  induction l with
  | nil => rfl
  | cons e l ih =>
    obtain ⟨k, v⟩ := e
    have ih' := ih (fun e he => h e (List.mem_cons_of_mem _ he))
    by_cases hv : v = id
    · simp [List.filter_cons, hv, ih']
    · have hk : ¬ K = k := fun hk => hv (h (k, v) (List.mem_cons_self _ _) hk.symm)
      simp [List.filter_cons, hv, lookup_cons_eq, hk, ih']

theorem lookup_filter_fst_ne_self {β : Type} (l : List (String × β)) (id : String) :
    (l.filter (fun e => e.1 != id)).lookup id = none := by
  induction l with
  | nil => rfl
  | cons e l ih =>
    obtain ⟨k, v⟩ := e
    by_cases hk : k = id
    · simp [List.filter_cons, hk, ih]
    · have hk' : ¬ id = k := fun h => hk h.symm
      simp [List.filter_cons, hk, lookup_cons_eq, hk', ih]

theorem lookup_filter_fst_ne_of_ne {β : Type} (l : List (String × β)) (k k' : String)
    (h : k' ≠ k) : (l.filter (fun e => e.1 != k)).lookup k' = l.lookup k' := by
  induction l with
  | nil => rfl
  | cons e l ih =>
    obtain ⟨k0, v0⟩ := e
    by_cases hk : k0 = k
    · subst hk
      simp [List.filter_cons, lookup_cons_eq, h, ih]
    · simp [List.filter_cons, hk, lookup_cons_eq, ih]

theorem lookup_cons_filter {β : Type} (l : List (String × β)) (k : String) (v : β)
    (k' : String) :
    ((k, v) :: l.filter (fun e => e.1 != k)).lookup k' =
      if k' = k then some v else l.lookup k' := by
  by_cases h : k' = k
  · simp [lookup_cons_eq, h]
  · simp [lookup_cons_eq, h, lookup_filter_fst_ne_of_ne l k k' h]

theorem lookup_filter_fst_ne_some {β : Type} (l : List (String × β)) (k k' : String) (v : β)
    (h : (l.filter (fun e => e.1 != k)).lookup k' = some v) : l.lookup k' = some v := by
  by_cases hk : k' = k
  · subst hk
    rw [lookup_filter_fst_ne_self] at h
    simp at h
  · rwa [lookup_filter_fst_ne_of_ne l k k' hk] at h

theorem find?_key_map {α : Type} (key : α → String) (f : α → α) (l : List α) (id : String)
    (hf : ∀ r ∈ l, key (f r) = key r) :
    (l.map f).find? (fun t => key t == id) = (l.find? (fun t => key t == id)).map f := by
  induction l with
  | nil => rfl
  | cons r l ih =>
    have hr := hf r (List.mem_cons_self _ _)
    have ih' := ih (fun r hr => hf r (List.mem_cons_of_mem _ hr))
    by_cases h : key r = id
    · simp [List.find?_cons, hr, h]
    · simp [List.find?_cons, hr, h, ih']

theorem find?_filter_of_imp {α : Type} (p q : α → Bool) (l : List α)
    (h : ∀ x ∈ l, q x = true → p x = true) : (l.filter p).find? q = l.find? q := by
  induction l with
  | nil => rfl
  | cons r l ih =>
    have ih' := ih (fun x hx => h x (List.mem_cons_of_mem _ hx))
    by_cases hq : q r = true
    · have hp := h r (List.mem_cons_self _ _) hq
      simp [List.filter_cons, hp, List.find?_cons, hq]
    · by_cases hp : p r = true
      · simp [List.filter_cons, hp, List.find?_cons, hq, ih']
      · simp [List.filter_cons, hp, List.find?_cons, hq, ih']

theorem find?_key_of_nodup {α : Type} (key : α → String) (l : List α)
    (hnd : (l.map key).Nodup) (r : α) (hr : r ∈ l) :
    l.find? (fun t => key t == key r) = some r := by
  induction l with
  | nil => simp at hr
  | cons x l ih =>
    simp only [List.map_cons, List.nodup_cons] at hnd
    rcases List.mem_cons.mp hr with h | h
    · subst h
      simp [List.find?_cons]
    · have hne : ¬ key x = key r := by
        intro he
        exact hnd.1 (he ▸ List.mem_map_of_mem key h)
      simp [List.find?_cons, hne, ih hnd.2 h]

theorem find?_append_some {α : Type} (p : α → Bool) (l l' : List α) (x : α)
    (h : l.find? p = some x) : (l ++ l').find? p = some x := by
  simp [List.find?_append, h]

/-! ## The in-memory collaborators, unfolded -/

@[simp] theorem memService_things (a : AuthServiceClient) (u : UsersServiceClient) :
    (memService a u).things = memThings := rfl

@[simp] theorem memService_profiles (a : AuthServiceClient) (u : UsersServiceClient) :
    (memService a u).profiles = memProfiles := rfl

@[simp] theorem memService_thingCache (a : AuthServiceClient) (u : UsersServiceClient) :
    (memService a u).thingCache = memThingCache := rfl

@[simp] theorem memService_profileCache (a : AuthServiceClient) (u : UsersServiceClient) :
    (memService a u).profileCache = memProfileCache := rfl

@[simp] theorem memService_idProvider (a : AuthServiceClient) (u : UsersServiceClient) :
    (memService a u).idProvider = memIDProvider := rfl

@[simp] theorem memService_auth (a : AuthServiceClient) (u : UsersServiceClient) :
    (memService a u).auth = a := rfl

theorem cacheGet_cons_self (m : List (String × String)) (k v : String) :
    cacheGet ((k, v) :: m) k = (v, none) := by
  simp [cacheGet, List.lookup]

theorem memThings_RetrieveByID_id {db : MemDB} {id : String} {th : Thing}
    (h : memThings.RetrieveByID db id = (th, none)) : th.ID = id := by
  simp only [memThings, MemDB.thing] at h
  split at h
  · next t ht =>
    have := List.find?_some ht
    simp only [Prod.mk.injEq, and_true] at h
    subst h
    simpa using this
  · simp at h

theorem memProfiles_RetrieveByID_id {db : MemDB} {id : String} {pr : Profile}
    (h : memProfiles.RetrieveByID db id = (pr, none)) : pr.ID = id := by
  simp only [memProfiles, MemDB.profile] at h
  split at h
  · next p hp =>
    have := List.find?_some hp
    simp only [Prod.mk.injEq, and_true] at h
    subst h
    simpa using this
  · simp at h

theorem memThings_Save_ok {db db' : MemDB} {ths r : List Thing}
    (h : memThings.Save db ths = ((r, none), db')) :
    db' = { db with things := db.things ++ ths } ∧
    (∀ t ∈ ths, ∀ x ∈ db.things, x.ID ≠ t.ID) ∧ (ths.map (fun t => t.ID)).Nodup := by
  simp only [memThings] at h
  split_ifs at h with hc
  · simp only [Bool.and_eq_true, List.all_eq_true, bne_iff_ne, ne_eq,
      decide_eq_true_eq] at hc
    simp only [Prod.mk.injEq, and_true] at h
    exact ⟨h.2.symm, fun t ht x hx => (hc.1.1 t ht x hx).1, hc.1.2⟩
  · simp at h

theorem memProfiles_Save_ok {db db' : MemDB} {ps r : List Profile}
    (h : memProfiles.Save db ps = ((r, none), db')) :
    db' = { db with profiles := db.profiles ++ ps } := by
  simp only [memProfiles] at h
  split_ifs at h with hc
  · simp only [Prod.mk.injEq, and_true] at h
    exact h.2.symm
  · simp at h

theorem mem_getGroupIDByThingID (a : AuthServiceClient) (u : UsersServiceClient)
    (id : String) (w : World MemDB MemCache (List String)) :
    getGroupIDByThingID (memService a u) id w =
      match w.cache.thingGroups.lookup id with
      | some g => ((g, none), w.log (.thingCacheViewGroup id))
      | none =>
        match w.db.thing id with
        | none => (("", some Error.ErrNotFound),
            (w.log (.thingCacheViewGroup id)).log (.thingsRetrieveByID id))
        | some th => ((th.GroupID, none),
            { ((w.log (.thingCacheViewGroup id)).log (.thingsRetrieveByID id)).log
                (.thingCacheSaveGroup th.ID th.GroupID) with
              cache := { w.cache with
                thingGroups := (th.ID, th.GroupID) ::
                  w.cache.thingGroups.filter (fun e => e.1 != th.ID) } }) := by
  simp only [getGroupIDByThingID, memService, memThingCache, memThings, cacheGet,
    World.log_cache, World.log_db]
  cases h1 : w.cache.thingGroups.lookup id with
  | some g => rfl
  | none =>
    cases h2 : w.db.thing id with
    | none => rfl
    | some th => rfl

theorem mem_getGroupIDByProfileID (a : AuthServiceClient) (u : UsersServiceClient)
    (id : String) (w : World MemDB MemCache (List String)) :
    getGroupIDByProfileID (memService a u) id w =
      match w.cache.profileGroups.lookup id with
      | some g => ((g, none), w.log (.profileCacheViewGroup id))
      | none =>
        match w.db.profile id with
        | none => (("", some Error.ErrNotFound),
            (w.log (.profileCacheViewGroup id)).log (.profilesRetrieveByID id))
        | some pr => ((pr.GroupID, none),
            { ((w.log (.profileCacheViewGroup id)).log (.profilesRetrieveByID id)).log
                (.profileCacheSaveGroup pr.ID pr.GroupID) with
              cache := { w.cache with
                profileGroups := (pr.ID, pr.GroupID) ::
                  w.cache.profileGroups.filter (fun e => e.1 != pr.ID) } }) := by
  simp only [getGroupIDByProfileID, memService, memProfileCache, memProfiles, cacheGet,
    World.log_cache, World.log_db]
  cases h1 : w.cache.profileGroups.lookup id with
  | some g => rfl
  | none =>
    cases h2 : w.db.profile id with
    | none => rfl
    | some pr => rfl

theorem mem_Identify (a : AuthServiceClient) (u : UsersServiceClient)
    (key : String) (w : World MemDB MemCache (List String)) :
    Identify (memService a u) key w =
      match w.cache.thingIDs.lookup key with
      | some id => ((id, none), w.log (.thingCacheID key))
      | none =>
        match w.db.things.find? (fun t => t.Key == key) with
        | none => (("", some Error.ErrNotFound),
            (w.log (.thingCacheID key)).log (.thingsRetrieveByKey key))
        | some th => ((th.ID, none),
            { ((w.log (.thingCacheID key)).log (.thingsRetrieveByKey key)).log
                (.thingCacheSave key th.ID) with
              cache := { w.cache with
                thingIDs := (key, th.ID) ::
                  w.cache.thingIDs.filter (fun e => e.1 != key) } }) := by
  simp only [Identify, memService, memThingCache, memThings, cacheGet,
    World.log_cache, World.log_db]
  cases h1 : w.cache.thingIDs.lookup key with
  | some g => rfl
  | none =>
    cases h2 : w.db.things.find? (fun t => t.Key == key) with
    | none => rfl
    | some th => rfl

theorem mem_CanUserAccessThing_cache (a : AuthServiceClient) (u : UsersServiceClient)
    (req : UserAccessReq) (w : World MemDB MemCache (List String)) :
    (CanUserAccessThing (memService a u) req w).2.cache.thingIDs = w.cache.thingIDs ∧
    (CanUserAccessThing (memService a u) req w).2.cache.profileGroups
      = w.cache.profileGroups := by
  unfold CanUserAccessThing
  rw [mem_getGroupIDByThingID]
  cases h1 : w.cache.thingGroups.lookup req.ID with
  | some g =>
    simp only []
    have := canAccessGroup_frame (memService a u) req.Token g req.Action
      (w.log (.thingCacheViewGroup req.ID))
    rw [this.2.1]
    exact ⟨rfl, rfl⟩
  | none =>
    cases h2 : w.db.thing req.ID with
    | none => exact ⟨rfl, rfl⟩
    | some th =>
      simp only []
      have := canAccessGroup_frame (memService a u) req.Token th.GroupID req.Action
        ({ ((w.log (.thingCacheViewGroup req.ID)).log (.thingsRetrieveByID req.ID)).log
                (.thingCacheSaveGroup th.ID th.GroupID) with
              cache := { w.cache with
                thingGroups := (th.ID, th.GroupID) ::
                  w.cache.thingGroups.filter (fun e => e.1 != th.ID) } })
      rw [this.2.1]
      exact ⟨rfl, rfl⟩

/-! ## Coherence of database and caches, and the operations that keep it -/

theorem thingGroup_append (db : MemDB) (ts : List Thing) (id g : String)
    (h : thingGroup db id = some g) :
    thingGroup { db with things := db.things ++ ts } id = some g := by
  simp only [thingGroup, MemDB.thing] at h ⊢
  cases hf : db.things.find? (fun t => t.ID == id) with
  | none => simp [hf] at h
  | some t =>
    rw [find?_append_some _ _ _ _ hf]
    simpa [hf] using h

theorem profileGroup_append (db : MemDB) (ps : List Profile) (id g : String)
    (h : profileGroup db id = some g) :
    profileGroup { db with profiles := db.profiles ++ ps } id = some g := by
  simp only [profileGroup, MemDB.profile] at h ⊢
  cases hf : db.profiles.find? (fun p => p.ID == id) with
  | none => simp [hf] at h
  | some t =>
    rw [find?_append_some _ _ _ _ hf]
    simpa [hf] using h

theorem Coherent.cache_sub {db : MemDB} {c c' : MemCache} (h : Coherent db c)
    (ht : ∀ id g, c'.thingGroups.lookup id = some g → c.thingGroups.lookup id = some g)
    (hp : ∀ id g, c'.profileGroups.lookup id = some g →
      c.profileGroups.lookup id = some g) : Coherent db c' :=
  ⟨h.consistent, h.nodup, fun id g hg => h.thingCache id g (ht id g hg),
    fun id g hg => h.profileCache id g (hp id g hg)⟩

theorem Coherent.insert_thingGroup {db : MemDB} {c : MemCache} (h : Coherent db c)
    (id g : String) (hg : thingGroup db id = some g) :
    Coherent db { c with
      thingGroups := (id, g) :: c.thingGroups.filter (fun e => e.1 != id) } := by
  refine ⟨h.consistent, h.nodup, ?_, h.profileCache⟩
  intro id' g' hl
  simp only [lookup_cons_filter] at hl
  by_cases hk : id' = id
  · subst hk
    simp only [if_true, Option.some.injEq] at hl
    subst hl
    exact hg
  · simp only [hk, if_false] at hl
    exact h.thingCache id' g' hl

theorem Coherent.insert_profileGroup {db : MemDB} {c : MemCache} (h : Coherent db c)
    (id g : String) (hg : profileGroup db id = some g) :
    Coherent db { c with
      profileGroups := (id, g) :: c.profileGroups.filter (fun e => e.1 != id) } := by
  refine ⟨h.consistent, h.nodup, h.thingCache, ?_⟩
  intro id' g' hl
  simp only [lookup_cons_filter] at hl
  by_cases hk : id' = id
  · subst hk
    simp only [if_true, Option.some.injEq] at hl
    subst hl
    exact hg
  · simp only [hk, if_false] at hl
    exact h.profileCache id' g' hl

theorem Coherent.append_profiles {db : MemDB} {c : MemCache} (h : Coherent db c)
    (ps : List Profile) : Coherent { db with profiles := db.profiles ++ ps } c :=
  ⟨fun t ht => profileGroup_append db ps _ _ (h.consistent t ht), h.nodup, h.thingCache,
    fun id g hg => profileGroup_append db ps _ _ (h.profileCache id g hg)⟩

theorem Coherent.append_thing {db : MemDB} {c : MemCache} (h : Coherent db c) (t : Thing)
    (hnew : ∀ r ∈ db.things, r.ID ≠ t.ID)
    (hg : profileGroup db t.ProfileID = some t.GroupID) :
    Coherent { db with things := db.things ++ [t] } c := by
  refine ⟨?_, ?_, ?_, h.profileCache⟩
  · intro t' ht'
    simp only [List.mem_append, List.mem_singleton] at ht'
    rcases ht' with ht' | rfl
    · exact h.consistent t' ht'
    · exact hg
  · simp only [List.map_append, List.map_cons, List.map_nil]
    rw [List.nodup_append]
    refine ⟨h.nodup, by simp, ?_⟩
    intro a ha hb
    simp only [List.mem_singleton] at hb
    subst hb
    obtain ⟨r, hr, hra⟩ := List.mem_map.mp ha
    exact hnew r hr hra
  · intro id g hl
    exact thingGroup_append db [t] id g (h.thingCache id g hl)

theorem Coherent.map_things {db : MemDB} {c : MemCache} (h : Coherent db c)
    (f : Thing → Thing)
    (hf : ∀ r ∈ db.things, (f r).ID = r.ID ∧ (f r).GroupID = r.GroupID ∧
      profileGroup db (f r).ProfileID = some r.GroupID) :
    Coherent { db with things := db.things.map f } c := by
  have hgroup : ∀ id, thingGroup { db with things := db.things.map f } id
      = thingGroup db id := by
    intro id
    simp only [thingGroup, MemDB.thing]
    rw [find?_key_map (fun t : Thing => t.ID) f db.things id (fun r hr => (hf r hr).1)]
    cases hfind : db.things.find? (fun t => t.ID == id) with
    | none => rfl
    | some r =>
      have hr := List.mem_of_find?_eq_some hfind
      simp [(hf r hr).2.1]
  refine ⟨?_, ?_, ?_, h.profileCache⟩
  · intro t' ht'
    obtain ⟨r, hr, rfl⟩ := List.mem_map.mp ht'
    have := hf r hr
    show profileGroup db (f r).ProfileID = some (f r).GroupID
    rw [this.2.1]
    exact this.2.2
  · have : (db.things.map f).map (fun t => t.ID) = db.things.map (fun t => t.ID) := by
      rw [List.map_map]
      apply List.map_congr_left
      intro r hr
      exact (hf r hr).1
    show ((db.things.map f).map (fun t => t.ID)).Nodup
    rw [this]
    exact h.nodup
  · intro id g hl
    rw [hgroup]
    exact h.thingCache id g hl

theorem Coherent.map_profiles {db : MemDB} {c : MemCache} (h : Coherent db c)
    (f : Profile → Profile)
    (hf : ∀ r ∈ db.profiles, (f r).ID = r.ID ∧ (f r).GroupID = r.GroupID) :
    Coherent { db with profiles := db.profiles.map f } c := by
  have hgroup : ∀ id, profileGroup { db with profiles := db.profiles.map f } id
      = profileGroup db id := by
    intro id
    simp only [profileGroup, MemDB.profile]
    rw [find?_key_map (fun p : Profile => p.ID) f db.profiles id (fun r hr => (hf r hr).1)]
    cases hfind : db.profiles.find? (fun p => p.ID == id) with
    | none => rfl
    | some r =>
      have hr := List.mem_of_find?_eq_some hfind
      simp [(hf r hr).2]
  refine ⟨?_, h.nodup, h.thingCache, ?_⟩
  · intro t ht
    rw [hgroup]
    exact h.consistent t ht
  · intro id g hl
    rw [hgroup]
    exact h.profileCache id g hl

theorem Coherent.remove_things {db : MemDB} {c : MemCache} (h : Coherent db c)
    (ids : List String) (hpurged : ∀ id ∈ ids, c.thingGroups.lookup id = none) :
    Coherent { db with things := db.things.filter (fun t => !ids.contains t.ID) } c := by
  refine ⟨?_, ?_, ?_, h.profileCache⟩
  · intro t ht
    exact h.consistent t (List.mem_filter.mp ht).1
  · exact List.Nodup.sublist (List.Sublist.map _ (List.filter_sublist _)) h.nodup
  · intro id g hl
    have hid : id ∉ ids := by
      intro hmem
      rw [hpurged id hmem] at hl
      simp at hl
    have := h.thingCache id g hl
    simp only [thingGroup, MemDB.thing] at this ⊢
    rw [find?_filter_of_imp]
    · exact this
    · intro x _ hx
      have hx' : x.ID = id := by simpa using hx
      simp [hx', hid]

theorem Coherent.remove_profiles {db : MemDB} {c : MemCache} (h : Coherent db c)
    (ids : List String) (hpurged : ∀ id ∈ ids, c.profileGroups.lookup id = none)
    (hfree : db.things.any (fun t => ids.contains t.ProfileID) = false) :
    Coherent { db with profiles := db.profiles.filter (fun p => !ids.contains p.ID) } c := by
  have hkeep : ∀ id, id ∉ ids →
      profileGroup { db with profiles := db.profiles.filter (fun p => !ids.contains p.ID) } id
        = profileGroup db id := by
    intro id hid
    simp only [profileGroup, MemDB.profile]
    rw [find?_filter_of_imp]
    intro x _ hx
    have hx' : x.ID = id := by simpa using hx
    simp [hx', hid]
  refine ⟨?_, h.nodup, h.thingCache, ?_⟩
  · intro t ht
    have hid : t.ProfileID ∉ ids := by
      intro hmem
      have : db.things.any (fun t => ids.contains t.ProfileID) = true := by
        rw [List.any_eq_true]
        exact ⟨t, ht, by simpa using hmem⟩
      rw [hfree] at this
      exact Bool.noConfusion this
    rw [hkeep _ hid]
    exact h.consistent t ht
  · intro id g hl
    have hid : id ∉ ids := by
      intro hmem
      rw [hpurged id hmem] at hl
      simp at hl
    rw [hkeep _ hid]
    exact h.profileCache id g hl

theorem mem_getGroupIDByThingID_coherent (a : AuthServiceClient) (u : UsersServiceClient)
    (id : String) (w : World MemDB MemCache (List String)) (h : Coherent w.db w.cache) :
    Coherent (getGroupIDByThingID (memService a u) id w).2.db
      (getGroupIDByThingID (memService a u) id w).2.cache ∧
    (getGroupIDByThingID (memService a u) id w).2.db = w.db ∧
    (getGroupIDByThingID (memService a u) id w).2.cache.profileGroups
      = w.cache.profileGroups ∧
    (∀ id', id' ≠ id →
      (getGroupIDByThingID (memService a u) id w).2.cache.thingGroups.lookup id'
        = w.cache.thingGroups.lookup id') ∧
    (∀ g, (getGroupIDByThingID (memService a u) id w).1 = (g, none) →
      thingGroup w.db id = some g) := by
  rw [mem_getGroupIDByThingID]
  cases h1 : w.cache.thingGroups.lookup id with
  | some g0 =>
    refine ⟨h, rfl, rfl, fun _ _ => rfl, ?_⟩
    intro g hg
    simp only [Prod.mk.injEq, and_true] at hg
    subst hg
    exact h.thingCache id g0 h1
  | none =>
    cases h2 : w.db.thing id with
    | none =>
      refine ⟨h, rfl, rfl, fun _ _ => rfl, ?_⟩
      intro g hg
      simp at hg
    | some th =>
      have hid : th.ID = id := by
        have := List.find?_some h2
        simpa using this
      have hgr : thingGroup w.db id = some th.GroupID := by
        simp [thingGroup, h2]
      refine ⟨?_, rfl, rfl, ?_, ?_⟩
      · exact h.insert_thingGroup th.ID th.GroupID (by rw [hid]; exact hgr)
      · intro id' hne
        show ((th.ID, th.GroupID) ::
          w.cache.thingGroups.filter (fun e => e.1 != th.ID)).lookup id' = _
        rw [lookup_cons_filter, hid]
        simp [hne]
      · intro g hg
        simp only [Prod.mk.injEq, and_true] at hg
        subst hg
        exact hgr

theorem mem_getGroupIDByProfileID_coherent (a : AuthServiceClient)
    (u : UsersServiceClient) (id : String) (w : World MemDB MemCache (List String))
    (h : Coherent w.db w.cache) :
    Coherent (getGroupIDByProfileID (memService a u) id w).2.db
      (getGroupIDByProfileID (memService a u) id w).2.cache ∧
    (getGroupIDByProfileID (memService a u) id w).2.db = w.db ∧
    (getGroupIDByProfileID (memService a u) id w).2.cache.thingGroups
      = w.cache.thingGroups ∧
    (∀ id', id' ≠ id →
      (getGroupIDByProfileID (memService a u) id w).2.cache.profileGroups.lookup id'
        = w.cache.profileGroups.lookup id') ∧
    (∀ g, (getGroupIDByProfileID (memService a u) id w).1 = (g, none) →
      profileGroup w.db id = some g) := by
  rw [mem_getGroupIDByProfileID]
  cases h1 : w.cache.profileGroups.lookup id with
  | some g0 =>
    refine ⟨h, rfl, rfl, fun _ _ => rfl, ?_⟩
    intro g hg
    simp only [Prod.mk.injEq, and_true] at hg
    subst hg
    exact h.profileCache id g0 h1
  | none =>
    cases h2 : w.db.profile id with
    | none =>
      refine ⟨h, rfl, rfl, fun _ _ => rfl, ?_⟩
      intro g hg
      simp at hg
    | some pr =>
      have hid : pr.ID = id := by
        have := List.find?_some h2
        simpa using this
      have hgr : profileGroup w.db id = some pr.GroupID := by
        simp [profileGroup, h2]
      refine ⟨?_, rfl, rfl, ?_, ?_⟩
      · exact h.insert_profileGroup pr.ID pr.GroupID (by rw [hid]; exact hgr)
      · intro id' hne
        show ((pr.ID, pr.GroupID) ::
          w.cache.profileGroups.filter (fun e => e.1 != pr.ID)).lookup id' = _
        rw [lookup_cons_filter, hid]
        simp [hne]
      · intro g hg
        simp only [Prod.mk.injEq, and_true] at hg
        subst hg
        exact hgr

theorem mem_CanUserAccessThing_coherent (a : AuthServiceClient) (u : UsersServiceClient)
    (req : UserAccessReq) (w : World MemDB MemCache (List String))
    (h : Coherent w.db w.cache) :
    Coherent (CanUserAccessThing (memService a u) req w).2.db
      (CanUserAccessThing (memService a u) req w).2.cache ∧
    (CanUserAccessThing (memService a u) req w).2.db = w.db ∧
    (CanUserAccessThing (memService a u) req w).2.cache.profileGroups
      = w.cache.profileGroups ∧
    (∀ id', id' ≠ req.ID →
      (CanUserAccessThing (memService a u) req w).2.cache.thingGroups.lookup id'
        = w.cache.thingGroups.lookup id') ∧
    ((CanUserAccessThing (memService a u) req w).1 = none →
      ∃ g, thingGroup w.db req.ID = some g) := by
  have h1 := mem_getGroupIDByThingID_coherent a u req.ID w h
  unfold CanUserAccessThing
  rcases hr : getGroupIDByThingID (memService a u) req.ID w with ⟨⟨g, _ | e⟩, w1⟩
  · rw [hr] at h1
    obtain ⟨hc, hd, hp, ht, hg⟩ := h1
    have h2 := canAccessGroup_frame (memService a u) req.Token g req.Action w1
    simp only [] at hc hd hp ht hg ⊢
    rw [h2.1, h2.2.1]
    exact ⟨hc, hd, hp, ht, fun _ => ⟨g, hg g rfl⟩⟩
  · rw [hr] at h1
    obtain ⟨hc, hd, hp, ht, -⟩ := h1
    exact ⟨hc, hd, hp, ht, fun hn => by simp at hn⟩

theorem mem_CanUserAccessProfile_coherent (a : AuthServiceClient)
    (u : UsersServiceClient) (req : UserAccessReq)
    (w : World MemDB MemCache (List String)) (h : Coherent w.db w.cache) :
    Coherent (CanUserAccessProfile (memService a u) req w).2.db
      (CanUserAccessProfile (memService a u) req w).2.cache ∧
    (CanUserAccessProfile (memService a u) req w).2.db = w.db ∧
    (CanUserAccessProfile (memService a u) req w).2.cache.thingGroups
      = w.cache.thingGroups ∧
    (∀ id', id' ≠ req.ID →
      (CanUserAccessProfile (memService a u) req w).2.cache.profileGroups.lookup id'
        = w.cache.profileGroups.lookup id') := by
  have h1 := mem_getGroupIDByProfileID_coherent a u req.ID w h
  unfold CanUserAccessProfile
  rcases hr : getGroupIDByProfileID (memService a u) req.ID w with ⟨⟨g, _ | e⟩, w1⟩
  · rw [hr] at h1
    obtain ⟨hc, hd, hp, ht, -⟩ := h1
    have h2 := canAccessGroup_frame (memService a u) req.Token g req.Action w1
    simp only [] at hc hd hp ht ⊢
    rw [h2.1, h2.2.1]
    exact ⟨hc, hd, hp, ht⟩
  · rw [hr] at h1
    obtain ⟨hc, hd, hp, ht, -⟩ := h1
    exact ⟨hc, hd, hp, ht⟩

theorem memProfiles_Save_coherent (db : MemDB) (c : MemCache) (ps : List Profile)
    (h : Coherent db c) : Coherent (memProfiles.Save db ps).2 c := by
  simp only [memProfiles]
  split_ifs with hc
  · exact h.append_profiles ps
  · exact h

theorem mem_createProfile_coherent (a : AuthServiceClient) (u : UsersServiceClient)
    (p : Profile) (w : World MemDB MemCache (List String)) (h : Coherent w.db w.cache) :
    Coherent (createProfile (memService a u) p w).2.db
      (createProfile (memService a u) p w).2.cache := by
  unfold createProfile
  simp only [memService_idProvider, memService_profiles]
  split
  · next err w1 heq =>
    split at heq
    · split at heq
      · simp only [Prod.mk.injEq] at heq
        rw [← heq.2]
        exact h
      · simp at heq
    · simp at heq
  · next p1 w1 heq =>
    have hw1 : Coherent w1.db w1.cache := by
      split at heq
      · split at heq
        · simp at heq
        · simp only [Prod.mk.injEq] at heq
          rw [← heq.2]
          exact h
      · simp only [Prod.mk.injEq] at heq
        rw [← heq.2]
        exact h
    have hs := memProfiles_Save_coherent w1.db w1.cache [p1] hw1
    split
    · next heq2 =>
      simp only [World.log_db] at heq2
      rw [heq2] at hs
      exact hs
    · next heq2 =>
      simp only [World.log_db] at heq2
      rw [heq2] at hs
      exact hs
    · next heq2 =>
      simp only [World.log_db] at heq2
      rw [heq2] at hs
      exact hs

theorem mem_CreateProfiles_loop_coherent (a : AuthServiceClient) (u : UsersServiceClient)
    (token : String) (profiles prs : List Profile)
    (w : World MemDB MemCache (List String)) (h : Coherent w.db w.cache) :
    Coherent (CreateProfiles_loop (memService a u) token profiles prs w).2.db
      (CreateProfiles_loop (memService a u) token profiles prs w).2.cache := by
  induction profiles generalizing prs w with
  | nil => exact h
  | cons p rest ih =>
    simp only [CreateProfiles_loop]
    have h1 := CanUserAccessGroup_frame (memService a u) ⟨token, p.GroupID, Editor⟩ w
    rcases ha : CanUserAccessGroup (memService a u) ⟨token, p.GroupID, Editor⟩ w
      with ⟨_ | e, w1⟩
    · rw [ha] at h1
      simp only [] at h1 ⊢
      have hw1 : Coherent w1.db w1.cache := by rw [h1.1, h1.2.1]; exact h
      have h2 := mem_createProfile_coherent a u p w1 hw1
      rcases hc : createProfile (memService a u) p w1 with ⟨⟨pr, _ | e⟩, w2⟩
      · rw [hc] at h2
        exact ih _ _ h2
      · rw [hc] at h2
        exact h2
    · rw [ha] at h1
      simp only [] at h1 ⊢
      rw [h1.1, h1.2.1]
      exact h

theorem memThings_Save_coherent (db : MemDB) (c : MemCache) (t : Thing)
    (h : Coherent db c) (hg : profileGroup db t.ProfileID = some t.GroupID) :
    Coherent (memThings.Save db [t]).2 c := by
  simp only [memThings]
  split_ifs with hc
  · apply h.append_thing t _ hg
    intro r hr
    simp only [List.all_cons, List.all_nil, Bool.and_true, Bool.and_eq_true,
      List.all_eq_true, bne_iff_ne, ne_eq] at hc
    exact (hc.1.1 r hr).1
  · exact h

theorem mem_createThing_coherent (a : AuthServiceClient) (u : UsersServiceClient)
    (thing : Thing) (w : World MemDB MemCache (List String)) (h : Coherent w.db w.cache)
    (hg : profileGroup w.db thing.ProfileID = some thing.GroupID) :
    Coherent (createThing (memService a u) thing w).2.db
      (createThing (memService a u) thing w).2.cache := by
  unfold createThing
  simp only [memService_idProvider, memService_things]
  split
  · next err w1 heq =>
    split at heq
    · split at heq
      · simp only [Prod.mk.injEq] at heq
        rw [← heq.2]
        exact h
      · simp at heq
    · simp at heq
  · next t1 w1 heq =>
    have hw1 : Coherent w1.db w1.cache ∧ w1.db = w.db ∧ t1.ProfileID = thing.ProfileID ∧
        t1.GroupID = thing.GroupID := by
      split at heq
      · split at heq
        · simp at heq
        · simp only [Prod.mk.injEq, and_true] at heq
          rw [← heq.2, ← heq.1]
          exact ⟨h, rfl, rfl, rfl⟩
      · simp only [Prod.mk.injEq, and_true] at heq
        rw [← heq.2, ← heq.1]
        exact ⟨h, rfl, rfl, rfl⟩
    split
    · next err w2 heq2 =>
      split at heq2
      · split at heq2
        · simp only [Prod.mk.injEq] at heq2
          rw [← heq2.2]
          exact hw1.1
        · simp at heq2
      · simp at heq2
    · next t2 w2 heq2 =>
      have hw2 : Coherent w2.db w2.cache ∧ w2.db = w.db ∧ t2.ProfileID = thing.ProfileID ∧
          t2.GroupID = thing.GroupID := by
        split at heq2
        · split at heq2
          · simp at heq2
          · simp only [Prod.mk.injEq, and_true] at heq2
            rw [← heq2.2, ← heq2.1]
            exact ⟨hw1.1, hw1.2.1, hw1.2.2.1, hw1.2.2.2⟩
        · simp only [Prod.mk.injEq, and_true] at heq2
          rw [← heq2.2, ← heq2.1]
          exact hw1
      have hs := memThings_Save_coherent w2.db w2.cache t2 hw2.1
        (by rw [hw2.2.1, hw2.2.2.1, hw2.2.2.2]; exact hg)
      split
      · next heq3 =>
        simp only [World.log_db] at heq3
        rw [heq3] at hs
        exact hs
      · next heq3 =>
        simp only [World.log_db] at heq3
        rw [heq3] at hs
        exact hs
      · next heq3 =>
        simp only [World.log_db] at heq3
        rw [heq3] at hs
        exact hs

theorem mem_CreateThings_loop_coherent (a : AuthServiceClient) (u : UsersServiceClient)
    (token : String) (things ths : List Thing)
    (w : World MemDB MemCache (List String)) (h : Coherent w.db w.cache) :
    Coherent (CreateThings_loop (memService a u) token things ths w).2.db
      (CreateThings_loop (memService a u) token things ths w).2.cache := by
  induction things generalizing ths w with
  | nil => exact h
  | cons t rest ih =>
    simp only [CreateThings_loop]
    have h1 := CanUserAccessGroup_frame (memService a u) ⟨token, t.GroupID, Editor⟩ w
    rcases ha : CanUserAccessGroup (memService a u) ⟨token, t.GroupID, Editor⟩ w
      with ⟨_ | e, w1⟩
    · rw [ha] at h1
      simp only [] at h1 ⊢
      have hw1 : Coherent w1.db w1.cache := by rw [h1.1, h1.2.1]; exact h
      have h2 := mem_getGroupIDByProfileID_coherent a u t.ProfileID w1 hw1
      rcases hr : getGroupIDByProfileID (memService a u) t.ProfileID w1
        with ⟨⟨g, _ | e⟩, w2⟩
      · rw [hr] at h2
        obtain ⟨hc2, hd2, -, -, hg2⟩ := h2
        simp only [] at hc2 hd2 hg2 ⊢
        split_ifs with hne
        · exact hc2
        · have hg : profileGroup w2.db t.ProfileID = some t.GroupID := by
            rw [hd2, hg2 g rfl]
            simpa using hne
          have h3 := mem_createThing_coherent a u t w2 hc2 hg
          rcases hc : createThing (memService a u) t w2 with ⟨⟨th, _ | e⟩, w3⟩
          · rw [hc] at h3
            exact ih _ _ h3
          · rw [hc] at h3
            exact h3
      · rw [hr] at h2
        exact h2.1
    · rw [ha] at h1
      simp only [] at h1 ⊢
      rw [h1.1, h1.2.1]
      exact h

theorem thingGroup_of_mem {db : MemDB} (hnd : (db.things.map (fun t => t.ID)).Nodup)
    {r : Thing} (hr : r ∈ db.things) : thingGroup db r.ID = some r.GroupID := by
  simp only [thingGroup, MemDB.thing]
  rw [find?_key_of_nodup (fun t : Thing => t.ID) db.things hnd r hr]
  rfl

theorem memThings_Update_coherent (db : MemDB) (c : MemCache) (th : Thing)
    (h : Coherent db c)
    (hg : ∀ g, thingGroup db th.ID = some g → profileGroup db th.ProfileID = some g) :
    Coherent (memThings.Update db th).2 c := by
  simp only [memThings]
  cases hfind : db.thing th.ID with
  | none => exact h
  | some r0 =>
    apply h.map_things
    intro r hr
    by_cases hid : r.ID = th.ID
    · simp only [hid, if_true, true_and]
      apply hg
      rw [← hid]
      exact thingGroup_of_mem h.nodup hr
    · simp only [hid, if_false, true_and]
      exact h.consistent r hr

theorem memThings_UpdateKey_coherent (db : MemDB) (c : MemCache) (id key : String)
    (h : Coherent db c) : Coherent (memThings.UpdateKey db id key).2 c := by
  simp only [memThings]
  cases hfind : db.thing id with
  | none => exact h
  | some r0 =>
    simp only []
    split_ifs with hconf
    · exact h
    · apply h.map_things
      intro r hr
      by_cases hid : r.ID = id
      · simp only [hid, if_true, true_and]
        exact h.consistent r hr
      · simp only [hid, if_false, true_and]
        exact h.consistent r hr

theorem memProfiles_Update_coherent (db : MemDB) (c : MemCache) (pr : Profile)
    (h : Coherent db c) : Coherent (memProfiles.Update db pr).2 c := by
  simp only [memProfiles]
  cases hfind : db.profile pr.ID with
  | none => exact h
  | some r0 =>
    apply h.map_profiles
    intro r hr
    by_cases hid : r.ID = pr.ID
    · simp [hid]
    · simp [hid]

theorem mem_UpdateThing_coherent (a : AuthServiceClient) (u : UsersServiceClient)
    (token : String) (thing : Thing) (w : World MemDB MemCache (List String))
    (h : Coherent w.db w.cache) :
    Coherent (UpdateThing (memService a u) token thing w).2.db
      (UpdateThing (memService a u) token thing w).2.cache := by
  simp only [UpdateThing]
  have h1 := mem_CanUserAccessThing_coherent a u ⟨token, thing.ID, Editor⟩ w h
  rcases ha : CanUserAccessThing (memService a u) ⟨token, thing.ID, Editor⟩ w
    with ⟨_ | e, w1⟩
  · rw [ha] at h1
    simp only [] at h1 ⊢
    have h2 := mem_getGroupIDByThingID_coherent a u thing.ID w1 h1.1
    rcases ht : getGroupIDByThingID (memService a u) thing.ID w1 with ⟨⟨thGr, _ | e⟩, w2⟩
    · rw [ht] at h2
      obtain ⟨hc2, hd2, -, -, hg2⟩ := h2
      simp only [] at hc2 hd2 hg2 ⊢
      have h3 := mem_getGroupIDByProfileID_coherent a u thing.ProfileID w2 hc2
      rcases hp : getGroupIDByProfileID (memService a u) thing.ProfileID w2
        with ⟨⟨prGr, _ | e⟩, w3⟩
      · rw [hp] at h3
        obtain ⟨hc3, hd3, -, -, hg3⟩ := h3
        simp only [] at hc3 hd3 hg3 ⊢
        split_ifs with hne
        · exact hc3
        · have heq : prGr = thGr := by simpa using hne
          simp only [memService_things, World.log_db]
          apply memThings_Update_coherent _ _ _ hc3
          intro g hg
          rw [hd3] at hg ⊢
          rw [hg3 prGr rfl, heq]
          rw [hd2, hg2 thGr rfl] at hg
          exact hg
      · rw [hp] at h3
        exact h3.1
    · rw [ht] at h2
      exact h2.1
  · rw [ha] at h1
    exact h1.1

theorem mem_UpdateKey_coherent (a : AuthServiceClient) (u : UsersServiceClient)
    (token id key : String) (w : World MemDB MemCache (List String))
    (h : Coherent w.db w.cache) :
    Coherent (UpdateKey (memService a u) token id key w).2.db
      (UpdateKey (memService a u) token id key w).2.cache := by
  simp only [UpdateKey]
  have h1 := mem_CanUserAccessThing_coherent a u ⟨token, id, Editor⟩ w h
  rcases ha : CanUserAccessThing (memService a u) ⟨token, id, Editor⟩ w with ⟨_ | e, w1⟩
  · rw [ha] at h1
    simp only [memService_things, World.log_db] at h1 ⊢
    exact memThings_UpdateKey_coherent _ _ _ _ h1.1
  · rw [ha] at h1
    exact h1.1

theorem mem_UpdateProfile_coherent (a : AuthServiceClient) (u : UsersServiceClient)
    (token : String) (profile : Profile) (w : World MemDB MemCache (List String))
    (h : Coherent w.db w.cache) :
    Coherent (UpdateProfile (memService a u) token profile w).2.db
      (UpdateProfile (memService a u) token profile w).2.cache := by
  simp only [UpdateProfile]
  have h1 := mem_CanUserAccessProfile_coherent a u ⟨token, profile.ID, Editor⟩ w h
  rcases ha : CanUserAccessProfile (memService a u) ⟨token, profile.ID, Editor⟩ w
    with ⟨_ | e, w1⟩
  · rw [ha] at h1
    simp only [memService_profiles, World.log_db] at h1 ⊢
    exact memProfiles_Update_coherent _ _ _ h1.1
  · rw [ha] at h1
    exact h1.1

theorem mem_UpdateThingsMetadata_coherent (a : AuthServiceClient) (u : UsersServiceClient)
    (token : String) (things : List Thing) (w : World MemDB MemCache (List String))
    (h : Coherent w.db w.cache) :
    Coherent (UpdateThingsMetadata (memService a u) token things w).2.db
      (UpdateThingsMetadata (memService a u) token things w).2.cache := by
  induction things generalizing w with
  | nil => exact h
  | cons thing rest ih =>
    simp only [UpdateThingsMetadata]
    have h1 := mem_CanUserAccessThing_coherent a u ⟨token, thing.ID, Editor⟩ w h
    rcases ha : CanUserAccessThing (memService a u) ⟨token, thing.ID, Editor⟩ w
      with ⟨_ | e, w1⟩
    · rw [ha] at h1
      simp only [memService_things, World.log_db] at h1 ⊢
      rcases hr : memThings.RetrieveByID w1.db thing.ID with ⟨th, _ | e⟩
      · simp only []
        cases hm : mergeMetadata th.Metadata thing.Metadata with
        | none => exact h1.1
        | some md =>
          simp only [World.log_db]
          have hth : th ∈ w1.db.things := by
            simp only [memThings] at hr
            split at hr
            · next t hfind =>
              simp only [Prod.mk.injEq, and_true] at hr
              subst hr
              exact List.mem_of_find?_eq_some hfind
            · simp at hr
          have hu := memThings_Update_coherent w1.db w1.cache { th with Metadata := md } h1.1
            (by
              intro g hg
              have := thingGroup_of_mem h1.1.nodup hth
              simp only [] at hg ⊢
              rw [this] at hg
              rw [← hg]
              exact h1.1.consistent th hth)
          rcases hup : memThings.Update w1.db { th with Metadata := md } with ⟨_ | e, db'⟩
          · rw [hup] at hu
            exact ih _ hu
          · rw [hup] at hu
            exact hu
      · exact h1.1
    · rw [ha] at h1
      exact h1.1

theorem mem_RemoveThings_loop_coherent (a : AuthServiceClient) (u : UsersServiceClient)
    (token : String) (ids : List String) (w : World MemDB MemCache (List String))
    (h : Coherent w.db w.cache) :
    Coherent (RemoveThings_loop (memService a u) token ids w).2.db
      (RemoveThings_loop (memService a u) token ids w).2.cache ∧
    (RemoveThings_loop (memService a u) token ids w).2.db = w.db ∧
    ((RemoveThings_loop (memService a u) token ids w).1 = none →
      ∀ id, (id ∈ ids ∨ w.cache.thingGroups.lookup id = none) →
        (RemoveThings_loop (memService a u) token ids w).2.cache.thingGroups.lookup id
          = none) := by
  induction ids generalizing w with
  | nil =>
    refine ⟨h, rfl, ?_⟩
    intro _ id hid
    rcases hid with hid | hid
    · simp at hid
    · exact hid
  | cons id0 rest ih =>
    simp only [RemoveThings_loop]
    have h1 := mem_CanUserAccessThing_coherent a u ⟨token, id0, Editor⟩ w h
    rcases ha : CanUserAccessThing (memService a u) ⟨token, id0, Editor⟩ w with ⟨_ | e, w1⟩
    · rw [ha] at h1
      obtain ⟨hc1, hd1, hp1, ht1, -⟩ := h1
      simp only [memService_thingCache, memThingCache, World.log_cache] at hc1 hd1 hp1 ht1 ⊢
      have hc3 : Coherent w1.db
          { thingIDs := w1.cache.thingIDs.filter (fun e => e.2 != id0)
            thingGroups := w1.cache.thingGroups.filter (fun e => e.1 != id0)
            profileGroups := w1.cache.profileGroups
            memberGroups := w1.cache.memberGroups } :=
        hc1.cache_sub (fun id g hl => lookup_filter_fst_ne_some _ _ _ _ hl)
          (fun id g hl => hl)
      have := ih
        { db := w1.db
          cache :=
            { thingIDs := w1.cache.thingIDs.filter (fun e => e.2 != id0)
              thingGroups := w1.cache.thingGroups.filter (fun e => e.1 != id0)
              profileGroups := w1.cache.profileGroups
              memberGroups := w1.cache.memberGroups }
          idp := w1.idp
          trace := w1.trace ++ [.thingCacheRemove id0] ++ [.thingCacheRemoveGroup id0] } hc3
      refine ⟨this.1, this.2.1.trans hd1, ?_⟩
      intro hnone id hid
      apply this.2.2 hnone id
      by_cases h0 : id = id0
      · right
        subst h0
        exact lookup_filter_fst_ne_self _ _
      · rcases hid with hid | hid
        · left
          simpa [h0] using hid
        · right
          show (w1.cache.thingGroups.filter (fun e => e.1 != id0)).lookup id = none
          rw [lookup_filter_fst_ne_of_ne _ _ _ h0, ht1 id h0]
          exact hid
    · rw [ha] at h1
      exact ⟨h1.1, h1.2.1, fun hn => by simp at hn⟩

theorem mem_RemoveThings_coherent (a : AuthServiceClient) (u : UsersServiceClient)
    (token : String) (ids : List String) (w : World MemDB MemCache (List String))
    (h : Coherent w.db w.cache) :
    Coherent (RemoveThings (memService a u) token ids w).2.db
      (RemoveThings (memService a u) token ids w).2.cache := by
  simp only [RemoveThings]
  have h1 := mem_RemoveThings_loop_coherent a u token ids w h
  rcases hl : RemoveThings_loop (memService a u) token ids w with ⟨_ | e, w1⟩
  · rw [hl] at h1
    simp only [memService_things, memThings, World.log_db, World.log_cache] at h1 ⊢
    exact h1.1.remove_things ids (fun id hid => h1.2.2 trivial id (Or.inl hid))
  · rw [hl] at h1
    exact h1.1

theorem mem_RemoveProfiles_loop_coherent (a : AuthServiceClient) (u : UsersServiceClient)
    (token : String) (ids : List String) (w : World MemDB MemCache (List String))
    (h : Coherent w.db w.cache) :
    Coherent (RemoveProfiles_loop (memService a u) token ids w).2.db
      (RemoveProfiles_loop (memService a u) token ids w).2.cache ∧
    (RemoveProfiles_loop (memService a u) token ids w).2.db = w.db ∧
    ((RemoveProfiles_loop (memService a u) token ids w).1 = none →
      ∀ id, (id ∈ ids ∨ w.cache.profileGroups.lookup id = none) →
        (RemoveProfiles_loop (memService a u) token ids w).2.cache.profileGroups.lookup id
          = none) := by
  induction ids generalizing w with
  | nil =>
    refine ⟨h, rfl, ?_⟩
    intro _ id hid
    rcases hid with hid | hid
    · simp at hid
    · exact hid
  | cons id0 rest ih =>
    simp only [RemoveProfiles_loop]
    have h1 := mem_CanUserAccessProfile_coherent a u ⟨token, id0, Editor⟩ w h
    rcases ha : CanUserAccessProfile (memService a u) ⟨token, id0, Editor⟩ w
      with ⟨_ | e, w1⟩
    · rw [ha] at h1
      obtain ⟨hc1, hd1, hp1, ht1⟩ := h1
      simp only [memService_profileCache, memProfileCache, World.log_cache]
        at hc1 hd1 hp1 ht1 ⊢
      have hc3 : Coherent w1.db
          { thingIDs := w1.cache.thingIDs
            thingGroups := w1.cache.thingGroups
            profileGroups := w1.cache.profileGroups.filter (fun e => e.1 != id0)
            memberGroups := w1.cache.memberGroups } :=
        hc1.cache_sub (fun id g hl => hl)
          (fun id g hl => lookup_filter_fst_ne_some _ _ _ _ hl)
      have := ih
        { db := w1.db
          cache :=
            { thingIDs := w1.cache.thingIDs
              thingGroups := w1.cache.thingGroups
              profileGroups := w1.cache.profileGroups.filter (fun e => e.1 != id0)
              memberGroups := w1.cache.memberGroups }
          idp := w1.idp
          trace := w1.trace ++ [.profileCacheRemoveGroup id0] } hc3
      refine ⟨this.1, this.2.1.trans hd1, ?_⟩
      intro hnone id hid
      apply this.2.2 hnone id
      by_cases h0 : id = id0
      · right
        subst h0
        exact lookup_filter_fst_ne_self _ _
      · rcases hid with hid | hid
        · left
          simpa [h0] using hid
        · right
          show (w1.cache.profileGroups.filter (fun e => e.1 != id0)).lookup id = none
          rw [lookup_filter_fst_ne_of_ne _ _ _ h0, ht1 id h0]
          exact hid
    · rw [ha] at h1
      exact ⟨h1.1, h1.2.1, fun hn => by simp at hn⟩

theorem mem_RemoveProfiles_coherent (a : AuthServiceClient) (u : UsersServiceClient)
    (token : String) (ids : List String) (w : World MemDB MemCache (List String))
    (h : Coherent w.db w.cache) :
    Coherent (RemoveProfiles (memService a u) token ids w).2.db
      (RemoveProfiles (memService a u) token ids w).2.cache := by
  simp only [RemoveProfiles]
  have h1 := mem_RemoveProfiles_loop_coherent a u token ids w h
  rcases hl : RemoveProfiles_loop (memService a u) token ids w with ⟨_ | e, w1⟩
  · rw [hl] at h1
    simp only [memService_profiles, memProfiles, World.log_db, World.log_cache] at h1 ⊢
    split_ifs with hany
    · exact h1.1
    · exact h1.1.remove_profiles ids (fun id hid => h1.2.2 trivial id (Or.inl hid))
        (by simpa using hany)
  · rw [hl] at h1
    exact h1.1

theorem Coherent.empty (supply : List String) :
    Coherent (emptyWorld supply).db (emptyWorld supply).cache :=
  ⟨fun t ht => by simp [emptyWorld] at ht, by simp [emptyWorld],
    fun id g hl => by simp [emptyWorld, List.lookup] at hl,
    fun id g hl => by simp [emptyWorld, List.lookup] at hl⟩

theorem Coherent.of_eq {db db' : MemDB} {c c' : MemCache} (h : Coherent db c)
    (ht : db'.things = db.things) (hp : db'.profiles = db.profiles)
    (hct : c'.thingGroups = c.thingGroups) (hcp : c'.profileGroups = c.profileGroups) :
    Coherent db' c' := by
  have htg : ∀ id, thingGroup db' id = thingGroup db id := by
    intro id
    simp [thingGroup, MemDB.thing, ht]
  have hpg : ∀ id, profileGroup db' id = profileGroup db id := by
    intro id
    simp [profileGroup, MemDB.profile, hp]
  refine ⟨?_, by rw [ht]; exact h.nodup, ?_, ?_⟩
  · intro t htm
    rw [hpg]
    exact h.consistent t (ht ▸ htm)
  · intro id g hl
    rw [htg]
    exact h.thingCache id g (hct ▸ hl)
  · intro id g hl
    rw [hpg]
    exact h.profileCache id g (hcp ▸ hl)

theorem mem_Restore_groups_frame (a : AuthServiceClient) (u : UsersServiceClient)
    (gs : List Group) (w : World MemDB MemCache (List String)) :
    (Restore_groups (memService a u) gs w).2.db.things = w.db.things ∧
    (Restore_groups (memService a u) gs w).2.db.profiles = w.db.profiles ∧
    (Restore_groups (memService a u) gs w).2.cache = w.cache := by
  induction gs generalizing w with
  | nil => exact ⟨rfl, rfl, rfl⟩
  | cons g rest ih =>
    simp only [Restore_groups, memService, memGroups, World.log_db]
    split_ifs with hc
    · have := ih
        { db := { w.db with groups := w.db.groups ++ [g] }
          cache := w.cache
          idp := w.idp
          trace := w.trace ++ [.groupsSave g] }
      exact this
    · exact ⟨rfl, rfl, rfl⟩

theorem mem_Restore_groupMemberships_frame (a : AuthServiceClient)
    (u : UsersServiceClient) (gms : List GroupMembership)
    (w : World MemDB MemCache (List String)) :
    (Restore_groupMemberships (memService a u) gms w).2.db.things = w.db.things ∧
    (Restore_groupMemberships (memService a u) gms w).2.db.profiles = w.db.profiles ∧
    (Restore_groupMemberships (memService a u) gms w).2.cache = w.cache := by
  induction gms generalizing w with
  | nil => exact ⟨rfl, rfl, rfl⟩
  | cons g rest ih =>
    simp only [Restore_groupMemberships, memService, memGroupMemberships, World.log_db]
    split_ifs with hc
    · have := ih
        { db := { w.db with memberships := w.db.memberships ++
            [{ MemberID := g.MemberID, GroupID := g.GroupID, Email := "", Role := g.Role }] }
          cache := w.cache
          idp := w.idp
          trace := w.trace ++ [.groupMembershipsSave
            { MemberID := g.MemberID, GroupID := g.GroupID, Email := "", Role := g.Role }] }
      exact this
    · exact ⟨rfl, rfl, rfl⟩

theorem Coherent.restore {db : MemDB} {c : MemCache} (h : Coherent db c)
    (ths : List Thing) (ps : List Profile)
    (hnew : ∀ t ∈ ths, ∀ r ∈ db.things, r.ID ≠ t.ID)
    (hnd : (ths.map (fun t => t.ID)).Nodup)
    (hg : ∀ t ∈ ths, profileGroup { db with profiles := db.profiles ++ ps } t.ProfileID
      = some t.GroupID) :
    Coherent { db with things := db.things ++ ths, profiles := db.profiles ++ ps } c := by
  refine ⟨?_, ?_, ?_, ?_⟩
  · intro t ht
    simp only [List.mem_append] at ht
    rcases ht with ht | ht
    · exact profileGroup_append db ps _ _ (h.consistent t ht)
    · exact hg t ht
  · simp only [List.map_append]
    rw [List.nodup_append]
    refine ⟨h.nodup, hnd, ?_⟩
    intro x hx hy
    obtain ⟨r, hr, hrx⟩ := List.mem_map.mp hx
    obtain ⟨t, ht, htx⟩ := List.mem_map.mp hy
    exact hnew t ht r hr (hrx.trans htx.symm)
  · intro id g hl
    exact thingGroup_append db ths id g (h.thingCache id g hl)
  · intro id g hl
    exact profileGroup_append db ps id g (h.profileCache id g hl)

theorem mem_Restore_coherent (a : AuthServiceClient) (u : UsersServiceClient)
    (token : String) (backup : Backup) (w w' : World MemDB MemCache (List String))
    (h : Coherent w.db w.cache) (hb : backup.consistentFor w.db)
    (hres : Restore (memService a u) token backup w = (none, w')) :
    Coherent w'.db w'.cache := by
  simp only [Restore] at hres
  have h1 := isAdmin_frame (memService a u) token w
  rcases ha : isAdmin (memService a u) token w with ⟨_ | e, w1⟩
  · rw [ha] at hres h1
    simp only [] at hres h1
    have h2 := mem_Restore_groups_frame a u backup.Groups w1
    rcases hg : Restore_groups (memService a u) backup.Groups w1 with ⟨_ | e, w2⟩
    · rw [hg] at hres h2
      simp only [memService_things, memService_profiles, World.log_db] at hres h2
      rcases hs : memThings.Save w2.db backup.Things with ⟨⟨r3, _ | e⟩, db3⟩
      · rw [hs] at hres
        simp only [] at hres
        obtain ⟨hdb3, hnew, hnd⟩ := memThings_Save_ok hs
        rcases hp : memProfiles.Save db3 backup.Profiles with ⟨⟨r4, _ | e⟩, db4⟩
        · rw [hp] at hres
          simp only [] at hres
          have hdb4 := memProfiles_Save_ok hp
          have h3 := mem_Restore_groupMemberships_frame a u backup.GroupMemberships
            { db := db4
              cache := w2.cache
              idp := w2.idp
              trace := w2.trace ++ [.thingsSave backup.Things] ++
                [.profilesSave backup.Profiles] }
          have hw' : w' = (Restore_groupMemberships (memService a u)
              backup.GroupMemberships
              { db := db4
                cache := w2.cache
                idp := w2.idp
                trace := w2.trace ++ [.thingsSave backup.Things] ++
                  [.profilesSave backup.Profiles] }).2 := by
            rw [← (Prod.mk.inj hres).2]
            rfl
          rw [hw']
          have hcoh := h.restore backup.Things backup.Profiles
            (fun t ht r hr => hnew t ht r (by rw [h2.1, h1.1]; exact hr)) hnd hb
          refine hcoh.of_eq ?_ ?_ ?_ ?_
          · rw [h3.1]
            show db4.things = w.db.things ++ backup.Things
            rw [hdb4, hdb3, h2.1, h1.1]
          · rw [h3.2.1]
            show db4.profiles = w.db.profiles ++ backup.Profiles
            rw [hdb4, hdb3, h2.2.1, h1.1]
          · rw [h3.2.2]
            show w2.cache.thingGroups = w.cache.thingGroups
            rw [h2.2.2, h1.2.1]
          · rw [h3.2.2]
            show w2.cache.profileGroups = w.cache.profileGroups
            rw [h2.2.2, h1.2.1]
        · rw [hp] at hres
          simp at hres
      · rw [hs] at hres
        simp at hres
    · rw [hg] at hres
      simp at hres
  · rw [ha] at hres
    simp at hres

theorem Op.exec_coherent (a : AuthServiceClient) (u : UsersServiceClient) (op : Op)
    (w w' : World MemDB MemCache (List String)) (hop : op.consistentRestore w)
    (h : Coherent w.db w.cache) (hex : op.exec (memService a u) w = some w') :
    Coherent w'.db w'.cache := by
  cases op with
  | createProfiles token profiles =>
    have := mem_CreateProfiles_loop_coherent a u token profiles [] w h
    simp only [Op.exec, CreateProfiles] at hex
    split at hex
    · next heq =>
      simp only [Option.some.injEq] at hex
      rw [heq, hex] at this
      exact this
    · simp at hex
  | createThings token things =>
    have := mem_CreateThings_loop_coherent a u token things [] w h
    simp only [Op.exec, CreateThings] at hex
    split at hex
    · next heq =>
      simp only [Option.some.injEq] at hex
      rw [heq, hex] at this
      exact this
    · simp at hex
  | updateThing token thing =>
    have := mem_UpdateThing_coherent a u token thing w h
    simp only [Op.exec] at hex
    split at hex
    · next heq =>
      simp only [Option.some.injEq] at hex
      rw [heq, hex] at this
      exact this
    · simp at hex
  | updateThingsMetadata token things =>
    have := mem_UpdateThingsMetadata_coherent a u token things w h
    simp only [Op.exec] at hex
    split at hex
    · next heq =>
      simp only [Option.some.injEq] at hex
      rw [heq, hex] at this
      exact this
    · simp at hex
  | updateKey token id key =>
    have := mem_UpdateKey_coherent a u token id key w h
    simp only [Op.exec] at hex
    split at hex
    · next heq =>
      simp only [Option.some.injEq] at hex
      rw [heq, hex] at this
      exact this
    · simp at hex
  | updateProfile token profile =>
    have := mem_UpdateProfile_coherent a u token profile w h
    simp only [Op.exec] at hex
    split at hex
    · next heq =>
      simp only [Option.some.injEq] at hex
      rw [heq, hex] at this
      exact this
    · simp at hex
  | removeThings token ids =>
    have := mem_RemoveThings_coherent a u token ids w h
    simp only [Op.exec] at hex
    split at hex
    · next heq =>
      simp only [Option.some.injEq] at hex
      rw [heq, hex] at this
      exact this
    · simp at hex
  | removeProfiles token ids =>
    have := mem_RemoveProfiles_coherent a u token ids w h
    simp only [Op.exec] at hex
    split at hex
    · next heq =>
      simp only [Option.some.injEq] at hex
      rw [heq, hex] at this
      exact this
    · simp at hex
  | restore token backup =>
    simp only [Op.exec] at hex
    split at hex
    · next w'' heq =>
      simp only [Option.some.injEq] at hex
      subst hex
      exact mem_Restore_coherent a u token backup w w'' h hop heq
    · simp at hex

theorem Reachable.coherent {w : World MemDB MemCache (List String)}
    (h : Reachable Op.consistentRestore w) : Coherent w.db w.cache := by
  induction h with
  | empty supply => exact Coherent.empty supply
  | step auth users op _ hop hex ih => exact Op.exec_coherent auth users op _ _ hop ih hex

/-! ## Repeating a metadata merge -/

theorem setEntry_of_lookup (m : Entries) (k : String) (v : Value)
    (h : m.lookup k = some v) : setEntry m k v = m := by
  induction m with
  | nil => simp [List.lookup] at h
  | cons e m ih =>
    obtain ⟨k0, v0⟩ := e
    rw [lookup_cons_eq] at h
    by_cases hk : k = k0
    · subst hk
      simp only [if_true, Option.some.injEq] at h
      subst h
      simp [setEntry]
    · simp only [hk, if_false] at h
      have hk' : ¬ k0 = k := fun h' => hk h'.symm
      simp [setEntry, hk', ih h]

theorem mergeEntries_of_lookup (A N : Entries)
    (h : ∀ kv ∈ N, A.lookup kv.1 = some kv.2) : mergeEntries A N = A := by
  induction N with
  | nil => rfl
  | cons e N ih =>
    have hstep : mergeEntries A (e :: N) = mergeEntries (setEntry A e.1 e.2) N := rfl
    rw [hstep, setEntry_of_lookup A e.1 e.2 (h e (List.mem_cons_self _ _))]
    exact ih (fun kv hkv => h kv (List.mem_cons_of_mem _ hkv))

theorem lookup_of_mem_nodup (N : Entries) (hN : (N.map Prod.fst).Nodup) (kv : String × Value)
    (h : kv ∈ N) : N.lookup kv.1 = some kv.2 := by
  induction N with
  | nil => simp at h
  | cons e N ih =>
    obtain ⟨k0, v0⟩ := e
    simp only [List.map_cons, List.nodup_cons] at hN
    rw [lookup_cons_eq]
    rcases List.mem_cons.mp h with h | h
    · subst h
      simp
    · have hne : ¬ kv.1 = k0 := by
        intro he
        exact hN.1 (he ▸ List.mem_map_of_mem Prod.fst h)
      simp only [hne, if_false]
      exact ih hN.2 h

theorem mergeEntries_idem (D N : Entries) (hN : (N.map Prod.fst).Nodup) :
    mergeEntries (mergeEntries D N) N = mergeEntries D N := by
  apply mergeEntries_of_lookup
  intro kv hkv
  rw [lookup_mergeEntries D N hN kv.1, lookup_of_mem_nodup N hN kv hkv]

theorem mergeMetadata_idem (d N md : Metadata) (hN : ((N.getD []).map Prod.fst).Nodup)
    (h : mergeMetadata d N = some md) : mergeMetadata md N = some md := by
  cases N with
  | none =>
    simp only [mergeMetadata]
  | some n =>
    cases n with
    | nil => simp only [mergeMetadata]
    | cons e es =>
      cases d with
      | none => simp [mergeMetadata] at h
      | some D =>
        simp only [mergeMetadata, Option.some.injEq] at h
        subst h
        simp only [mergeMetadata]
        rw [mergeEntries_idem D (e :: es) hN]

/-- What a successful `UpdateThingsMetadata` call on one thing did: the check passed,
the row `th` was retrieved, merged, and written. -/
theorem UpdateThingsMetadata_single_ok (ts : thingsService DB C I) (token : String)
    (thing : Thing) (w w1 : World DB C I)
    (h : UpdateThingsMetadata ts token [thing] w = (.returned none, w1)) :
    ∃ th md, ts.things.RetrieveByID w.db thing.ID = (th, none) ∧
      mergeMetadata th.Metadata thing.Metadata = some md ∧
      ts.things.Update w.db { th with Metadata := md } = (none, w1.db) ∧
      Call.thingsUpdate { th with Metadata := md } ∈ calls w w1 := by
  simp only [UpdateThingsMetadata] at h
  have hf := CanUserAccessThing_frame ts ⟨token, thing.ID, Editor⟩ w
  rcases ha : CanUserAccessThing ts ⟨token, thing.ID, Editor⟩ w with ⟨_ | e, wa⟩
  · rw [ha] at h hf
    simp only [World.log_db] at h hf
    rw [hf.1] at h
    rcases hr : ts.things.RetrieveByID w.db thing.ID with ⟨th, _ | e⟩
    · rw [hr] at h
      simp only [] at h
      cases hm : mergeMetadata th.Metadata thing.Metadata with
      | none =>
        rw [hm] at h
        simp at h
      | some md =>
        rw [hm] at h
        simp only [] at h
        rcases hu : ts.things.Update w.db { th with Metadata := md } with ⟨_ | e, db'⟩
        · rw [hu] at h
          simp only [Prod.mk.injEq, true_and] at h
          subst h
          obtain ⟨evs, ht, _⟩ := hf.2.2
          refine ⟨th, md, rfl, hm, hu, ?_⟩
          simp [calls, World.log, ht]
        · rw [hu] at h
          simp at h
    · rw [hr] at h
      simp at h
  · rw [ha] at h
    simp at h

theorem memThings_Update_read (db db' : MemDB) (th : Thing)
    (h : memThings.Update db th = (none, db')) :
    ∃ th', memThings.RetrieveByID db' th.ID = (th', none) ∧ th'.Metadata = th.Metadata := by
  simp only [memThings] at h ⊢
  cases hf : db.thing th.ID with
  | none => simp [hf] at h
  | some r0 =>
    simp only [hf, Prod.mk.injEq, true_and] at h
    subst h
    have hid : r0.ID = th.ID := by
      have := List.find?_some hf
      simpa using this
    simp only [MemDB.thing] at hf ⊢
    rw [find?_key_map Thing.ID _ db.things th.ID (fun r _ => by split <;> rfl), hf]
    simp [hid]

/-! ## The result of `Save` in the create operations -/

/-- The world in which `createThing` makes its `Save`, if it makes one, has the
database of the start; the result is read off the result of that `Save`. -/
theorem createThing_saved (ts : thingsService DB C I) (thing thing' : Thing)
    (w : World DB C I)
    (hmem : Call.thingsSave [thing'] ∈ calls w (createThing ts thing w).2) :
    (createThing ts thing w).1 =
      match ts.things.Save w.db [thing'] with
      | ((_, some err), _) => (Thing.zero, some err)
      | (([], none), _) => (Thing.zero, some Error.ErrCreateEntity)
      | ((th :: _, none), _) => (th, none) := by
  by_cases h1 : thing.ID = "" <;> by_cases h2 : thing.Key = ""
  · rcases hp : ts.idProvider.ID w.idp with ⟨⟨id, _ | e⟩, i⟩
    · rcases hq : ts.idProvider.ID i with ⟨⟨key, _ | e⟩, j⟩
      · simp only [createThing, h1, h2, if_true, World.log_idp, hp, hq, World.log_db]
          at hmem ⊢
        have ht : thing' = { thing with ID := id, Key := key } := by
          split at hmem <;> simpa [calls, World.log] using hmem
        subst ht
        split <;> simp_all
      · simp [createThing, h1, h2, hp, hq, calls, World.log] at hmem
    · simp [createThing, h1, hp, calls, World.log] at hmem
  · rcases hp : ts.idProvider.ID w.idp with ⟨⟨id, _ | e⟩, i⟩
    · simp only [createThing, h1, h2, if_true, if_false, World.log_idp, hp, World.log_db]
        at hmem ⊢
      have ht : thing' = { thing with ID := id } := by
        split at hmem <;> simpa [calls, World.log] using hmem
      subst ht
      split <;> simp_all
    · simp [createThing, h1, hp, calls, World.log] at hmem
  · rcases hp : ts.idProvider.ID w.idp with ⟨⟨key, _ | e⟩, i⟩
    · simp only [createThing, h1, h2, if_true, if_false, World.log_idp, hp, World.log_db]
        at hmem ⊢
      have ht : thing' = { thing with Key := key } := by
        split at hmem <;> simpa [calls, World.log] using hmem
      subst ht
      split <;> simp_all
    · simp [createThing, h1, h2, hp, calls, World.log] at hmem
  · simp only [createThing, h1, h2, if_false, World.log_db] at hmem ⊢
    have ht : thing' = thing := by
      split at hmem <;> simpa [calls, World.log] using hmem
    subst ht
    split <;> simp_all

/-- See `createThing_saved`. -/
theorem createProfile_saved (ts : thingsService DB C I) (profile profile' : Profile)
    (w : World DB C I)
    (hmem : Call.profilesSave [profile'] ∈ calls w (createProfile ts profile w).2) :
    (createProfile ts profile w).1 =
      match ts.profiles.Save w.db [profile'] with
      | ((_, some err), _) => (Profile.zero, some err)
      | (([], none), _) => (Profile.zero, some Error.ErrCreateEntity)
      | ((pr :: _, none), _) => (pr, none) := by
  by_cases h1 : profile.ID = ""
  · rcases hp : ts.idProvider.ID w.idp with ⟨⟨id, _ | e⟩, i⟩
    · simp only [createProfile, h1, if_true, World.log_idp, hp, World.log_db] at hmem ⊢
      have ht : profile' = { profile with ID := id } := by
        split at hmem <;> simpa [calls, World.log] using hmem
      subst ht
      split <;> simp_all
    · simp [createProfile, h1, hp, calls, World.log] at hmem
  · simp only [createProfile, h1, if_false, World.log_db] at hmem ⊢
    have ht : profile' = profile := by
      split at hmem <;> simpa [calls, World.log] using hmem
    subst ht
    split <;> simp_all

theorem createThing_extends (ts : thingsService DB C I) (thing : Thing) (w : World DB C I) :
    Extends (fun _ => True) w (createThing ts thing w).2 := by
  by_cases h1 : thing.ID = "" <;> by_cases h2 : thing.Key = ""
  · rcases hp : ts.idProvider.ID w.idp with ⟨⟨id, _ | e⟩, i⟩
    · rcases hq : ts.idProvider.ID i with ⟨⟨key, _ | e⟩, j⟩
      · simp only [createThing, h1, h2, if_true, World.log_idp, hp, hq]
        split <;> simp [Extends, World.log]
      · simp [createThing, h1, h2, hp, hq, Extends, World.log]
    · simp [createThing, h1, hp, Extends, World.log]
  · rcases hp : ts.idProvider.ID w.idp with ⟨⟨id, _ | e⟩, i⟩
    · simp only [createThing, h1, h2, if_true, if_false, World.log_idp, hp]
      split <;> simp [Extends, World.log]
    · simp [createThing, h1, hp, Extends, World.log]
  · rcases hp : ts.idProvider.ID w.idp with ⟨⟨key, _ | e⟩, i⟩
    · simp only [createThing, h1, h2, if_true, if_false, World.log_idp, hp]
      split <;> simp [Extends, World.log]
    · simp [createThing, h1, h2, hp, Extends, World.log]
  · simp only [createThing, h1, h2, if_false]
    split <;> simp [Extends, World.log]

theorem createProfile_extends (ts : thingsService DB C I) (profile : Profile)
    (w : World DB C I) : Extends (fun _ => True) w (createProfile ts profile w).2 := by
  by_cases h1 : profile.ID = ""
  · rcases hp : ts.idProvider.ID w.idp with ⟨⟨id, _ | e⟩, i⟩
    · simp only [createProfile, h1, if_true, World.log_idp, hp]
      split <;> simp [Extends, World.log]
    · simp [createProfile, h1, hp, Extends, World.log]
  · simp only [createProfile, h1, if_false]
    split <;> simp [Extends, World.log]

theorem calls_append {w w1 w2 : World DB C I} {P Q : Call → Prop}
    (h1 : Extends P w w1) (h2 : Extends Q w1 w2) :
    calls w w2 = calls w w1 ++ calls w1 w2 := by
  obtain ⟨e1, ht1, _⟩ := h1
  obtain ⟨e2, ht2, _⟩ := h2
  rw [calls_of_trace ht1, calls_of_trace ht2]
  apply calls_of_trace
  rw [ht2, ht1, List.append_assoc]

/-! ## Emails of the memberships of a backup -/

theorem emailMap_eq (users : List User) :
    emailMap users = users.reverse.map (fun u => (u.Id, u.Email)) := by
  have h : ∀ (us : List User) (acc : List (String × String)),
      us.foldl (fun m user => (user.Id, user.Email) :: m) acc
        = us.reverse.map (fun u => (u.Id, u.Email)) ++ acc := by
    intro us
    induction us with
    | nil => intro acc; rfl
    | cons u us ih =>
      intro acc
      simp [List.foldl, ih]
  simpa [emailMap] using h users []

theorem lookup_map_user (us : List User) (id : String) :
    (us.map (fun u => (u.Id, u.Email))).lookup id
      = (us.find? (fun u => u.Id == id)).map User.Email := by
  induction us with
  | nil => rfl
  | cons u us ih =>
    rw [List.map_cons, lookup_cons_eq, ih]
    by_cases h : id = u.Id
    · subst h
      simp
    · have h' : ¬ u.Id = id := fun e => h e.symm
      simp [h, h', List.find?_cons]

theorem lookup_emailMap (users : List User) (id : String) :
    (emailMap users).lookup id
      = (users.reverse.find? (fun u => u.Id == id)).map User.Email := by
  rw [emailMap_eq, lookup_map_user]

theorem Backup_reads_only (ts : thingsService DB C I) (token : String) (w : World DB C I) :
    Extends (fun c => c.isAuthRPC = true ∨ c = .groupsBackupAll ∨
      c = .groupMembershipsBackupAll ∨ c = .thingsBackupAll ∨ c = .profilesBackupAll)
      w (ts.Backup token w).2 := by
  simp only [thingsService.Backup, isAdmin]
  rcases ts.auth.Authorize _ with _ | e
  · simp only [World.log_db]
    rcases ts.groups.BackupAll w.db with ⟨g, _ | e⟩ <;>
    rcases ts.groupMemberships.BackupAll w.db with ⟨m, _ | e⟩ <;>
    rcases ts.things.BackupAll w.db with ⟨t, _ | e⟩ <;>
    rcases ts.profiles.BackupAll w.db with ⟨p, _ | e⟩ <;>
    simp [Extends, World.log, Call.isAuthRPC]
  · simp [Extends, World.log, Call.isAuthRPC]

/-! ## Restore as a sequence of writes -/

theorem runWrites_append (ts : thingsService DB C I) (as bs : List Call) (w : World DB C I) :
    runWrites ts (as ++ bs) w =
      match runWrites ts as w with
      | (some err, w') => (some err, w')
      | (none, w') => runWrites ts bs w' := by
  induction as generalizing w with
  | nil => rfl
  | cons c cs ih =>
    simp only [List.cons_append, runWrites]
    rcases h : c.apply ts w.db with ⟨_ | e, db⟩
    · simp only []
      exact ih _
    · rfl

theorem Restore_groups_eq (ts : thingsService DB C I) (gs : List Group) (w : World DB C I) :
    Restore_groups ts gs w = runWrites ts (gs.map Call.groupsSave) w := by
  induction gs generalizing w with
  | nil => rfl
  | cons g gs ih =>
    simp only [Restore_groups, List.map_cons, runWrites, Call.apply, World.log_db]
    rcases h : ts.groups.Save w.db g with ⟨⟨r, _ | e⟩, db⟩
    · simp only []
      exact ih _
    · rfl

theorem Restore_groupMemberships_eq (ts : thingsService DB C I) (gms : List GroupMembership)
    (w : World DB C I) :
    Restore_groupMemberships ts gms w
      = runWrites ts (gms.map (fun g => Call.groupMembershipsSave (restoredMembership g))) w := by
  induction gms generalizing w with
  | nil => rfl
  | cons g gms ih =>
    simp only [Restore_groupMemberships, List.map_cons, runWrites, Call.apply, World.log_db,
      restoredMembership]
    rcases h : ts.groupMemberships.Save w.db
      { MemberID := g.MemberID, GroupID := g.GroupID, Email := "", Role := g.Role }
      with ⟨_ | e, db⟩
    · simp only []
      exact ih _
    · rfl

/-- After the admin check, `Restore` is the run of the writes `restoreWrites backup`. -/
theorem Restore_eq_runWrites (ts : thingsService DB C I) (token : String) (backup : Backup)
    (w : World DB C I)
    (hadm : ts.auth.Authorize
      { Token := token, Object := "", Subject := RootSub, Action := "" } = none) :
    Restore ts token backup w = runWrites ts (restoreWrites backup)
      (w.log (.authAuthorize
        { Token := token, Object := "", Subject := RootSub, Action := "" })) := by
  simp only [Restore, isAdmin, hadm, restoreWrites, runWrites_append, Restore_groups_eq,
    Restore_groupMemberships_eq]
  rcases hg : runWrites ts (backup.Groups.map Call.groupsSave)
    (w.log (.authAuthorize
      { Token := token, Object := "", Subject := RootSub, Action := "" })) with ⟨_ | e, w1⟩
  · simp only [runWrites, Call.apply, World.log_db]
    rcases ht : ts.things.Save w1.db backup.Things with ⟨⟨r, _ | e⟩, db⟩
    · simp only []
      rcases hp : ts.profiles.Save db backup.Profiles with ⟨⟨r, _ | e⟩, db'⟩
      · rfl
      · rfl
    · rfl
  · rfl

/-- The trace and the database of a run of writes: the writes made are a prefix of the
list, the whole list when the run succeeds. -/
theorem runWrites_spec (ts : thingsService DB C I) (cs : List Call) (w : World DB C I) :
    (calls w (runWrites ts cs w).2 <+: cs) ∧
    (∃ evs, (runWrites ts cs w).2.trace = w.trace ++ evs) ∧
    ((runWrites ts cs w).1 = none ↔ allSucceed ts cs w.db) ∧
    ((runWrites ts cs w).1 = none →
      calls w (runWrites ts cs w).2 = cs ∧
      (runWrites ts cs w).2.db = applyWrites ts cs w.db) := by
  induction cs generalizing w with
  | nil => simp [runWrites, calls, allSucceed, applyWrites]
  | cons c cs ih =>
    simp only [runWrites, allSucceed, applyWrites, List.foldl_cons]
    rcases h : c.apply ts w.db with ⟨_ | e, db⟩
    · simp only [true_and]
      obtain ⟨h1, ⟨evs, h2⟩, h3, h4⟩ := ih { w.log c with db := db }
      have ht : (runWrites ts cs { w.log c with db := db }).2.trace = w.trace ++ (c :: evs) := by
        rw [h2]
        simp [World.log]
      have hc : calls w (runWrites ts cs { w.log c with db := db }).2
          = c :: calls { w.log c with db := db } (runWrites ts cs { w.log c with db := db }).2 := by
        rw [calls_of_trace ht, calls_of_trace h2]
      refine ⟨?_, ⟨_, ht⟩, h3, ?_⟩
      · rw [hc]
        exact (List.prefix_cons_inj c).mpr h1
      · intro hn
        rw [hc, (h4 hn).1]
        exact ⟨rfl, (h4 hn).2⟩
    · simp [calls, World.log]

/-- A run of writes whose first failing write is `c`, after the writes `pre`. -/
theorem runWrites_fail (ts : thingsService DB C I) (pre post : List Call) (c : Call)
    (err : Error) (w : World DB C I)
    (hpre : allSucceed ts pre w.db)
    (hc : (c.apply ts (applyWrites ts pre w.db)).1 = some err) :
    (runWrites ts (pre ++ c :: post) w).1 = some err ∧
    calls w (runWrites ts (pre ++ c :: post) w).2 = pre ++ [c] ∧
    (runWrites ts (pre ++ c :: post) w).2.db = (c.apply ts (applyWrites ts pre w.db)).2 := by
  obtain ⟨_, ⟨evs, ht⟩, h3, h4⟩ := runWrites_spec ts pre w
  have hn := h3.mpr hpre
  obtain ⟨hcalls, hdb⟩ := h4 hn
  rw [calls_of_trace ht] at hcalls
  subst hcalls
  rw [runWrites_append]
  rcases hr : runWrites ts evs w with ⟨r, w1⟩
  rw [hr] at hn ht hdb
  simp only [] at hn ht hdb
  subst hn
  simp only [runWrites]
  rw [← hdb] at hc ⊢
  rcases ha : c.apply ts w1.db with ⟨r, db⟩
  rw [ha] at hc
  simp only [] at hc
  subst hc
  simp [calls, World.log, ht]

/-! ## Restoring into the empty tenant -/

theorem mem_Restore_groups_ok (a : AuthServiceClient) (u : UsersServiceClient)
    (gs : List Group) (w : World MemDB MemCache (List String))
    (h : ((w.db.groups ++ gs).map (fun g => g.ID)).Nodup) :
    (Restore_groups (memService a u) gs w).1 = none ∧
    (Restore_groups (memService a u) gs w).2.db
      = { w.db with groups := w.db.groups ++ gs } := by
  induction gs generalizing w with
  | nil => simp [Restore_groups]
  | cons g rest ih =>
    have hc : w.db.groups.all (fun r => r.ID != g.ID) = true := by
      simp only [List.all_eq_true, bne_iff_ne, ne_eq]
      intro r hr heq
      simp only [List.map_append, List.map_cons, List.nodup_append, List.nodup_cons] at h
      exact h.2.2 (List.mem_map_of_mem (fun g => g.ID) hr) (heq ▸ List.mem_cons_self _ _)
    simp only [Restore_groups, memService, memGroups, World.log_db, hc, if_true]
    have := ih
      { db := { w.db with groups := w.db.groups ++ [g] }
        cache := w.cache
        idp := w.idp
        trace := w.trace ++ [Call.groupsSave g] }
      (by simpa using h)
    simpa [memService, memGroups, World.log] using this

theorem mem_Restore_groupMemberships_ok (a : AuthServiceClient) (u : UsersServiceClient)
    (gms : List GroupMembership) (w : World MemDB MemCache (List String))
    (h : ((w.db.memberships ++ gms).map (fun m => (m.MemberID, m.GroupID))).Nodup) :
    (Restore_groupMemberships (memService a u) gms w).1 = none ∧
    (Restore_groupMemberships (memService a u) gms w).2.db
      = { w.db with memberships := w.db.memberships ++ gms.map restoredMembership } := by
  induction gms generalizing w with
  | nil => simp [Restore_groupMemberships]
  | cons g rest ih =>
    have hc : w.db.memberships.all
        (fun r => !(r.MemberID == g.MemberID && r.GroupID == g.GroupID)) = true := by
      simp only [List.all_eq_true, Bool.not_eq_true', Bool.and_eq_false_iff, beq_eq_false_iff_ne,
        ne_eq]
      intro r hr
      by_contra hcon
      simp only [not_or, not_not] at hcon
      simp only [List.map_append, List.map_cons, List.nodup_append, List.nodup_cons] at h
      have hmem : (r.MemberID, r.GroupID)
          ∈ w.db.memberships.map (fun m => (m.MemberID, m.GroupID)) :=
        List.mem_map_of_mem (fun m => (m.MemberID, m.GroupID)) hr
      rw [hcon.1, hcon.2] at hmem
      exact h.2.2 hmem (List.mem_cons_self _ _)
    simp only [Restore_groupMemberships, memService, memGroupMemberships, World.log_db, hc,
      if_true]
    have := ih
      { db := { w.db with memberships := w.db.memberships ++
          [{ MemberID := g.MemberID, GroupID := g.GroupID, Email := "", Role := g.Role }] }
        cache := w.cache
        idp := w.idp
        trace := w.trace ++ [Call.groupMembershipsSave
          { MemberID := g.MemberID, GroupID := g.GroupID, Email := "", Role := g.Role }] }
      (by simpa using h)
    simpa [memService, memGroupMemberships, World.log, restoredMembership] using this

theorem map_restoredMembership_of_no_email (gms : List GroupMembership)
    (h : ∀ m ∈ gms, m.Email = "") : gms.map restoredMembership = gms := by
  induction gms with
  | nil => rfl
  | cons g rest ih =>
    have hg := h g (List.mem_cons_self _ _)
    rw [List.map_cons, ih (fun m hm => h m (List.mem_cons_of_mem _ hm))]
    congr 1
    cases g
    simp only [restoredMembership] at hg ⊢
    rw [hg]

theorem memThings_Save_fresh (db : MemDB) (ths : List Thing) (h0 : db.things = [])
    (hid : (ths.map (fun t => t.ID)).Nodup) (hkey : (ths.map (fun t => t.Key)).Nodup) :
    memThings.Save db ths = ((ths, none), { db with things := ths }) := by
  simp [memThings, h0, hid, hkey]

theorem memProfiles_Save_fresh (db : MemDB) (prs : List Profile) (h0 : db.profiles = [])
    (hid : (prs.map (fun p => p.ID)).Nodup) :
    memProfiles.Save db prs = ((prs, none), { db with profiles := prs }) := by
  simp [memProfiles, h0, hid]

theorem mem_Backup (a : AuthServiceClient) (u : UsersServiceClient) (token : String)
    (w : World MemDB MemCache (List String))
    (hadm : a.Authorize { Token := token, Object := "", Subject := RootSub, Action := "" }
      = none) :
    ((memService a u).Backup token w).1
      = (⟨w.db.things, w.db.profiles, w.db.groups, w.db.memberships⟩, none) := by
  simp [thingsService.Backup, isAdmin, memService, hadm, memGroups, memGroupMemberships,
    memThings, memProfiles]

/-- Restoring a backup with unique IDs, keys and member-group pairs into a tenant
without rows succeeds and persists the rows of the backup, the memberships without
email. -/
theorem mem_Restore_fresh (a : AuthServiceClient) (u : UsersServiceClient) (token : String)
    (b : Backup) (w : World MemDB MemCache (List String))
    (hadm : a.Authorize { Token := token, Object := "", Subject := RootSub, Action := "" }
      = none)
    (h0 : w.db = ⟨[], [], [], []⟩)
    (hth : (b.Things.map (fun t => t.ID)).Nodup)
    (hkey : (b.Things.map (fun t => t.Key)).Nodup)
    (hpr : (b.Profiles.map (fun p => p.ID)).Nodup)
    (hgr : (b.Groups.map (fun g => g.ID)).Nodup)
    (hgm : (b.GroupMemberships.map (fun m => (m.MemberID, m.GroupID))).Nodup) :
    (Restore (memService a u) token b w).1 = none ∧
    (Restore (memService a u) token b w).2.db
      = ⟨b.Things, b.Profiles, b.Groups, b.GroupMemberships.map restoredMembership⟩ := by
  simp only [Restore, isAdmin, memService_auth, hadm]
  obtain ⟨hg1, hg2⟩ := mem_Restore_groups_ok a u b.Groups
    (w.log (.authAuthorize { Token := token, Object := "", Subject := RootSub, Action := "" }))
    (by simpa [h0] using hgr)
  rcases hg : Restore_groups (memService a u) b.Groups
    (w.log (.authAuthorize { Token := token, Object := "", Subject := RootSub, Action := "" }))
    with ⟨r, w2⟩
  rw [hg] at hg1 hg2
  simp only [World.log_db, h0, List.nil_append] at hg1 hg2
  subst hg1
  simp only [World.log_db, memService_things, memService_profiles, hg2]
  rw [memThings_Save_fresh _ b.Things rfl hth hkey]
  simp only []
  rw [memProfiles_Save_fresh _ b.Profiles rfl hpr]
  simp only []
  obtain ⟨hm1, hm2⟩ := mem_Restore_groupMemberships_ok a u b.GroupMemberships
    { db := ⟨b.Things, b.Profiles, b.Groups, []⟩
      cache := w2.cache
      idp := w2.idp
      trace := (w2.trace ++ [Call.thingsSave b.Things]) ++ [Call.profilesSave b.Profiles] }
    (by simpa using hgm)
  exact ⟨hm1, by simpa using hm2⟩

/-! ## The purges of a removal -/

/-- One completed round of the removal loop: the check passed, the two purges were
made, and the loop went on from the world `w2` after them. -/
theorem RemoveThings_loop_cons_ok (ts : thingsService DB C I) (token : String)
    (i : String) (rest : List String) (w w1 : World DB C I)
    (h : RemoveThings_loop ts token (i :: rest) w = (none, w1)) :
    ∃ wa w2, CanUserAccessThing ts ⟨token, i, Editor⟩ w = (none, wa) ∧
      w2.trace = wa.trace ++ [Call.thingCacheRemove i, Call.thingCacheRemoveGroup i] ∧
      RemoveThings_loop ts token rest w2 = (none, w1) := by
  simp only [RemoveThings_loop] at h
  rcases ha : CanUserAccessThing ts ⟨token, i, Editor⟩ w with ⟨_ | e, wa⟩
  · rw [ha] at h
    simp only [World.log_cache] at h
    rcases hr : ts.thingCache.Remove wa.cache i with ⟨_ | e, c⟩
    · rw [hr] at h
      simp only [World.log_cache] at h
      rcases hg : ts.thingCache.RemoveGroup c i with ⟨_ | e, c'⟩
      · rw [hg] at h
        simp only [] at h
        exact ⟨wa, _, rfl, by simp [World.log], h⟩
      · rw [hg] at h
        simp at h
    · rw [hr] at h
      simp at h
  · rw [ha] at h
    simp at h

/-- A removal loop that completes has purged the two thing-cache entries of each of its
IDs. -/
theorem RemoveThings_loop_purges (ts : thingsService DB C I) (token : String)
    (ids : List String) (w w1 : World DB C I)
    (h : RemoveThings_loop ts token ids w = (none, w1)) :
    ∀ id ∈ ids, Call.thingCacheRemove id ∈ calls w w1 ∧
      Call.thingCacheRemoveGroup id ∈ calls w w1 := by
  induction ids generalizing w with
  | nil => intro id hid; simp at hid
  | cons i rest ih =>
    obtain ⟨wa, w2, ha, ht2, hrest⟩ := RemoveThings_loop_cons_ok ts token i rest w w1 h
    have h1 := CanUserAccessThing_frame ts ⟨token, i, Editor⟩ w
    rw [ha] at h1
    obtain ⟨evs, ht, _⟩ := h1.2.2
    simp only [] at ht
    have hf := RemoveThings_loop_frame ts token rest w2
    rw [hrest] at hf
    obtain ⟨evs2, ht3, _⟩ := hf.2.2
    simp only [] at ht3
    have hall : w1.trace = w.trace ++ (evs ++ [Call.thingCacheRemove i,
        Call.thingCacheRemoveGroup i] ++ evs2) := by
      rw [ht3, ht2, ht]
      simp
    have ih' := ih w2 hrest
    rw [calls_of_trace ht3] at ih'
    rw [calls_of_trace hall]
    intro id hid
    rcases List.mem_cons.mp hid with rfl | hid
    · simp
    · exact ⟨List.mem_append_right _ (ih' id hid).1, List.mem_append_right _ (ih' id hid).2⟩

/-! ## A successful `createThing` -/

/-- A `createThing` that succeeds has made one `Save`, of a single thing, on the
database of the start; the `Save` returned the created thing first, and the database
after the call is the one the `Save` left. -/
theorem createThing_ok (ts : thingsService DB C I) (thing th : Thing)
    (w w' : World DB C I) (h : createThing ts thing w = ((th, none), w')) :
    ∃ thing' rest, Call.thingsSave [thing'] ∈ calls w w' ∧
      ts.things.Save w.db [thing'] = ((th :: rest, none), w'.db) := by
  by_cases h1 : thing.ID = "" <;> by_cases h2 : thing.Key = ""
  · rcases hp : ts.idProvider.ID w.idp with ⟨⟨id, _ | e⟩, i⟩
    · rcases hq : ts.idProvider.ID i with ⟨⟨k, _ | e⟩, j⟩
      · simp only [createThing, h1, h2, if_true, World.log_idp, hp, hq, World.log_db] at h
        rcases hsave : ts.things.Save w.db [{ thing with ID := id, Key := k }]
          with ⟨⟨r, _ | e⟩, db⟩
        · rw [hsave] at h
          cases r with
          | nil => simp at h
          | cons a rest =>
            simp only [Prod.mk.injEq, and_true] at h
            obtain ⟨rfl, rfl⟩ := h
            exact ⟨_, rest, by simp [calls, World.log], hsave⟩
        · rw [hsave] at h
          simp at h
      · simp [createThing, h1, h2, hp, hq] at h
    · simp [createThing, h1, hp] at h
  · rcases hp : ts.idProvider.ID w.idp with ⟨⟨id, _ | e⟩, i⟩
    · simp only [createThing, h1, h2, if_true, if_false, World.log_idp, hp, World.log_db] at h
      rcases hsave : ts.things.Save w.db [{ thing with ID := id }] with ⟨⟨r, _ | e⟩, db⟩
      · rw [hsave] at h
        cases r with
        | nil => simp at h
        | cons a rest =>
          simp only [Prod.mk.injEq, and_true] at h
          obtain ⟨rfl, rfl⟩ := h
          exact ⟨_, rest, by simp [calls, World.log], hsave⟩
      · rw [hsave] at h
        simp at h
    · simp [createThing, h1, hp] at h
  · rcases hp : ts.idProvider.ID w.idp with ⟨⟨k, _ | e⟩, i⟩
    · simp only [createThing, h1, h2, if_true, if_false, World.log_idp, hp, World.log_db] at h
      rcases hsave : ts.things.Save w.db [{ thing with Key := k }] with ⟨⟨r, _ | e⟩, db⟩
      · rw [hsave] at h
        cases r with
        | nil => simp at h
        | cons a rest =>
          simp only [Prod.mk.injEq, and_true] at h
          obtain ⟨rfl, rfl⟩ := h
          exact ⟨_, rest, by simp [calls, World.log], hsave⟩
      · rw [hsave] at h
        simp at h
    · simp [createThing, h1, h2, hp] at h
  · simp only [createThing, h1, h2, if_false, World.log_db] at h
    rcases hsave : ts.things.Save w.db [thing] with ⟨⟨r, _ | e⟩, db⟩
    · rw [hsave] at h
      cases r with
      | nil => simp at h
      | cons a rest =>
        simp only [Prod.mk.injEq, and_true] at h
        obtain ⟨rfl, rfl⟩ := h
        exact ⟨_, rest, by simp [calls, World.log], hsave⟩
    · rw [hsave] at h
      simp at h

/-! ## The cache after an access check -/

/-- The access check on a thing leaves the cache as it was, or as one `SaveGroup` left
it. -/
theorem CanUserAccessThing_cache (ts : thingsService DB C I) (req : UserAccessReq)
    (w : World DB C I) :
    (CanUserAccessThing ts req w).2.cache = w.cache ∨
    ∃ i g, (CanUserAccessThing ts req w).2.cache = (ts.thingCache.SaveGroup w.cache i g).2 := by
  simp only [CanUserAccessThing, getGroupIDByThingID, World.log_cache, World.log_db]
  rcases hv : ts.thingCache.ViewGroup w.cache req.ID with ⟨g, _ | e⟩
  · simp only []
    left
    rw [(canAccessGroup_frame ts req.Token g req.Action _).2.1]
    rfl
  · simp only []
    rcases hr : ts.things.RetrieveByID w.db req.ID with ⟨th, _ | e⟩
    · simp only []
      rcases hs : ts.thingCache.SaveGroup w.cache th.ID th.GroupID with ⟨_ | e, c⟩
      · simp only []
        right
        refine ⟨th.ID, th.GroupID, ?_⟩
        rw [(canAccessGroup_frame ts req.Token th.GroupID req.Action _).2.1, hs]
      · right
        exact ⟨th.ID, th.GroupID, by rw [hs]⟩
    · left
      rfl

/-! ## The rules service: payloads and the rule loop -/

/-- C1 (amended): in every world reachable from an empty tenant by successful
operations (CreateProfiles, CreateThings, UpdateThing, UpdateThingsMetadata, UpdateKey,
UpdateProfile, RemoveThings, RemoveProfiles, and Restore of backups that are consistent
for the tenant they are restored into), every persisted thing has the group of the
persisted profile whose ID is its `ProfileID`. -/
theorem reachable_group_consistent (w : World MemDB MemCache (List String))
    (h : Reachable Op.consistentRestore w) : GroupConsistent w.db :=
  h.coherent.consistent

/-- Witness of C1 (amended): `consistentWorld` is reachable by CreateProfiles,
CreateThings, UpdateThing and the Restore of a consistent backup, and its two things
have the groups of their profiles. -/
theorem reachable_group_consistent_witness :
    Reachable Op.consistentRestore consistentWorld ∧
    consistentWorld.db.things = [{ thingT1 with Name := "renamed" }, thingT2] ∧
    consistentWorld.db.profiles = [profileP1, profileP2] ∧
    GroupConsistent consistentWorld.db :=
  have h : Reachable Op.consistentRestore consistentWorld :=
    Reachable.step sampleAuth sampleUsers
      (.restore "admin" ⟨[thingT2], [profileP2], [], []⟩)
      (Reachable.step sampleAuth sampleUsers
        (.updateThing "user" { thingT1 with Name := "renamed" })
        (Reachable.step sampleAuth sampleUsers (.createThings "user" [thingT1])
          (Reachable.step sampleAuth sampleUsers (.createProfiles "user" [profileP1])
            (Reachable.empty []) trivial rfl)
          trivial rfl)
        trivial rfl)
      (by show Backup.consistentFor _ _; decide) rfl
  ⟨h, by decide, by decide, reachable_group_consistent consistentWorld h⟩

/-- C1 as stated fails: an admin restores, into the empty tenant, a backup whose thing
is in group `g1` and names the profile `p2` of group `g2`.  `Restore` succeeds and the
thing is persisted with a group that is not the group of its profile. -/
theorem restore_breaks_group_consistency :
    Reachable (fun _ _ => True) mismatchWorld ∧
    mismatchWorld.db.things = [⟨"t9", "g1", "p2", "thing-9", "k9", none⟩] ∧
    mismatchWorld.db.profiles = [profileP2] ∧
    ¬ GroupConsistent mismatchWorld.db := by
  refine ⟨?_, by decide, by decide, by decide⟩
  exact Reachable.step sampleAuth sampleUsers
    (.restore "admin" ⟨[⟨"t9", "g1", "p2", "thing-9", "k9", none⟩], [profileP2], [], []⟩)
    (Reachable.empty []) trivial rfl

/-! ## C2: CreateThings rejects a thing whose profile is in another group -/

/-- C2: a `CreateThings` call with one thing `t`, for which the Editor check on
`t.GroupID` passes and the group resolved for `t.ProfileID` is not `t.GroupID`, returns
the Authorization error; it makes no `things.Save` call (indeed no repository write)
and leaves the database as it was. -/
theorem createThings_rejects_group_mismatch (ts : thingsService DB C I) (token : String)
    (t : Thing) (w : World DB C I) (g : String)
    (hacc : (CanUserAccessGroup ts ⟨token, t.GroupID, Editor⟩ w).1 = none)
    (hres : (getGroupIDByProfileID ts t.ProfileID
      (CanUserAccessGroup ts ⟨token, t.GroupID, Editor⟩ w).2).1 = (g, none))
    (hne : g ≠ t.GroupID) :
    (CreateThings ts token [t] w).1 = ([], some Error.ErrAuthorization) ∧
    (∀ c ∈ calls w (CreateThings ts token [t] w).2, c.isWrite = false) ∧
    (∀ ths, Call.thingsSave ths ∉ calls w (CreateThings ts token [t] w).2) ∧
    (CreateThings ts token [t] w).2.db = w.db := by
  have h1 := CanUserAccessGroup_frame ts ⟨token, t.GroupID, Editor⟩ w
  rcases ha : CanUserAccessGroup ts ⟨token, t.GroupID, Editor⟩ w with ⟨e1, w1⟩
  rw [ha] at hacc hres h1
  simp only [] at hacc hres h1
  subst hacc
  have h2 := getGroupIDByProfileID_frame ts t.ProfileID w1
  rcases hg : getGroupIDByProfileID ts t.ProfileID w1 with ⟨r, w2⟩
  rw [hg] at hres h2
  simp only [] at hres h2
  subst hres
  have hrun : CreateThings ts token [t] w = (([], some Error.ErrAuthorization), w2) := by
    simp [CreateThings, CreateThings_loop, ha, hg, hne]
  rw [hrun]
  have hext : Extends (fun c => c.isWrite = false) w w2 :=
    (h1.2.2.2.mono fun c hc => Call.isCheck_not_write (Call.isAuthRPC_check hc)).trans
      (h2.2.2.mono fun c hc => Call.isResolution_not_write hc)
  refine ⟨rfl, hext.mem_calls, ?_, by rw [h2.1, h1.1]⟩
  intro ths hmem
  have := hext.mem_calls _ hmem
  simp [Call.isWrite] at this

/-- Witness of C2: in `sampleWorld`, user "user" creates a thing in group `g1` with the
profile `p2` of group `g2`. -/
theorem createThings_rejects_group_mismatch_witness :
    (CreateThings sampleService "user" [⟨"", "g1", "p2", "thing-3", "", none⟩] sampleWorld).1
      = ([], some Error.ErrAuthorization) ∧
    (CreateThings sampleService "user" [⟨"", "g1", "p2", "thing-3", "", none⟩]
      sampleWorld).2.db = sampleWorld.db :=
  have h := createThings_rejects_group_mismatch sampleService "user"
    ⟨"", "g1", "p2", "thing-3", "", none⟩ sampleWorld "g2" (by decide) (by decide) (by decide)
  ⟨h.1, h.2.2.2⟩

/-! ## C3: UpdateThing compares the two groups before it updates -/

/-- C3: an `UpdateThing` call whose Editor check on `thing.ID` passes and for which both
groups are resolved: when the group of `thing.ProfileID` differs from the group of
`thing.ID`, the call returns the Authorization error without any repository write
(no `things.Update`); when they are equal, its only repository write is one
`things.Update(thing)`, made on the unchanged database, whose result it returns. -/
theorem updateThing_checks_groups (ts : thingsService DB C I) (token : String)
    (thing : Thing) (w : World DB C I) (thGr prGr : String)
    (hacc : (CanUserAccessThing ts ⟨token, thing.ID, Editor⟩ w).1 = none)
    (hth : (getGroupIDByThingID ts thing.ID
      (CanUserAccessThing ts ⟨token, thing.ID, Editor⟩ w).2).1 = (thGr, none))
    (hpr : (getGroupIDByProfileID ts thing.ProfileID
      (getGroupIDByThingID ts thing.ID
        (CanUserAccessThing ts ⟨token, thing.ID, Editor⟩ w).2).2).1 = (prGr, none)) :
    (prGr ≠ thGr →
      (UpdateThing ts token thing w).1 = some Error.ErrAuthorization ∧
      (∀ c ∈ calls w (UpdateThing ts token thing w).2, c.isWrite = false) ∧
      (∀ th, Call.thingsUpdate th ∉ calls w (UpdateThing ts token thing w).2) ∧
      (UpdateThing ts token thing w).2.db = w.db) ∧
    (prGr = thGr →
      (calls w (UpdateThing ts token thing w).2).filter Call.isWrite
        = [Call.thingsUpdate thing] ∧
      (UpdateThing ts token thing w).1 = (ts.things.Update w.db thing).1 ∧
      (UpdateThing ts token thing w).2.db = (ts.things.Update w.db thing).2) := by
  have h1 := CanUserAccessThing_frame ts ⟨token, thing.ID, Editor⟩ w
  rcases ha : CanUserAccessThing ts ⟨token, thing.ID, Editor⟩ w with ⟨e1, w1⟩
  rw [ha] at hacc hth hpr h1
  simp only [] at hacc hth hpr h1
  subst hacc
  have h2 := getGroupIDByThingID_frame ts thing.ID w1
  rcases ht : getGroupIDByThingID ts thing.ID w1 with ⟨r2, w2⟩
  rw [ht] at hth hpr h2
  simp only [] at hth hpr h2
  subst hth
  have h3 := getGroupIDByProfileID_frame ts thing.ProfileID w2
  rcases hp : getGroupIDByProfileID ts thing.ProfileID w2 with ⟨r3, w3⟩
  rw [hp] at hpr h3
  simp only [] at hpr h3
  subst hpr
  have hdb : w3.db = w.db := by rw [h3.1, h2.1, h1.1]
  have hext : Extends (fun c => c.isWrite = false) w w3 :=
    ((h1.2.2.mono fun c hc => Call.isCheck_not_write hc).trans
      (h2.2.2.mono fun c hc => Call.isResolution_not_write hc)).trans
      (h3.2.2.mono fun c hc => Call.isResolution_not_write hc)
  constructor
  · intro hne
    have hrun : UpdateThing ts token thing w = (some Error.ErrAuthorization, w3) := by
      simp [UpdateThing, ha, ht, hp, hne]
    rw [hrun]
    refine ⟨rfl, hext.mem_calls, ?_, hdb⟩
    intro th hmem
    have := hext.mem_calls _ hmem
    simp [Call.isWrite] at this
  · intro heq
    have hrun : UpdateThing ts token thing w =
        ((ts.things.Update w.db thing).1,
          { w3.log (.thingsUpdate thing) with db := (ts.things.Update w.db thing).2 }) := by
      simp [UpdateThing, ha, ht, hp, heq, hdb]
    rw [hrun]
    obtain ⟨evs, htr, hevs⟩ := hext
    have hcalls : calls w
        { w3.log (.thingsUpdate thing) with db := (ts.things.Update w.db thing).2 }
        = evs ++ [Call.thingsUpdate thing] := by
      apply calls_of_trace
      simp [htr]
    refine ⟨?_, rfl, rfl⟩
    rw [hcalls, List.filter_append, filter_isWrite_eq_nil hevs]
    simp [Call.isWrite]

/-- Witness of C3: in `sampleWorld`, user "user" updates thing `t1` keeping its profile
`p1`: both groups are `g1` and `things.Update` is the one write. -/
theorem updateThing_checks_groups_witness :
    (calls sampleWorld (UpdateThing sampleService "user"
      { thingT1 with Name := "renamed" } sampleWorld).2).filter Call.isWrite
        = [Call.thingsUpdate { thingT1 with Name := "renamed" }] ∧
    (UpdateThing sampleService "user" { thingT1 with Name := "renamed" } sampleWorld).1
      = none :=
  have h := (updateThing_checks_groups sampleService "user" { thingT1 with Name := "renamed" }
    sampleWorld "g1" "g1" (by decide) (by decide) (by decide)).2 rfl
  ⟨h.1, h.2.1.trans (by decide)⟩

/-! ## C4: CanThingAccessGroup -/

/-- C4: `CanThingAccessGroup(K, G)` returns nil exactly when `Identify(K)` succeeds, the
group of the identified thing is resolved, and that group is `G`; when both resolutions
succeed and the group is not `G` it returns the Authorization error; and none of its
calls is an Authorize or Identify RPC of the external service (all of them are cache
calls and repository retrievals). -/
theorem canThingAccessGroup_iff (ts : thingsService DB C I) (K G : String)
    (w : World DB C I) :
    ((CanThingAccessGroup ts ⟨K, G⟩ w).1 = none ↔
      (Identify ts K w).1.2 = none ∧
      (getGroupIDByThingID ts (Identify ts K w).1.1 (Identify ts K w).2).1.2 = none ∧
      (getGroupIDByThingID ts (Identify ts K w).1.1 (Identify ts K w).2).1.1 = G) ∧
    ((Identify ts K w).1.2 = none →
      (getGroupIDByThingID ts (Identify ts K w).1.1 (Identify ts K w).2).1.2 = none →
      (getGroupIDByThingID ts (Identify ts K w).1.1 (Identify ts K w).2).1.1 ≠ G →
      (CanThingAccessGroup ts ⟨K, G⟩ w).1 = some Error.ErrAuthorization) ∧
    (∀ c ∈ calls w (CanThingAccessGroup ts ⟨K, G⟩ w).2,
      c.isResolution = true ∧ c.isAuthRPC = false) := by
  have h1 := Identify_frame ts K w
  rcases hi : Identify ts K w with ⟨⟨thID, e1⟩, w1⟩
  rw [hi] at h1
  have h2 := getGroupIDByThingID_frame ts thID w1
  rcases hg : getGroupIDByThingID ts thID w1 with ⟨⟨grID, e2⟩, w2⟩
  rw [hg] at h2
  simp only [] at h1 h2 ⊢
  have hcalls : ∀ w' : World DB C I, Extends (fun c => c.isResolution = true) w w' →
      ∀ c ∈ calls w w', c.isResolution = true ∧ c.isAuthRPC = false :=
    fun w' h c hc => ⟨h.mem_calls c hc, Call.isResolution_not_auth (h.mem_calls c hc)⟩
  cases e1 with
  | some err =>
    have hrun : CanThingAccessGroup ts ⟨K, G⟩ w = (some err, w1) := by
      simp [CanThingAccessGroup, hi]
    rw [hrun]
    exact ⟨by simp, by simp, hcalls w1 h1.2.2⟩
  | none =>
    cases e2 with
    | some err =>
      have hrun : CanThingAccessGroup ts ⟨K, G⟩ w = (some err, w2) := by
        simp [CanThingAccessGroup, hi, hg]
      rw [hrun]
      exact ⟨by simp, by simp, hcalls w2 (h1.2.2.trans h2.2.2)⟩
    | none =>
      by_cases hG : grID = G
      · have hrun : CanThingAccessGroup ts ⟨K, G⟩ w = (none, w2) := by
          simp [CanThingAccessGroup, hi, hg, hG]
        rw [hrun]
        exact ⟨by simp [hG], by simp [hG], hcalls w2 (h1.2.2.trans h2.2.2)⟩
      · have hrun : CanThingAccessGroup ts ⟨K, G⟩ w = (some Error.ErrAuthorization, w2) := by
          simp [CanThingAccessGroup, hi, hg, hG]
        rw [hrun]
        exact ⟨by simp [hG], by simp, hcalls w2 (h1.2.2.trans h2.2.2)⟩

/-- Witness of C4: in `sampleWorld` the key `k1` of thing `t1` (group `g1`) is refused
for group `g2` with the Authorization error, and accepted for `g1`. -/
theorem canThingAccessGroup_iff_witness :
    (CanThingAccessGroup sampleService ⟨"k1", "g2"⟩ sampleWorld).1
      = some Error.ErrAuthorization ∧
    (CanThingAccessGroup sampleService ⟨"k1", "g1"⟩ sampleWorld).1 = none :=
  ⟨(canThingAccessGroup_iff sampleService "k1" "g2" sampleWorld).2.1
      (by decide) (by decide) (by decide),
    (canThingAccessGroup_iff sampleService "k1" "g1" sampleWorld).1.mpr
      ⟨by decide, by decide, by decide⟩⟩

/-! ## C5: a cache miss repopulates the cache -/

/-- C5: with caches that return what was stored in them and repositories that return
the entity of the requested ID: whenever the cache lookup misses, the repository read
succeeds and the call returns no error, each of `Identify`, `GetGroupIDByThingID` and
`GetGroupIDByProfileID` returns the repository's value, and on return the cache answers
the same key or ID with that value. -/
theorem lookaside_miss_populates_cache (ts : thingsService DB C I) (w : World DB C I)
    (hID : ∀ c k v c', ts.thingCache.Save c k v = (none, c') →
      ts.thingCache.ID c' k = (v, none))
    (hTG : ∀ c k v c', ts.thingCache.SaveGroup c k v = (none, c') →
      ts.thingCache.ViewGroup c' k = (v, none))
    (hPG : ∀ c k v c', ts.profileCache.SaveGroup c k v = (none, c') →
      ts.profileCache.ViewGroup c' k = (v, none))
    (hT : ∀ db id th, ts.things.RetrieveByID db id = (th, none) → th.ID = id)
    (hP : ∀ db id pr, ts.profiles.RetrieveByID db id = (pr, none) → pr.ID = id) :
    (∀ key id e, (ts.thingCache.ID w.cache key).2 = some e →
      ts.things.RetrieveByKey w.db key = (id, none) →
      (Identify ts key w).1.2 = none →
      (Identify ts key w).1.1 = id ∧
      ts.thingCache.ID (Identify ts key w).2.cache key = (id, none)) ∧
    (∀ thID th e, (ts.thingCache.ViewGroup w.cache thID).2 = some e →
      ts.things.RetrieveByID w.db thID = (th, none) →
      (GetGroupIDByThingID ts thID w).1.2 = none →
      (GetGroupIDByThingID ts thID w).1.1 = th.GroupID ∧
      ts.thingCache.ViewGroup (GetGroupIDByThingID ts thID w).2.cache thID
        = (th.GroupID, none)) ∧
    (∀ prID pr e, (ts.profileCache.ViewGroup w.cache prID).2 = some e →
      ts.profiles.RetrieveByID w.db prID = (pr, none) →
      (GetGroupIDByProfileID ts prID w).1.2 = none →
      (GetGroupIDByProfileID ts prID w).1.1 = pr.GroupID ∧
      ts.profileCache.ViewGroup (GetGroupIDByProfileID ts prID w).2.cache prID
        = (pr.GroupID, none)) := by
  refine ⟨?_, ?_, ?_⟩
  · intro key id e hmiss hrepo hok
    rcases hc : ts.thingCache.ID w.cache key with ⟨v, e'⟩
    rw [hc] at hmiss
    simp only [] at hmiss
    subst hmiss
    rcases hs : ts.thingCache.Save w.cache key id with ⟨_ | es, c'⟩
    · have hrun : Identify ts key w =
          ((id, none), { ((w.log (.thingCacheID key)).log (.thingsRetrieveByKey key)).log
            (.thingCacheSave key id) with cache := c' }) := by
        simp [Identify, hc, hrepo, hs]
      rw [hrun]
      exact ⟨rfl, hID _ _ _ _ hs⟩
    · have hrun : (Identify ts key w).1 = ("", some es) := by
        simp [Identify, hc, hrepo, hs]
      rw [hrun] at hok
      simp at hok
  · intro thID th e hmiss hrepo hok
    have hid := hT _ _ _ hrepo
    rcases hc : ts.thingCache.ViewGroup w.cache thID with ⟨v, e'⟩
    rw [hc] at hmiss
    simp only [] at hmiss
    subst hmiss
    rcases hs : ts.thingCache.SaveGroup w.cache th.ID th.GroupID with ⟨_ | es, c'⟩
    · have hrun : GetGroupIDByThingID ts thID w =
          ((th.GroupID, none),
            { ((w.log (.thingCacheViewGroup thID)).log (.thingsRetrieveByID thID)).log
              (.thingCacheSaveGroup th.ID th.GroupID) with cache := c' }) := by
        simp [GetGroupIDByThingID, getGroupIDByThingID, hc, hrepo, hs]
      rw [hrun]
      refine ⟨rfl, ?_⟩
      have := hTG _ _ _ _ hs
      rw [hid] at this
      exact this
    · have hrun : (GetGroupIDByThingID ts thID w).1 = ("", some es) := by
        simp [GetGroupIDByThingID, getGroupIDByThingID, hc, hrepo, hs]
      rw [hrun] at hok
      simp at hok
  · intro prID pr e hmiss hrepo hok
    have hid := hP _ _ _ hrepo
    rcases hc : ts.profileCache.ViewGroup w.cache prID with ⟨v, e'⟩
    rw [hc] at hmiss
    simp only [] at hmiss
    subst hmiss
    rcases hs : ts.profileCache.SaveGroup w.cache pr.ID pr.GroupID with ⟨_ | es, c'⟩
    · have hrun : GetGroupIDByProfileID ts prID w =
          ((pr.GroupID, none),
            { ((w.log (.profileCacheViewGroup prID)).log (.profilesRetrieveByID prID)).log
              (.profileCacheSaveGroup pr.ID pr.GroupID) with cache := c' }) := by
        simp [GetGroupIDByProfileID, getGroupIDByProfileID, hc, hrepo, hs]
      rw [hrun]
      refine ⟨rfl, ?_⟩
      have := hPG _ _ _ _ hs
      rw [hid] at this
      exact this
    · have hrun : (GetGroupIDByProfileID ts prID w).1 = ("", some es) := by
        simp [GetGroupIDByProfileID, getGroupIDByProfileID, hc, hrepo, hs]
      rw [hrun] at hok
      simp at hok

/-- Witness of C5: in `sampleWorld` (empty caches) the key `k1`, the thing `t1` and the
profile `p2` are resolved from the repositories and are cached on return. -/
theorem lookaside_miss_populates_cache_witness :
    ((Identify sampleService "k1" sampleWorld).1.1 = "t1" ∧
      sampleService.thingCache.ID (Identify sampleService "k1" sampleWorld).2.cache "k1"
        = ("t1", none)) ∧
    ((GetGroupIDByThingID sampleService "t1" sampleWorld).1.1 = "g1" ∧
      sampleService.thingCache.ViewGroup
        (GetGroupIDByThingID sampleService "t1" sampleWorld).2.cache "t1" = ("g1", none)) ∧
    ((GetGroupIDByProfileID sampleService "p2" sampleWorld).1.1 = "g2" ∧
      sampleService.profileCache.ViewGroup
        (GetGroupIDByProfileID sampleService "p2" sampleWorld).2.cache "p2"
          = ("g2", none)) :=
  have h := lookaside_miss_populates_cache sampleService sampleWorld
    (fun c k v c' hs => by
      simp only [sampleService, memService, memThingCache, Prod.mk.injEq, true_and] at hs ⊢
      subst hs
      exact cacheGet_cons_self _ _ _)
    (fun c k v c' hs => by
      simp only [sampleService, memService, memThingCache, Prod.mk.injEq, true_and] at hs ⊢
      subst hs
      exact cacheGet_cons_self _ _ _)
    (fun c k v c' hs => by
      simp only [sampleService, memService, memProfileCache, Prod.mk.injEq, true_and] at hs ⊢
      subst hs
      exact cacheGet_cons_self _ _ _)
    (fun _ _ _ h => memThings_RetrieveByID_id h)
    (fun _ _ _ h => memProfiles_RetrieveByID_id h)
  ⟨h.1 "k1" "t1" Error.ErrNotFound (by decide) (by decide) (by decide),
    h.2.1 "t1" thingT1 Error.ErrNotFound (by decide) (by decide) (by decide),
    h.2.2 "p2" profileP2 Error.ErrNotFound (by decide) (by decide) (by decide)⟩

/-! ## C6: after RemoveThings -/

/-- C6 (amended): take a persisted thing `T`, the only one with its key, in a world
whose thing cache maps that key, if at all, to `T.ID`.  After a successful
`RemoveThings(token, T.ID)` the cache lookups `ID(T.Key)` and `ViewGroup(T.ID)` miss,
`Identify(T.Key)` fails with NotFound, and `CanUserAccessThing` on `T.ID` fails with
NotFound for every token and action. -/
theorem removeThings_then_not_found (a : AuthServiceClient) (u : UsersServiceClient)
    (token : String) (T : Thing) (w w' : World MemDB MemCache (List String))
    (_hT : T ∈ w.db.things)
    (hkey : ∀ t ∈ w.db.things, t.Key = T.Key → t.ID = T.ID)
    (hcache : ∀ e ∈ w.cache.thingIDs, e.1 = T.Key → e.2 = T.ID)
    (hrem : RemoveThings (memService a u) token [T.ID] w = (none, w')) :
    (memThingCache.ID w'.cache T.Key).2 ≠ none ∧
    (memThingCache.ViewGroup w'.cache T.ID).2 ≠ none ∧
    (Identify (memService a u) T.Key w').1 = ("", some Error.ErrNotFound) ∧
    ∀ token' action,
      (CanUserAccessThing (memService a u) ⟨token', T.ID, action⟩ w').1
        = some Error.ErrNotFound := by
  have hf := CanUserAccessThing_frame (memService a u) ⟨token, T.ID, Editor⟩ w
  have hc := mem_CanUserAccessThing_cache a u ⟨token, T.ID, Editor⟩ w
  rcases ha : CanUserAccessThing (memService a u) ⟨token, T.ID, Editor⟩ w with ⟨_ | e, w1⟩
  · rw [ha] at hf hc
    simp only [] at hf hc
    simp only [RemoveThings, RemoveThings_loop, ha, memService_thingCache,
      memService_things, memThingCache, memThings,
      World.log_cache, World.log_db, Prod.mk.injEq, true_and] at hrem
    have hIDs : w'.cache.thingIDs.lookup T.Key = none := by
      rw [← hrem]
      show (List.filter (fun e => e.2 != T.ID) w1.cache.thingIDs).lookup T.Key = none
      rw [hc.1]
      exact lookup_filter_snd_ne _ _ _ hcache
    have hGrp : w'.cache.thingGroups.lookup T.ID = none := by
      rw [← hrem]
      exact lookup_filter_fst_ne_self _ _
    have hThing : w'.db.thing T.ID = none := by
      rw [← hrem]
      show (List.filter (fun t => !([T.ID] : List String).contains t.ID)
        w1.db.things).find? (fun t => t.ID == T.ID) = none
      rw [List.find?_eq_none]
      intro t ht
      simp only [List.mem_filter] at ht
      simpa using ht.2
    have hKey : w'.db.things.find? (fun t => t.Key == T.Key) = none := by
      rw [← hrem]
      show (List.filter (fun t => !([T.ID] : List String).contains t.ID)
        w1.db.things).find? (fun t => t.Key == T.Key) = none
      rw [List.find?_eq_none]
      intro t ht
      simp only [List.mem_filter] at ht
      intro hk
      have h1 : t.ID = T.ID := hkey t (hf.1 ▸ ht.1) (by simpa using hk)
      simp [h1] at ht
    refine ⟨?_, ?_, ?_, ?_⟩
    · simp [memThingCache, cacheGet, hIDs]
    · simp [memThingCache, cacheGet, hGrp]
    · rw [mem_Identify, hIDs]
      simp only [hKey]
    · intro token' action
      unfold CanUserAccessThing
      rw [mem_getGroupIDByThingID, hGrp]
      simp only [hThing]
  · simp [RemoveThings, RemoveThings_loop, ha] at hrem

/-- Witness of C6 (amended): in `sampleWorld` user "user" removes thing `t1`; then its
key `k1` is no longer identified and `t1` is NotFound for the admin as well. -/
theorem removeThings_then_not_found_witness :
    (RemoveThings sampleService "user" ["t1"] sampleWorld).1 = none ∧
    (Identify sampleService "k1"
      (RemoveThings sampleService "user" ["t1"] sampleWorld).2).1
        = ("", some Error.ErrNotFound) ∧
    (CanUserAccessThing sampleService ⟨"admin", "t1", Viewer⟩
      (RemoveThings sampleService "user" ["t1"] sampleWorld).2).1
        = some Error.ErrNotFound :=
  have h := removeThings_then_not_found sampleAuth sampleUsers "user" thingT1 sampleWorld
    (RemoveThings sampleService "user" ["t1"] sampleWorld).2
    (by decide) (by decide) (by decide) (Prod.ext (by decide) rfl)
  ⟨by decide, h.2.2.1, h.2.2.2 "admin" Viewer⟩

/-- C6 as stated fails: in `staleKeyWorld` the thing `t2` is persisted and is the only
thing with key `k`, but the cache still maps `k` to `t1`, whose key `k` was before its
key was updated.  After the successful removal of `t2` the lookup `ID(k)` hits and
`Identify(k)` succeeds with `t1`. -/
theorem removeThings_leaves_stale_key :
    staleKeyWorld.db.things = [⟨"t1", "g1", "p1", "thing-1", "k-new", none⟩,
      ⟨"t2", "g1", "p1", "thing-2", "k", none⟩] ∧
    staleKeyWorld.cache.thingIDs = [("k", "t1")] ∧
    (RemoveThings sampleService "admin" ["t2"] staleKeyWorld).1 = none ∧
    memThingCache.ID (RemoveThings sampleService "admin" ["t2"] staleKeyWorld).2.cache "k"
      = ("t1", none) ∧
    (Identify sampleService "k"
      (RemoveThings sampleService "admin" ["t2"] staleKeyWorld).2).1 = ("t1", none) := by
  refine ⟨by decide, by decide, by decide, by decide, by decide⟩

/-! ## C7: resolution with the caches disabled -/

/-- C7: with the caches disabled (every lookup misses, every cache write succeeds and
leaves the cache as it was), the four resolutions return what the repository returns:
the value of a successful read, and the repository's error (next to the empty value)
when the read fails. -/
theorem resolution_without_cache (ts : thingsService DB C I) (w : World DB C I)
    (hID : ∀ c k, (ts.thingCache.ID c k).2 ≠ none)
    (hSave : ∀ c k v, ts.thingCache.Save c k v = (none, c))
    (hTV : ∀ c k, (ts.thingCache.ViewGroup c k).2 ≠ none)
    (hTS : ∀ c k v, ts.thingCache.SaveGroup c k v = (none, c))
    (hPV : ∀ c k, (ts.profileCache.ViewGroup c k).2 ≠ none)
    (hPS : ∀ c k v, ts.profileCache.SaveGroup c k v = (none, c))
    (hG : ∀ c m, (ts.groupCache.RetrieveGroupIDsByMember c m).2 ≠ none) :
    (∀ K, (Identify ts K w).1 =
      match ts.things.RetrieveByKey w.db K with
      | (id, none) => (id, none)
      | (_, some err) => ("", some err)) ∧
    (∀ id, (GetGroupIDByThingID ts id w).1 =
      match ts.things.RetrieveByID w.db id with
      | (th, none) => (th.GroupID, none)
      | (_, some err) => ("", some err)) ∧
    (∀ id, (GetGroupIDByProfileID ts id w).1 =
      match ts.profiles.RetrieveByID w.db id with
      | (pr, none) => (pr.GroupID, none)
      | (_, some err) => ("", some err)) ∧
    (∀ member, (getGroupIDsByMemberID ts member w).1 =
      match ts.groupMemberships.RetrieveGroupIDsByMember w.db member with
      | (grIDs, none) => (grIDs, none)
      | (_, some err) => ([], some err)) ∧
    (∀ K id, (Identify ts K w).2.cache = w.cache ∧
      (GetGroupIDByThingID ts id w).2.cache = w.cache ∧
      (GetGroupIDByProfileID ts id w).2.cache = w.cache) := by
  refine ⟨?_, ?_, ?_, ?_, ?_⟩
  · intro K
    have hm := hID w.cache K
    rcases hc : ts.thingCache.ID w.cache K with ⟨v, _ | e⟩
    · simp [hc] at hm
    · rcases hr : ts.things.RetrieveByKey w.db K with ⟨id, _ | err⟩ <;>
        simp [Identify, hc, hr, hSave]
  · intro id
    have hm := hTV w.cache id
    rcases hc : ts.thingCache.ViewGroup w.cache id with ⟨v, _ | e⟩
    · simp [hc] at hm
    · rcases hr : ts.things.RetrieveByID w.db id with ⟨th, _ | err⟩ <;>
        simp [GetGroupIDByThingID, getGroupIDByThingID, hc, hr, hTS]
  · intro id
    have hm := hPV w.cache id
    rcases hc : ts.profileCache.ViewGroup w.cache id with ⟨v, _ | e⟩
    · simp [hc] at hm
    · rcases hr : ts.profiles.RetrieveByID w.db id with ⟨pr, _ | err⟩ <;>
        simp [GetGroupIDByProfileID, getGroupIDByProfileID, hc, hr, hPS]
  · intro member
    have hm := hG w.cache member
    rcases hc : ts.groupCache.RetrieveGroupIDsByMember w.cache member with ⟨v, _ | e⟩
    · simp [hc] at hm
    · rcases hr : ts.groupMemberships.RetrieveGroupIDsByMember w.db member
        with ⟨ids, _ | err⟩ <;> simp [getGroupIDsByMemberID, hc, hr]
  · intro K id
    refine ⟨?_, ?_, ?_⟩
    · have hm := hID w.cache K
      rcases hc : ts.thingCache.ID w.cache K with ⟨v, _ | e⟩
      · simp [hc] at hm
      · rcases hr : ts.things.RetrieveByKey w.db K with ⟨id, _ | err⟩ <;>
          simp [Identify, hc, hr, hSave]
    · have hm := hTV w.cache id
      rcases hc : ts.thingCache.ViewGroup w.cache id with ⟨v, _ | e⟩
      · simp [hc] at hm
      · rcases hr : ts.things.RetrieveByID w.db id with ⟨th, _ | err⟩ <;>
          simp [GetGroupIDByThingID, getGroupIDByThingID, hc, hr, hTS]
    · have hm := hPV w.cache id
      rcases hc : ts.profileCache.ViewGroup w.cache id with ⟨v, _ | e⟩
      · simp [hc] at hm
      · rcases hr : ts.profiles.RetrieveByID w.db id with ⟨pr, _ | err⟩ <;>
          simp [GetGroupIDByProfileID, getGroupIDByProfileID, hc, hr, hPS]

/-- Witness of C7: the sample service with its caches switched off resolves key `k1`
to `t1` and reports the repository's NotFound for the unknown profile `p9`. -/
theorem resolution_without_cache_witness :
    (Identify uncachedService "k1" sampleWorld).1 = ("t1", none) ∧
    (GetGroupIDByProfileID uncachedService "p9" sampleWorld).1
      = ("", some Error.ErrNotFound) :=
  have h := resolution_without_cache uncachedService sampleWorld
    (fun _ _ => by simp [uncachedService, disabledThingCache])
    (fun _ _ _ => rfl)
    (fun _ _ => by simp [uncachedService, disabledThingCache])
    (fun _ _ _ => rfl)
    (fun _ _ => by simp [uncachedService, disabledProfileCache])
    (fun _ _ _ => rfl)
    (fun _ _ => by simp [uncachedService, disabledGroupCache])
  ⟨(h.1 "k1").trans (by decide), (h.2.2.1 "p9").trans (by decide)⟩

/-! ## C8: NotFound precedes the admin bypass -/

/-- C8: when the group cache lookup for a thing (or profile) ID misses and the
repository answers NotFound for that ID, `CanUserAccessThing` (or
`CanUserAccessProfile`) returns that NotFound error for every token and action, and
makes no call on the external authorization service: the admin check is not reached. -/
theorem notFound_precedes_admin_bypass (ts : thingsService DB C I) (w : World DB C I)
    (req : UserAccessReq) :
    (∀ e th, (ts.thingCache.ViewGroup w.cache req.ID).2 = some e →
      ts.things.RetrieveByID w.db req.ID = (th, some Error.ErrNotFound) →
      (CanUserAccessThing ts req w).1 = some Error.ErrNotFound ∧
      ∀ c ∈ calls w (CanUserAccessThing ts req w).2, c.isAuthRPC = false) ∧
    (∀ e pr, (ts.profileCache.ViewGroup w.cache req.ID).2 = some e →
      ts.profiles.RetrieveByID w.db req.ID = (pr, some Error.ErrNotFound) →
      (CanUserAccessProfile ts req w).1 = some Error.ErrNotFound ∧
      ∀ c ∈ calls w (CanUserAccessProfile ts req w).2, c.isAuthRPC = false) := by
  constructor
  · intro e th hmiss hrepo
    rcases hc : ts.thingCache.ViewGroup w.cache req.ID with ⟨v, e'⟩
    rw [hc] at hmiss
    simp only [] at hmiss
    subst hmiss
    have hrun : CanUserAccessThing ts req w = (some Error.ErrNotFound,
        (w.log (.thingCacheViewGroup req.ID)).log (.thingsRetrieveByID req.ID)) := by
      simp [CanUserAccessThing, getGroupIDByThingID, hc, hrepo]
    rw [hrun]
    refine ⟨rfl, ?_⟩
    have hcalls : calls w ((w.log (.thingCacheViewGroup req.ID)).log
        (.thingsRetrieveByID req.ID))
        = [.thingCacheViewGroup req.ID, .thingsRetrieveByID req.ID] :=
      calls_of_trace (by simp)
    rw [hcalls]
    simp [Call.isAuthRPC]
  · intro e pr hmiss hrepo
    rcases hc : ts.profileCache.ViewGroup w.cache req.ID with ⟨v, e'⟩
    rw [hc] at hmiss
    simp only [] at hmiss
    subst hmiss
    have hrun : CanUserAccessProfile ts req w = (some Error.ErrNotFound,
        (w.log (.profileCacheViewGroup req.ID)).log (.profilesRetrieveByID req.ID)) := by
      simp [CanUserAccessProfile, getGroupIDByProfileID, hc, hrepo]
    rw [hrun]
    refine ⟨rfl, ?_⟩
    have hcalls : calls w ((w.log (.profileCacheViewGroup req.ID)).log
        (.profilesRetrieveByID req.ID))
        = [.profileCacheViewGroup req.ID, .profilesRetrieveByID req.ID] :=
      calls_of_trace (by simp)
    rw [hcalls]
    simp [Call.isAuthRPC]

/-- Witness of C8: the token "admin", which passes the root check of `sampleAuth`, gets
NotFound for the unknown thing `t9` and the unknown profile `p9`. -/
theorem notFound_precedes_admin_bypass_witness :
    sampleAuth.Authorize ⟨"admin", "", RootSub, ""⟩ = none ∧
    (CanUserAccessThing sampleService ⟨"admin", "t9", Viewer⟩ sampleWorld).1
      = some Error.ErrNotFound ∧
    (CanUserAccessProfile sampleService ⟨"admin", "p9", Viewer⟩ sampleWorld).1
      = some Error.ErrNotFound :=
  ⟨by decide,
    ((notFound_precedes_admin_bypass sampleService sampleWorld ⟨"admin", "t9", Viewer⟩).1
      Error.ErrNotFound Thing.zero (by decide) (by decide)).1,
    ((notFound_precedes_admin_bypass sampleService sampleWorld ⟨"admin", "p9", Viewer⟩).2
      Error.ErrNotFound Profile.zero (by decide) (by decide)).1⟩

/-! ## C9: a failed access check blocks the mutation -/

/-- C9: when the Editor access check on a target fails with an error, each of
`UpdateThing`, `UpdateKey`, `UpdateProfile`, `RemoveThings` and `RemoveProfiles` returns
that error, makes no repository write (no Update, UpdateKey or Remove) and leaves the
database as it was.  For the two removals the failing check is the one of any ID of the
list: the IDs before it have passed their checks and cache purges (`w1` is the world
after them). -/
theorem failed_access_check_blocks_mutation (ts : thingsService DB C I) (token : String)
    (w : World DB C I) :
    (∀ thing e, (CanUserAccessThing ts ⟨token, thing.ID, Editor⟩ w).1 = some e →
      (UpdateThing ts token thing w).1 = some e ∧
      (∀ c ∈ calls w (UpdateThing ts token thing w).2, c.isWrite = false) ∧
      (UpdateThing ts token thing w).2.db = w.db) ∧
    (∀ id key e, (CanUserAccessThing ts ⟨token, id, Editor⟩ w).1 = some e →
      (UpdateKey ts token id key w).1 = some e ∧
      (∀ c ∈ calls w (UpdateKey ts token id key w).2, c.isWrite = false) ∧
      (UpdateKey ts token id key w).2.db = w.db) ∧
    (∀ profile e, (CanUserAccessProfile ts ⟨token, profile.ID, Editor⟩ w).1 = some e →
      (UpdateProfile ts token profile w).1 = some e ∧
      (∀ c ∈ calls w (UpdateProfile ts token profile w).2, c.isWrite = false) ∧
      (UpdateProfile ts token profile w).2.db = w.db) ∧
    (∀ pre id post w1 e, RemoveThings_loop ts token pre w = (none, w1) →
      (CanUserAccessThing ts ⟨token, id, Editor⟩ w1).1 = some e →
      (RemoveThings ts token (pre ++ id :: post) w).1 = some e ∧
      (∀ c ∈ calls w (RemoveThings ts token (pre ++ id :: post) w).2, c.isWrite = false) ∧
      (RemoveThings ts token (pre ++ id :: post) w).2.db = w.db) ∧
    (∀ pre id post w1 e, RemoveProfiles_loop ts token pre w = (none, w1) →
      (CanUserAccessProfile ts ⟨token, id, Editor⟩ w1).1 = some e →
      (RemoveProfiles ts token (pre ++ id :: post) w).1 = some e ∧
      (∀ c ∈ calls w (RemoveProfiles ts token (pre ++ id :: post) w).2,
        c.isWrite = false) ∧
      (RemoveProfiles ts token (pre ++ id :: post) w).2.db = w.db) := by
  refine ⟨?_, ?_, ?_, ?_, ?_⟩
  · intro thing e hacc
    have h1 := CanUserAccessThing_frame ts ⟨token, thing.ID, Editor⟩ w
    rcases ha : CanUserAccessThing ts ⟨token, thing.ID, Editor⟩ w with ⟨e1, w1⟩
    rw [ha] at hacc h1
    simp only [] at hacc h1
    subst hacc
    have hrun : UpdateThing ts token thing w = (some e, w1) := by
      simp [UpdateThing, ha]
    rw [hrun]
    exact ⟨rfl, (h1.2.2.mono fun c hc => Call.isCheck_not_write hc).mem_calls, h1.1⟩
  · intro id key e hacc
    have h1 := CanUserAccessThing_frame ts ⟨token, id, Editor⟩ w
    rcases ha : CanUserAccessThing ts ⟨token, id, Editor⟩ w with ⟨e1, w1⟩
    rw [ha] at hacc h1
    simp only [] at hacc h1
    subst hacc
    have hrun : UpdateKey ts token id key w = (some e, w1) := by
      simp [UpdateKey, ha]
    rw [hrun]
    exact ⟨rfl, (h1.2.2.mono fun c hc => Call.isCheck_not_write hc).mem_calls, h1.1⟩
  · intro profile e hacc
    have h1 := CanUserAccessProfile_frame ts ⟨token, profile.ID, Editor⟩ w
    rcases ha : CanUserAccessProfile ts ⟨token, profile.ID, Editor⟩ w with ⟨e1, w1⟩
    rw [ha] at hacc h1
    simp only [] at hacc h1
    subst hacc
    have hrun : UpdateProfile ts token profile w = (some e, w1) := by
      simp [UpdateProfile, ha]
    rw [hrun]
    exact ⟨rfl, (h1.2.2.mono fun c hc => Call.isCheck_not_write hc).mem_calls, h1.1⟩
  · intro pre id post w1 e hpre hacc
    have h0 := RemoveThings_loop_frame ts token pre w
    rw [hpre] at h0
    have h1 := CanUserAccessThing_frame ts ⟨token, id, Editor⟩ w1
    rcases ha : CanUserAccessThing ts ⟨token, id, Editor⟩ w1 with ⟨e1, w2⟩
    rw [ha] at hacc h1
    simp only [] at hacc h0 h1
    subst hacc
    have hrun : RemoveThings ts token (pre ++ id :: post) w = (some e, w2) := by
      simp [RemoveThings, RemoveThings_loop_append, hpre, RemoveThings_loop, ha]
    rw [hrun]
    exact ⟨rfl, ((h0.2.2.trans h1.2.2).mono fun c hc => Call.isCheck_not_write hc).mem_calls,
      h1.1.trans h0.1⟩
  · intro pre id post w1 e hpre hacc
    have h0 := RemoveProfiles_loop_frame ts token pre w
    rw [hpre] at h0
    have h1 := CanUserAccessProfile_frame ts ⟨token, id, Editor⟩ w1
    rcases ha : CanUserAccessProfile ts ⟨token, id, Editor⟩ w1 with ⟨e1, w2⟩
    rw [ha] at hacc h1
    simp only [] at hacc h0 h1
    subst hacc
    have hrun : RemoveProfiles ts token (pre ++ id :: post) w = (some e, w2) := by
      simp [RemoveProfiles, RemoveProfiles_loop_append, hpre, RemoveProfiles_loop, ha]
    rw [hrun]
    exact ⟨rfl, ((h0.2.2.trans h1.2.2).mono fun c hc => Call.isCheck_not_write hc).mem_calls,
      h1.1.trans h0.1⟩

/-- Witness of C9: in `sampleWorld` user "user" is an editor of group `g1` only.  The
updates of thing `t2` and of profile `p2` (group `g2`) are refused; the removal of
`t1, t2` passes `t1` and is refused at `t2`, the removal of `p1, p2` is refused at `p2`;
no row changes. -/
theorem failed_access_check_blocks_mutation_witness :
    ((UpdateThing sampleService "user" thingT2 sampleWorld).1
        = some (Error.wrap Error.ErrAuthorization (Error.other "unauthorized")) ∧
      (UpdateThing sampleService "user" thingT2 sampleWorld).2.db = sampleWorld.db) ∧
    ((UpdateKey sampleService "user" "t2" "k3" sampleWorld).1
        = some (Error.wrap Error.ErrAuthorization (Error.other "unauthorized")) ∧
      (UpdateKey sampleService "user" "t2" "k3" sampleWorld).2.db = sampleWorld.db) ∧
    ((UpdateProfile sampleService "user" profileP2 sampleWorld).1
        = some (Error.wrap Error.ErrAuthorization (Error.other "unauthorized")) ∧
      (UpdateProfile sampleService "user" profileP2 sampleWorld).2.db = sampleWorld.db) ∧
    ((RemoveThings sampleService "user" (["t1"] ++ "t2" :: []) sampleWorld).1
        = some (Error.wrap Error.ErrAuthorization (Error.other "unauthorized")) ∧
      (RemoveThings sampleService "user" (["t1"] ++ "t2" :: []) sampleWorld).2.db
        = sampleWorld.db) ∧
    ((RemoveProfiles sampleService "user" (["p1"] ++ "p2" :: []) sampleWorld).1
        = some (Error.wrap Error.ErrAuthorization (Error.other "unauthorized")) ∧
      (RemoveProfiles sampleService "user" (["p1"] ++ "p2" :: []) sampleWorld).2.db
        = sampleWorld.db) :=
  have h := failed_access_check_blocks_mutation sampleService "user" sampleWorld
  have h1 := h.1 thingT2 (Error.wrap Error.ErrAuthorization (Error.other "unauthorized"))
    (by decide)
  have h2 := h.2.1 "t2" "k3" (Error.wrap Error.ErrAuthorization (Error.other "unauthorized"))
    (by decide)
  have h3 := h.2.2.1 profileP2
    (Error.wrap Error.ErrAuthorization (Error.other "unauthorized")) (by decide)
  have h4 := h.2.2.2.1 ["t1"] "t2" []
    (RemoveThings_loop sampleService "user" ["t1"] sampleWorld).2
    (Error.wrap Error.ErrAuthorization (Error.other "unauthorized"))
    (Prod.ext (by decide) rfl) (by decide)
  have h5 := h.2.2.2.2 ["p1"] "p2" []
    (RemoveProfiles_loop sampleService "user" ["p1"] sampleWorld).2
    (Error.wrap Error.ErrAuthorization (Error.other "unauthorized"))
    (Prod.ext (by decide) rfl) (by decide)
  ⟨⟨h1.1, h1.2.2⟩, ⟨h2.1, h2.2.2⟩, ⟨h3.1, h3.2.2⟩, ⟨h4.1, h4.2.2⟩, ⟨h5.1, h5.2.2⟩⟩

/-! ## C10: UpdateThingsMetadata merges shallowly -/

/-- C10: in an `UpdateThingsMetadata` call, take any thing of the list whose turn comes
(the things before it were updated: `w1`), whose Editor check passes (`w2`), and whose
stored row `th` has the metadata map `M`; let `N` be the incoming metadata (a map, so
its keys are distinct; nil counts as empty).  The merged map has, for each key of `N`,
the value of `N`, for each other key of `M` the value of `M`, and no other key; and the
call passes the stored row with exactly this metadata to `things.Update`, and goes on
with the rest of the list when that update succeeds. -/
theorem updateThingsMetadata_shallow_merge (ts : thingsService DB C I) (token : String)
    (pre post : List Thing) (thing th : Thing) (M : Entries) (w w1 w2 : World DB C I)
    (hpre : UpdateThingsMetadata ts token pre w = (.returned none, w1))
    (hacc : CanUserAccessThing ts ⟨token, thing.ID, Editor⟩ w1 = (none, w2))
    (hret : ts.things.RetrieveByID w2.db thing.ID = (th, none))
    (hM : th.Metadata = some M)
    (hN : ((thing.Metadata.getD []).map Prod.fst).Nodup) :
    (∀ k, (mergeEntries M (thing.Metadata.getD [])).lookup k =
      match (thing.Metadata.getD []).lookup k with
      | some v => some v
      | none => M.lookup k) ∧
    UpdateThingsMetadata ts token (pre ++ thing :: post) w =
      (match ts.things.Update w2.db
          { th with Metadata := some (mergeEntries M (thing.Metadata.getD [])) } with
        | (some err, db) =>
          (.returned (some err),
            { (w2.log (.thingsRetrieveByID thing.ID)).log (.thingsUpdate
                { th with Metadata := some (mergeEntries M (thing.Metadata.getD [])) })
              with db := db })
        | (none, db) =>
          UpdateThingsMetadata ts token post
            { (w2.log (.thingsRetrieveByID thing.ID)).log (.thingsUpdate
                { th with Metadata := some (mergeEntries M (thing.Metadata.getD [])) })
              with db := db }) ∧
    Call.thingsUpdate { th with Metadata := some (mergeEntries M (thing.Metadata.getD [])) }
      ∈ calls w (UpdateThingsMetadata ts token (pre ++ thing :: post) w).2 := by
  have hmerge : mergeMetadata th.Metadata thing.Metadata
      = some (some (mergeEntries M (thing.Metadata.getD []))) := by
    rw [hM]
    rcases hmd : thing.Metadata with _ | N
    · simp [mergeMetadata, mergeEntries]
    · cases N with
      | nil => simp [mergeMetadata, mergeEntries]
      | cons e es => simp [mergeMetadata]
  have hrun : UpdateThingsMetadata ts token (pre ++ thing :: post) w =
      (match ts.things.Update w2.db
          { th with Metadata := some (mergeEntries M (thing.Metadata.getD [])) } with
        | (some err, db) =>
          (.returned (some err),
            { (w2.log (.thingsRetrieveByID thing.ID)).log (.thingsUpdate
                { th with Metadata := some (mergeEntries M (thing.Metadata.getD [])) })
              with db := db })
        | (none, db) =>
          UpdateThingsMetadata ts token post
            { (w2.log (.thingsRetrieveByID thing.ID)).log (.thingsUpdate
                { th with Metadata := some (mergeEntries M (thing.Metadata.getD [])) })
              with db := db }) := by
    rw [UpdateThingsMetadata_append, hpre]
    simp only [UpdateThingsMetadata, hacc, World.log_db, hret, hmerge]
  refine ⟨fun k => lookup_mergeEntries M _ hN k, hrun, ?_⟩
  have hpre' := UpdateThingsMetadata_extends ts token pre w
  rw [hpre] at hpre'
  have hacc' := CanUserAccessThing_frame ts ⟨token, thing.ID, Editor⟩ w1
  rw [hacc] at hacc'
  have h12 : Extends (fun _ => True) w w2 :=
    hpre'.trans (hacc'.2.2.mono fun _ _ => trivial)
  obtain ⟨evs, htr, -⟩ := h12
  have hmem : ∀ w' : World DB C I,
      Extends (fun _ => True)
        ((w2.log (.thingsRetrieveByID thing.ID)).log (.thingsUpdate
          { th with Metadata := some (mergeEntries M (thing.Metadata.getD [])) })) w' →
      Call.thingsUpdate
        { th with Metadata := some (mergeEntries M (thing.Metadata.getD [])) }
        ∈ calls w w' := by
    intro w' hw'
    obtain ⟨evs', htr', -⟩ := hw'
    have : calls w w' = evs ++ ([Call.thingsRetrieveByID thing.ID] ++
        [Call.thingsUpdate
          { th with Metadata := some (mergeEntries M (thing.Metadata.getD [])) }] ++ evs') := by
      apply calls_of_trace
      rw [htr']
      simp [htr]
    rw [this]
    simp
  rw [hrun]
  rcases ts.things.Update w2.db
      { th with Metadata := some (mergeEntries M (thing.Metadata.getD [])) }
      with ⟨_ | err, db⟩
  · simp only []
    apply hmem
    have := UpdateThingsMetadata_extends ts token post
      ({ (w2.log (.thingsRetrieveByID thing.ID)).log (.thingsUpdate
          { th with Metadata := some (mergeEntries M (thing.Metadata.getD [])) })
        with db := db } : World DB C I)
    obtain ⟨e3, ht3, -⟩ := this
    exact ⟨e3, ht3, fun _ _ => trivial⟩
  · simp only []
    apply hmem
    exact ⟨[], by simp, by simp⟩

/-- Witness of C10: in `sampleWorld` thing `t1` has the metadata `a = 1`; user "user"
sends `b = 2, a = 3`; the row is written back with `a = 3, b = 2`. -/
theorem updateThingsMetadata_shallow_merge_witness :
    (UpdateThingsMetadata sampleService "user"
      ([] ++ { thingT1 with Metadata := some [("b", .number 2), ("a", .number 3)] } :: [])
      sampleWorld).2.db.things
      = [{ thingT1 with Metadata := some [("a", .number 3), ("b", .number 2)] }, thingT2] ∧
    Call.thingsUpdate
      { thingT1 with Metadata := some [("a", .number 3), ("b", .number 2)] }
      ∈ calls sampleWorld (UpdateThingsMetadata sampleService "user"
        ([] ++ { thingT1 with Metadata := some [("b", .number 2), ("a", .number 3)] } :: [])
        sampleWorld).2 :=
  have h := updateThingsMetadata_shallow_merge sampleService "user" [] []
    { thingT1 with Metadata := some [("b", .number 2), ("a", .number 3)] } thingT1
    [("a", .number 1)] sampleWorld sampleWorld
    (CanUserAccessThing sampleService ⟨"user", "t1", Editor⟩ sampleWorld).2
    rfl (Prod.ext (by decide) rfl) (by decide) rfl (by decide)
  ⟨by decide, h.2.2⟩

/-! ## C11: a repeated metadata update -/

/-- C11. `UpdateThingsMetadata` is idempotent on the persisted metadata.  Over a things
repository in which `RetrieveByID` returns the row of the requested ID and a successful
`Update` is read back with the metadata it wrote: when two calls in succession with the
same thing (ID and partial metadata `N`, a map: no key twice) both return nil, the
metadata persisted after the second call is the metadata persisted after the first, and
the second call wrote a row with exactly the metadata it had read. -/
theorem updateThingsMetadata_idempotent (ts : thingsService DB C I) (token : String)
    (thing : Thing) (w w1 w2 : World DB C I)
    (hRead : ∀ db id th, ts.things.RetrieveByID db id = (th, none) → th.ID = id)
    (hWrite : ∀ db th db', ts.things.Update db th = (none, db') →
      ∃ th', ts.things.RetrieveByID db' th.ID = (th', none) ∧ th'.Metadata = th.Metadata)
    (hN : ((thing.Metadata.getD []).map Prod.fst).Nodup)
    (h1 : UpdateThingsMetadata ts token [thing] w = (.returned none, w1))
    (h2 : UpdateThingsMetadata ts token [thing] w1 = (.returned none, w2)) :
    (ts.things.RetrieveByID w2.db thing.ID).2 = none ∧
    (ts.things.RetrieveByID w2.db thing.ID).1.Metadata =
      (ts.things.RetrieveByID w1.db thing.ID).1.Metadata ∧
    Call.thingsUpdate (ts.things.RetrieveByID w1.db thing.ID).1 ∈ calls w1 w2 := by
  obtain ⟨th, md, hr, hm, hu, _⟩ := UpdateThingsMetadata_single_ok ts token thing w w1 h1
  obtain ⟨th1, md2, hr1, hm2, hu2, hc2⟩ := UpdateThingsMetadata_single_ok ts token thing w1 w2 h2
  have hid : th.ID = thing.ID := hRead _ _ _ hr
  have hid1 : th1.ID = thing.ID := hRead _ _ _ hr1
  obtain ⟨ta, hra, hma⟩ := hWrite _ _ _ hu
  obtain ⟨tb, hrb, hmb⟩ := hWrite _ _ _ hu2
  simp only [hid] at hra
  simp only [hid1] at hrb
  rw [hr1] at hra
  simp only [Prod.mk.injEq, and_true] at hra
  subst hra
  simp only [] at hma hmb
  have hmd : md2 = md := by
    have := mergeMetadata_idem th.Metadata thing.Metadata md hN hm
    rw [← hma, hm2] at this
    exact (Option.some.inj this).trans hma
  subst hmd
  refine ⟨by rw [hrb], by rw [hrb, hr1, hmb, hma], ?_⟩
  rw [hr1]
  have hsame : ({ th1 with Metadata := md2 } : Thing) = th1 := by
    cases th1
    simp only [] at hma
    simp [hma]
  rw [hsame] at hc2
  exact hc2

/-- Witness of C11: in `sampleWorld` thing `t1` has the metadata `a = 1`; user "user"
sends `b = 2, a = 3` twice; after the first call and after the second the row holds
`a = 3, b = 2`. -/
theorem updateThingsMetadata_idempotent_witness :
    (memThings.RetrieveByID
      (UpdateThingsMetadata sampleService "user"
        [{ thingT1 with Metadata := some [("b", .number 2), ("a", .number 3)] }]
        (UpdateThingsMetadata sampleService "user"
          [{ thingT1 with Metadata := some [("b", .number 2), ("a", .number 3)] }]
          sampleWorld).2).2.db "t1").1.Metadata
      = some [("a", .number 3), ("b", .number 2)] ∧
    (memThings.RetrieveByID
      (UpdateThingsMetadata sampleService "user"
        [{ thingT1 with Metadata := some [("b", .number 2), ("a", .number 3)] }]
        sampleWorld).2.db "t1").1.Metadata
      = some [("a", .number 3), ("b", .number 2)] :=
  have h := updateThingsMetadata_idempotent sampleService "user"
    { thingT1 with Metadata := some [("b", .number 2), ("a", .number 3)] }
    sampleWorld
    (UpdateThingsMetadata sampleService "user"
      [{ thingT1 with Metadata := some [("b", .number 2), ("a", .number 3)] }] sampleWorld).2
    (UpdateThingsMetadata sampleService "user"
      [{ thingT1 with Metadata := some [("b", .number 2), ("a", .number 3)] }]
      (UpdateThingsMetadata sampleService "user"
        [{ thingT1 with Metadata := some [("b", .number 2), ("a", .number 3)] }]
        sampleWorld).2).2
    (fun _ _ _ h => memThings_RetrieveByID_id h)
    (fun db th db' h => memThings_Update_read db db' th h)
    (by decide) (Prod.ext (by decide) rfl) (Prod.ext (by decide) rfl)
  ⟨h.2.1.trans (by decide), by decide⟩

/-! ## C12: IDs and keys of created entities -/

/-- C12. `createThing` and `createProfile` (run by `CreateThings` and `CreateProfiles`
for each entity that passed the checks) make exactly these collaborator calls.  A thing
with non-blank ID and Key is passed to `Save` as it is, with no call on the ID
provider; a blank ID, a blank Key, or both are replaced by the values the provider
returns, one call for each, before the `Save`; when the provider fails, the call
returns that error and the zero thing, and has made no `Save`.  The same holds for the
ID of a profile. -/
theorem create_fills_blank_id_and_key (ts : thingsService DB C I) (w : World DB C I) :
    (∀ thing : Thing, thing.ID ≠ "" → thing.Key ≠ "" →
      calls w (createThing ts thing w).2 = [.thingsSave [thing]]) ∧
    (∀ (thing : Thing) id i, thing.ID = "" → thing.Key ≠ "" →
      ts.idProvider.ID w.idp = ((id, none), i) →
      calls w (createThing ts thing w).2
        = [.idProviderID, .thingsSave [{ thing with ID := id }]]) ∧
    (∀ (thing : Thing) key i, thing.ID ≠ "" → thing.Key = "" →
      ts.idProvider.ID w.idp = ((key, none), i) →
      calls w (createThing ts thing w).2
        = [.idProviderID, .thingsSave [{ thing with Key := key }]]) ∧
    (∀ (thing : Thing) id i key j, thing.ID = "" → thing.Key = "" →
      ts.idProvider.ID w.idp = ((id, none), i) → ts.idProvider.ID i = ((key, none), j) →
      calls w (createThing ts thing w).2
        = [.idProviderID, .idProviderID, .thingsSave [{ thing with ID := id, Key := key }]]) ∧
    (∀ (thing : Thing) x err i, thing.ID = "" →
      ts.idProvider.ID w.idp = ((x, some err), i) →
      createThing ts thing w
        = ((Thing.zero, some err), { w.log .idProviderID with idp := i })) ∧
    (∀ (thing : Thing) x err i, thing.ID ≠ "" → thing.Key = "" →
      ts.idProvider.ID w.idp = ((x, some err), i) →
      createThing ts thing w
        = ((Thing.zero, some err), { w.log .idProviderID with idp := i })) ∧
    (∀ (thing : Thing) id i x err j, thing.ID = "" → thing.Key = "" →
      ts.idProvider.ID w.idp = ((id, none), i) → ts.idProvider.ID i = ((x, some err), j) →
      createThing ts thing w
        = ((Thing.zero, some err),
            { (w.log .idProviderID).log .idProviderID with idp := j })) ∧
    (∀ profile : Profile, profile.ID ≠ "" →
      calls w (createProfile ts profile w).2 = [.profilesSave [profile]]) ∧
    (∀ (profile : Profile) prID i, profile.ID = "" →
      ts.idProvider.ID w.idp = ((prID, none), i) →
      calls w (createProfile ts profile w).2
        = [.idProviderID, .profilesSave [{ profile with ID := prID }]]) ∧
    (∀ (profile : Profile) x err i, profile.ID = "" →
      ts.idProvider.ID w.idp = ((x, some err), i) →
      createProfile ts profile w
        = ((Profile.zero, some err), { w.log .idProviderID with idp := i })) := by
  refine ⟨?_, ?_, ?_, ?_, ?_, ?_, ?_, ?_, ?_, ?_⟩
  · intro thing h1 h2
    apply calls_of_trace
    simp only [createThing, h1, h2, if_false]
    split <;> simp [World.log]
  · intro thing id i h1 h2 hp
    apply calls_of_trace
    simp only [createThing, h1, h2, if_true, if_false, World.log_idp, hp]
    split <;> simp [World.log]
  · intro thing key i h1 h2 hp
    apply calls_of_trace
    simp only [createThing, h1, h2, if_true, if_false, World.log_idp, hp]
    split <;> simp [World.log]
  · intro thing id i key j h1 h2 hp hq
    apply calls_of_trace
    simp only [createThing, h1, h2, if_true, if_false, World.log_idp, hp, hq]
    split <;> simp [World.log]
  · intro thing x err i h1 hp
    simp only [createThing, h1, if_true, World.log_idp, hp]
  · intro thing x err i h1 h2 hp
    simp only [createThing, h1, h2, if_true, if_false, World.log_idp, hp]
  · intro thing id i x err j h1 h2 hp hq
    simp only [createThing, h1, h2, if_true, World.log_idp, hp, hq]
    simp [World.log]
  · intro profile h1
    apply calls_of_trace
    simp only [createProfile, h1, if_false]
    split <;> simp [World.log]
  · intro profile prID i h1 hp
    apply calls_of_trace
    simp only [createProfile, h1, if_true, World.log_idp, hp]
    split <;> simp [World.log]
  · intro profile x err i h1 hp
    simp only [createProfile, h1, if_true, World.log_idp, hp]

/-- Witness of C12: a thing without ID and key is created in `sampleWorld`, whose
provider hands out "id-1" and then "id-2"; it is saved with ID "id-1" and key "id-2"
after two calls on the provider. -/
theorem create_fills_blank_id_and_key_witness :
    calls sampleWorld
      (createThing sampleService ⟨"", "g1", "p1", "thing-3", "", none⟩ sampleWorld).2
      = [.idProviderID, .idProviderID,
          .thingsSave [⟨"id-1", "g1", "p1", "thing-3", "id-2", none⟩]] :=
  (create_fills_blank_id_and_key sampleService sampleWorld).2.2.2.1
    ⟨"", "g1", "p1", "thing-3", "", none⟩ "id-1" ["id-2", "id-3"] "id-2" ["id-3"]
    rfl rfl rfl rfl

/-! ## C13: an empty result of `Save` is a CreateEntity failure -/

/-- C13. A `CreateThings` call with one thing `t` that passes the checks (the Editor
check on `t.GroupID`, and the profile of `t` resolved to that group) and makes the call
`things.Save [thing']`: when the `Save` returns no error and an empty list, the call
fails with the CreateEntity error; when it returns no error and a list with first
element `th`, the call reports `th`.  Likewise for a `CreateProfiles` call with one
profile that passes the Editor check on its group. -/
theorem create_reports_first_saved (ts : thingsService DB C I) (token : String)
    (w : World DB C I) :
    (∀ t thing' : Thing,
      (CanUserAccessGroup ts ⟨token, t.GroupID, Editor⟩ w).1 = none →
      (getGroupIDByProfileID ts t.ProfileID
        (CanUserAccessGroup ts ⟨token, t.GroupID, Editor⟩ w).2).1 = (t.GroupID, none) →
      Call.thingsSave [thing'] ∈ calls w (CreateThings ts token [t] w).2 →
      (∀ db, ts.things.Save w.db [thing'] = (([], none), db) →
        (CreateThings ts token [t] w).1 = ([], some Error.ErrCreateEntity)) ∧
      (∀ th rest db, ts.things.Save w.db [thing'] = ((th :: rest, none), db) →
        (CreateThings ts token [t] w).1 = ([th], none))) ∧
    (∀ p profile' : Profile,
      (CanUserAccessGroup ts ⟨token, p.GroupID, Editor⟩ w).1 = none →
      Call.profilesSave [profile'] ∈ calls w (CreateProfiles ts token [p] w).2 →
      (∀ db, ts.profiles.Save w.db [profile'] = (([], none), db) →
        (CreateProfiles ts token [p] w).1 = ([], some Error.ErrCreateEntity)) ∧
      (∀ pr rest db, ts.profiles.Save w.db [profile'] = ((pr :: rest, none), db) →
        (CreateProfiles ts token [p] w).1 = ([pr], none))) := by
  constructor
  · intro t thing' hacc hres hmem
    have h1 := CanUserAccessGroup_frame ts ⟨token, t.GroupID, Editor⟩ w
    rcases ha : CanUserAccessGroup ts ⟨token, t.GroupID, Editor⟩ w with ⟨e1, w1⟩
    rw [ha] at hacc hres h1
    simp only [] at hacc hres h1
    subst hacc
    have h2 := getGroupIDByProfileID_frame ts t.ProfileID w1
    rcases hg : getGroupIDByProfileID ts t.ProfileID w1 with ⟨r, w2⟩
    rw [hg] at hres h2
    simp only [] at hres h2
    subst hres
    have hdb : w2.db = w.db := by rw [h2.1, h1.1]
    have hrun : CreateThings ts token [t] w =
        match createThing ts t w2 with
        | ((_, some err), w) => (([], some err), w)
        | ((th, none), w) => (([th], none), w) := by
      rcases hc : createThing ts t w2 with ⟨⟨th, _ | e⟩, w3⟩ <;>
        simp [CreateThings, CreateThings_loop, ha, hg, hc]
    have hpre : Extends (fun c => c.isCheck = true) w w2 :=
      (h1.2.2.2.mono fun c hc => Call.isAuthRPC_check hc).trans
        (h2.2.2.mono fun c hc => Call.isResolution_check hc)
    have hw : (CreateThings ts token [t] w).2 = (createThing ts t w2).2 := by
      rw [hrun]
      split <;> simp_all
    rw [hw, calls_append hpre (createThing_extends ts t w2)] at hmem
    have hmem' : Call.thingsSave [thing'] ∈ calls w2 (createThing ts t w2).2 := by
      rcases List.mem_append.mp hmem with h | h
      · have := hpre.mem_calls _ h
        simp [Call.isCheck, Call.isResolution, Call.isAuthRPC] at this
      · exact h
    have hs := createThing_saved ts t thing' w2 hmem'
    rw [hdb] at hs
    constructor
    · intro db hsave
      rw [hsave] at hs
      rw [hrun]
      rcases hc : createThing ts t w2 with ⟨⟨th, e⟩, w3⟩
      rw [hc] at hs
      simp only [Prod.mk.injEq] at hs
      obtain ⟨_, rfl⟩ := hs
      rfl
    · intro th rest db hsave
      rw [hsave] at hs
      rw [hrun]
      rcases hc : createThing ts t w2 with ⟨⟨th', e⟩, w3⟩
      rw [hc] at hs
      simp only [Prod.mk.injEq] at hs
      obtain ⟨rfl, rfl⟩ := hs
      rfl
  · intro p profile' hacc hmem
    have h1 := CanUserAccessGroup_frame ts ⟨token, p.GroupID, Editor⟩ w
    rcases ha : CanUserAccessGroup ts ⟨token, p.GroupID, Editor⟩ w with ⟨e1, w1⟩
    rw [ha] at hacc h1
    simp only [] at hacc h1
    subst hacc
    have hrun : CreateProfiles ts token [p] w =
        match createProfile ts p w1 with
        | ((_, some err), w) => (([], some err), w)
        | ((pr, none), w) => (([pr], none), w) := by
      rcases hc : createProfile ts p w1 with ⟨⟨pr, _ | e⟩, w3⟩ <;>
        simp [CreateProfiles, CreateProfiles_loop, ha, hc]
    have hw : (CreateProfiles ts token [p] w).2 = (createProfile ts p w1).2 := by
      rw [hrun]
      split <;> simp_all
    rw [hw, calls_append h1.2.2.2 (createProfile_extends ts p w1)] at hmem
    have hmem' : Call.profilesSave [profile'] ∈ calls w1 (createProfile ts p w1).2 := by
      rcases List.mem_append.mp hmem with h | h
      · have := h1.2.2.2.mem_calls _ h
        simp [Call.isAuthRPC] at this
      · exact h
    have hs := createProfile_saved ts p profile' w1 hmem'
    rw [h1.1] at hs
    constructor
    · intro db hsave
      rw [hsave] at hs
      rw [hrun]
      rcases hc : createProfile ts p w1 with ⟨⟨pr, e⟩, w3⟩
      rw [hc] at hs
      simp only [Prod.mk.injEq] at hs
      obtain ⟨_, rfl⟩ := hs
      rfl
    · intro pr rest db hsave
      rw [hsave] at hs
      rw [hrun]
      rcases hc : createProfile ts p w1 with ⟨⟨pr', e⟩, w3⟩
      rw [hc] at hs
      simp only [Prod.mk.injEq] at hs
      obtain ⟨rfl, rfl⟩ := hs
      rfl

/-- Witness of C13: user "user" creates the thing `t3` in group `g1` with profile `p1`.
Over `silentThings`, whose `Save` returns an empty list, the call fails with the
CreateEntity error; over the sample repository, whose `Save` returns the saved thing,
the call reports it. -/
theorem create_reports_first_saved_witness :
    (CreateThings silentService "user" [⟨"t3", "g1", "p1", "thing-3", "k3", none⟩]
      sampleWorld).1 = ([], some Error.ErrCreateEntity) ∧
    (CreateThings sampleService "user" [⟨"t3", "g1", "p1", "thing-3", "k3", none⟩]
      sampleWorld).1 = ([⟨"t3", "g1", "p1", "thing-3", "k3", none⟩], none) :=
  ⟨((create_reports_first_saved silentService "user" sampleWorld).1
      ⟨"t3", "g1", "p1", "thing-3", "k3", none⟩ ⟨"t3", "g1", "p1", "thing-3", "k3", none⟩
      (by decide) (by decide) (by decide)).1 sampleWorld.db rfl,
   ((create_reports_first_saved sampleService "user" sampleWorld).1
      ⟨"t3", "g1", "p1", "thing-3", "k3", none⟩ ⟨"t3", "g1", "p1", "thing-3", "k3", none⟩
      (by decide) (by decide) (by decide)).2 ⟨"t3", "g1", "p1", "thing-3", "k3", none⟩ []
      { sampleWorld.db with
        things := sampleWorld.db.things ++ [⟨"t3", "g1", "p1", "thing-3", "k3", none⟩] }
      (by decide)⟩

/-! ## C14: Backup and Restore require admin -/

/-- C14. For a token whose `Authorize` call on the root subject fails with `e`: `Backup`
returns the empty backup and `Restore` returns an error, in both cases `e` wrapped in the
Authorization error; the only collaborator call of either is that `Authorize` call, so
no repository is read or written, and the database is the one of the start. -/
theorem backup_restore_require_admin (ts : thingsService DB C I) (token : String)
    (backup : Backup) (w : World DB C I) (e : Error)
    (h : ts.auth.Authorize { Token := token, Object := "", Subject := RootSub, Action := "" }
      = some e) :
    (ts.Backup token w).1 = (Backup.zero, some (Error.wrap Error.ErrAuthorization e)) ∧
    (Restore ts token backup w).1 = some (Error.wrap Error.ErrAuthorization e) ∧
    calls w (ts.Backup token w).2
      = [.authAuthorize { Token := token, Object := "", Subject := RootSub, Action := "" }] ∧
    calls w (Restore ts token backup w).2
      = [.authAuthorize { Token := token, Object := "", Subject := RootSub, Action := "" }] ∧
    (∀ c ∈ calls w (ts.Backup token w).2, c.isRepo = false) ∧
    (∀ c ∈ calls w (Restore ts token backup w).2, c.isRepo = false) ∧
    (ts.Backup token w).2.db = w.db ∧ (Restore ts token backup w).2.db = w.db := by
  have hb : ts.Backup token w = ((Backup.zero, some (Error.wrap Error.ErrAuthorization e)),
      w.log (.authAuthorize
        { Token := token, Object := "", Subject := RootSub, Action := "" })) := by
    simp only [thingsService.Backup, isAdmin, h]
  have hr : Restore ts token backup w = (some (Error.wrap Error.ErrAuthorization e),
      w.log (.authAuthorize
        { Token := token, Object := "", Subject := RootSub, Action := "" })) := by
    simp only [Restore, isAdmin, h]
  rw [hb, hr]
  simp [calls, World.log, Call.isRepo]

/-- Witness of C14: token "user" is not an admin of `sampleAuth`; its `Backup` and its
`Restore` of a backup with one thing fail and leave `sampleWorld` as it was. -/
theorem backup_restore_require_admin_witness :
    (sampleService.Backup "user" sampleWorld).1
      = (Backup.zero, some (Error.wrap Error.ErrAuthorization (Error.other "unauthorized"))) ∧
    (Restore sampleService "user" ⟨[⟨"t9", "g1", "p1", "thing-9", "k9", none⟩], [], [], []⟩
      sampleWorld).1
      = some (Error.wrap Error.ErrAuthorization (Error.other "unauthorized")) ∧
    (Restore sampleService "user" ⟨[⟨"t9", "g1", "p1", "thing-9", "k9", none⟩], [], [], []⟩
      sampleWorld).2.db = sampleWorld.db :=
  have h := backup_restore_require_admin sampleService "user"
    ⟨[⟨"t9", "g1", "p1", "thing-9", "k9", none⟩], [], [], []⟩ sampleWorld
    (Error.other "unauthorized") (by decide)
  ⟨h.1, h.2.1, h.2.2.2.2.2.2.2⟩

/-! ## C15: Backup returns the full sets -/

/-- C15. For an admin token: when the four `BackupAll` reads succeed, `Backup` returns
no error and a backup whose groups, memberships, things and profiles are the lists that
`groups.BackupAll`, `groupMemberships.BackupAll`, `things.BackupAll` and
`profiles.BackupAll` returned; when one of the reads fails (they are made in this
order), `Backup` returns the empty backup and the error of that read.  In every case the
database is left as it was. -/
theorem backup_returns_full_sets (ts : thingsService DB C I) (token : String)
    (w : World DB C I)
    (hadm : ts.auth.Authorize
      { Token := token, Object := "", Subject := RootSub, Action := "" } = none) :
    (∀ groups groupMemberships things profiles,
      ts.groups.BackupAll w.db = (groups, none) →
      ts.groupMemberships.BackupAll w.db = (groupMemberships, none) →
      ts.things.BackupAll w.db = (things, none) →
      ts.profiles.BackupAll w.db = (profiles, none) →
      (ts.Backup token w).1 =
        ({ Things := things, Profiles := profiles, Groups := groups,
           GroupMemberships := groupMemberships }, none)) ∧
    (∀ x err, ts.groups.BackupAll w.db = (x, some err) →
      (ts.Backup token w).1 = (Backup.zero, some err)) ∧
    (∀ groups x err, ts.groups.BackupAll w.db = (groups, none) →
      ts.groupMemberships.BackupAll w.db = (x, some err) →
      (ts.Backup token w).1 = (Backup.zero, some err)) ∧
    (∀ groups groupMemberships x err, ts.groups.BackupAll w.db = (groups, none) →
      ts.groupMemberships.BackupAll w.db = (groupMemberships, none) →
      ts.things.BackupAll w.db = (x, some err) →
      (ts.Backup token w).1 = (Backup.zero, some err)) ∧
    (∀ groups groupMemberships things x err, ts.groups.BackupAll w.db = (groups, none) →
      ts.groupMemberships.BackupAll w.db = (groupMemberships, none) →
      ts.things.BackupAll w.db = (things, none) →
      ts.profiles.BackupAll w.db = (x, some err) →
      (ts.Backup token w).1 = (Backup.zero, some err)) ∧
    (ts.Backup token w).2.db = w.db := by
  refine ⟨?_, ?_, ?_, ?_, ?_, ?_⟩
  · intro groups groupMemberships things profiles h1 h2 h3 h4
    simp only [thingsService.Backup, isAdmin, hadm, World.log_db, h1, h2, h3, h4]
  · intro x err h1
    simp only [thingsService.Backup, isAdmin, hadm, World.log_db, h1]
  · intro groups x err h1 h2
    simp only [thingsService.Backup, isAdmin, hadm, World.log_db, h1, h2]
  · intro groups groupMemberships x err h1 h2 h3
    simp only [thingsService.Backup, isAdmin, hadm, World.log_db, h1, h2, h3]
  · intro groups groupMemberships things x err h1 h2 h3 h4
    simp only [thingsService.Backup, isAdmin, hadm, World.log_db, h1, h2, h3, h4]
  · simp only [thingsService.Backup, isAdmin, hadm, World.log_db]
    rcases ts.groups.BackupAll w.db with ⟨g, _ | e⟩ <;>
    rcases ts.groupMemberships.BackupAll w.db with ⟨m, _ | e⟩ <;>
    rcases ts.things.BackupAll w.db with ⟨t, _ | e⟩ <;>
    rcases ts.profiles.BackupAll w.db with ⟨p, _ | e⟩ <;> rfl

/-- Witness of C15: the backup of `sampleWorld` taken by "admin" holds its two things
and its two profiles. -/
theorem backup_returns_full_sets_witness :
    (sampleService.Backup "admin" sampleWorld).1
      = ({ Things := [thingT1, thingT2], Profiles := [profileP1, profileP2], Groups := [],
           GroupMemberships := [] }, none) :=
  (backup_returns_full_sets sampleService "admin" sampleWorld (by decide)).1
    [] [] [thingT1, thingT2] [profileP1, profileP2] rfl rfl rfl rfl

/-! ## C16: which backup resolves the member emails -/

/-- Counterexample to C16: in `tenantWorld` user "user" is a member of `g1`, and the
users service answers the lookup of "user" with the email "user@example.com"; the
`Backup` of "admin" succeeds, makes the root check and the four `BackupAll` reads and no
call on the users service, and its membership carries the empty email of the
repository row, not the email of the lookup. -/
theorem backup_makes_no_users_lookup :
    (tenantService.Backup "admin" tenantWorld).1.2 = none ∧
    (tenantService.Backup "admin" tenantWorld).1.1.GroupMemberships
      = [⟨"user", "g1", "", "viewer"⟩] ∧
    tenantService.users.GetUsersByIDs ["user"] = ([⟨"user", "user@example.com"⟩], none) ∧
    ¬ (∀ gm ∈ (tenantService.Backup "admin" tenantWorld).1.1.GroupMemberships,
        ∀ u ∈ (tenantService.users.GetUsersByIDs [gm.MemberID]).1,
          u.Id = gm.MemberID → gm.Email = u.Email) ∧
    calls tenantWorld (tenantService.Backup "admin" tenantWorld).2
      = [.authAuthorize { Token := "admin", Object := "", Subject := RootSub, Action := "" },
          .groupsBackupAll, .groupMembershipsBackupAll, .thingsBackupAll,
          .profilesBackupAll] := by
  decide

/-- C16, amended. `Backup` makes no call on the users service and returns the
memberships as `groupMemberships.BackupAll` returned them.  It is
`BackupGroupMemberships` that resolves emails: when the Owner check on the group
passes, `BackupByGroup` returns `gms` and `GetUsersByIDs`, called with the member IDs of
`gms`, returns `users`, the result is `gms` in which each membership carries the email
of the last user of `users` that has its member ID, or the empty email when there is
none. -/
theorem group_backup_resolves_emails (ts : thingsService DB C I) (token groupID : String)
    (w : World DB C I) :
    (∀ ids, Call.usersGetUsersByIDs ids ∉ calls w (ts.Backup token w).2) ∧
    (∀ b, (ts.Backup token w).1 = (b, none) →
      b.GroupMemberships = (ts.groupMemberships.BackupAll w.db).1) ∧
    (∀ gms users,
      (CanUserAccessGroup ts ⟨token, groupID, Owner⟩ w).1 = none →
      ts.groupMemberships.BackupByGroup w.db groupID = (gms, none) →
      ts.users.GetUsersByIDs (gms.map (fun gm => gm.MemberID)) = (users, none) →
      (ts.BackupGroupMemberships token groupID w).1 =
        (⟨gms.map (fun gm => { gm with
            Email := ((users.reverse.find? (fun u => u.Id == gm.MemberID)).map
              User.Email).getD "" })⟩, none) ∧
      Call.usersGetUsersByIDs (gms.map (fun gm => gm.MemberID))
        ∈ calls w (ts.BackupGroupMemberships token groupID w).2) := by
  refine ⟨?_, ?_, ?_⟩
  · intro ids hmem
    have := (Backup_reads_only ts token w).mem_calls _ hmem
    simp [Call.isAuthRPC] at this
  · intro b hb
    rcases hz : ts.auth.Authorize
      { Token := token, Object := "", Subject := RootSub, Action := "" } with _ | e
    · rcases h1 : ts.groups.BackupAll w.db with ⟨g, _ | e⟩ <;>
      rcases h2 : ts.groupMemberships.BackupAll w.db with ⟨m, _ | e⟩ <;>
      rcases h3 : ts.things.BackupAll w.db with ⟨t, _ | e⟩ <;>
      rcases h4 : ts.profiles.BackupAll w.db with ⟨p, _ | e⟩ <;>
      simp only [thingsService.Backup, isAdmin, hz, World.log_db, h1, h2, h3, h4,
        Prod.mk.injEq, reduceCtorEq, and_false, and_true] at hb
      subst hb
      rfl
    · simp [thingsService.Backup, isAdmin, hz] at hb
  · intro gms users hacc hread husers
    have h1 := CanUserAccessGroup_frame ts ⟨token, groupID, Owner⟩ w
    rcases ha : CanUserAccessGroup ts ⟨token, groupID, Owner⟩ w with ⟨e1, w1⟩
    rw [ha] at hacc h1
    simp only [] at hacc h1
    subst hacc
    obtain ⟨evs, ht, _⟩ := h1.2.2.2
    simp only [thingsService.BackupGroupMemberships, ha, World.log_db, h1.1, hread, husers,
      lookup_emailMap]
    refine ⟨trivial, ?_⟩
    simp [calls, World.log, ht]

/-- Witness of C16, amended: in `tenantWorld` the group backup of `g1` taken by "admin"
returns the membership of "user" with the email "user@example.com" of the users
service. -/
theorem group_backup_resolves_emails_witness :
    (tenantService.BackupGroupMemberships "admin" "g1" tenantWorld).1
      = (⟨[⟨"user", "g1", "user@example.com", "viewer"⟩]⟩, none) :=
  ((group_backup_resolves_emails tenantService "admin" "g1" tenantWorld).2.2
    [⟨"user", "g1", "", "viewer"⟩] [⟨"user", "user@example.com"⟩]
    (by decide) (by decide) (by decide)).1

/-! ## C17: the order of the writes of Restore -/

/-- C17. For an admin token, `Restore` is the run of the writes `restoreWrites backup`
(one `groups.Save` per group in backup order, then `things.Save` with all things, then
`profiles.Save` with all profiles, then one `groupMemberships.Save` per membership in
backup order), each made on the database left by the one before and the run stopping at
the first failure: after the root check the calls of `Restore` are a prefix of that
list; `Restore` returns nil if and only if every write of the list succeeds; and then
its calls are the whole list, in order, and the database is the result of all of
them. -/
theorem restore_writes_in_order (ts : thingsService DB C I) (token : String)
    (backup : Backup) (w : World DB C I)
    (hadm : ts.auth.Authorize
      { Token := token, Object := "", Subject := RootSub, Action := "" } = none) :
    Restore ts token backup w = runWrites ts (restoreWrites backup)
      (w.log (.authAuthorize
        { Token := token, Object := "", Subject := RootSub, Action := "" })) ∧
    (∃ made, calls w (Restore ts token backup w).2
        = .authAuthorize { Token := token, Object := "", Subject := RootSub, Action := "" }
          :: made ∧ made <+: restoreWrites backup) ∧
    ((Restore ts token backup w).1 = none ↔ allSucceed ts (restoreWrites backup) w.db) ∧
    ((Restore ts token backup w).1 = none →
      calls w (Restore ts token backup w).2
        = .authAuthorize { Token := token, Object := "", Subject := RootSub, Action := "" }
          :: restoreWrites backup ∧
      (Restore ts token backup w).2.db = applyWrites ts (restoreWrites backup) w.db) := by
  have heq := Restore_eq_runWrites ts token backup w hadm
  obtain ⟨h1, ⟨evs, h2⟩, h3, h4⟩ := runWrites_spec ts (restoreWrites backup)
    (w.log (.authAuthorize
      { Token := token, Object := "", Subject := RootSub, Action := "" }))
  rw [← heq] at h1 h2 h3 h4
  have hc : calls w (Restore ts token backup w).2
      = .authAuthorize { Token := token, Object := "", Subject := RootSub, Action := "" }
        :: evs := by
    apply calls_of_trace
    rw [h2]
    simp [World.log]
  rw [calls_of_trace h2] at h1 h4
  refine ⟨heq, ⟨evs, hc, h1⟩, h3, ?_⟩
  intro hn
  rw [hc, (h4 hn).1]
  exact ⟨rfl, (h4 hn).2⟩

/-- Witness of C17: "admin" restores a backup with the group `g1`, the thing `t1`, the
profile `p1` and a membership of "user" into the empty tenant; the four writes are made
in order and the restore returns nil. -/
theorem restore_writes_in_order_witness :
    (Restore sampleService "admin"
      ⟨[thingT1], [profileP1], [groupG1], [⟨"user", "g1", "user@example.com", "viewer"⟩]⟩
      (emptyWorld [])).1 = none ∧
    calls (emptyWorld []) (Restore sampleService "admin"
      ⟨[thingT1], [profileP1], [groupG1], [⟨"user", "g1", "user@example.com", "viewer"⟩]⟩
      (emptyWorld [])).2
      = [.authAuthorize { Token := "admin", Object := "", Subject := RootSub, Action := "" },
          .groupsSave groupG1, .thingsSave [thingT1], .profilesSave [profileP1],
          .groupMembershipsSave ⟨"user", "g1", "", "viewer"⟩] :=
  have h := restore_writes_in_order sampleService "admin"
    ⟨[thingT1], [profileP1], [groupG1], [⟨"user", "g1", "user@example.com", "viewer"⟩]⟩
    (emptyWorld []) (by decide)
  ⟨h.2.2.1.mpr (by decide), (h.2.2.2 (by decide)).1⟩

/-! ## C18: Restore is not atomic -/

/-- C18. For an admin token: when the writes `pre` of `restoreWrites backup` succeed one
after the other and the next one, `c`, fails with `err`, `Restore` returns `err`; its
calls after the root check are `pre` and then `c`, so no write after `c` is attempted;
and the database it leaves is the one left by `c` on the result of the writes `pre`,
none of which is undone. -/
theorem restore_stops_at_first_failure (ts : thingsService DB C I) (token : String)
    (backup : Backup) (w : World DB C I) (pre post : List Call) (c : Call) (err : Error)
    (hadm : ts.auth.Authorize
      { Token := token, Object := "", Subject := RootSub, Action := "" } = none)
    (hsplit : restoreWrites backup = pre ++ c :: post)
    (hpre : allSucceed ts pre w.db)
    (hc : (c.apply ts (applyWrites ts pre w.db)).1 = some err) :
    (Restore ts token backup w).1 = some err ∧
    calls w (Restore ts token backup w).2
      = .authAuthorize { Token := token, Object := "", Subject := RootSub, Action := "" }
        :: (pre ++ [c]) ∧
    (Restore ts token backup w).2.db = (c.apply ts (applyWrites ts pre w.db)).2 := by
  rw [Restore_eq_runWrites ts token backup w hadm, hsplit]
  obtain ⟨h1, h2, h3⟩ := runWrites_fail ts pre post c err
    (w.log (.authAuthorize
      { Token := token, Object := "", Subject := RootSub, Action := "" })) hpre hc
  obtain ⟨_, ⟨evs, ht⟩, _, _⟩ := runWrites_spec ts (pre ++ c :: post)
    (w.log (.authAuthorize
      { Token := token, Object := "", Subject := RootSub, Action := "" }))
  rw [calls_of_trace ht] at h2
  subst h2
  refine ⟨h1, ?_, h3⟩
  apply calls_of_trace
  rw [ht]
  simp [World.log]

/-- Witness of C18: "admin" restores into the empty tenant a backup with the group `g1`,
the thing `t1` twice, and the profile `p1`.  The `things.Save` fails with the Conflict
error; the group stays saved, and the profile is never written. -/
theorem restore_stops_at_first_failure_witness :
    (Restore sampleService "admin" ⟨[thingT1, thingT1], [profileP1], [groupG1], []⟩
      (emptyWorld [])).1 = some Error.ErrConflict ∧
    calls (emptyWorld []) (Restore sampleService "admin"
      ⟨[thingT1, thingT1], [profileP1], [groupG1], []⟩ (emptyWorld [])).2
      = [.authAuthorize { Token := "admin", Object := "", Subject := RootSub, Action := "" },
          .groupsSave groupG1, .thingsSave [thingT1, thingT1]] ∧
    (Restore sampleService "admin" ⟨[thingT1, thingT1], [profileP1], [groupG1], []⟩
      (emptyWorld [])).2.db = ⟨[], [], [groupG1], []⟩ :=
  have h := restore_stops_at_first_failure sampleService "admin"
    ⟨[thingT1, thingT1], [profileP1], [groupG1], []⟩ (emptyWorld [])
    [.groupsSave groupG1] [.profilesSave [profileP1]] (.thingsSave [thingT1, thingT1])
    Error.ErrConflict (by decide) rfl (by decide) (by decide)
  ⟨h.1, h.2.1, h.2.2.trans (by decide)⟩

/-! ## C19: backup, restore into an empty tenant, backup -/

/-- C19. Over the in-memory repositories, for an admin token and a tenant `S` whose rows
are well formed: the backup `B` of `S` holds the rows of `S`; `Restore` of `B` into the
empty tenant returns nil; and the backup of the restored tenant is `B` again, the same
things, profiles, groups and memberships in the same order, every field and so every ID
equal. -/
theorem backup_restore_round_trip (a : AuthServiceClient) (u : UsersServiceClient)
    (token : String) (S : World MemDB MemCache (List String)) (supply : List String)
    (hadm : a.Authorize { Token := token, Object := "", Subject := RootSub, Action := "" }
      = none)
    (hwf : S.db.WellFormed) :
    ((memService a u).Backup token S).1
      = (⟨S.db.things, S.db.profiles, S.db.groups, S.db.memberships⟩, none) ∧
    (Restore (memService a u) token ((memService a u).Backup token S).1.1
      (emptyWorld supply)).1 = none ∧
    ((memService a u).Backup token
      (Restore (memService a u) token ((memService a u).Backup token S).1.1
        (emptyWorld supply)).2).1
      = (((memService a u).Backup token S).1.1, none) := by
  have hB := mem_Backup a u token S hadm
  obtain ⟨hr1, hr2⟩ := mem_Restore_fresh a u token
    ⟨S.db.things, S.db.profiles, S.db.groups, S.db.memberships⟩ (emptyWorld supply) hadm rfl
    hwf.things_ids hwf.things_keys hwf.profiles_ids hwf.groups_ids hwf.memberships_pairs
  rw [hB]
  refine ⟨rfl, hr1, ?_⟩
  rw [mem_Backup a u token _ hadm, hr2]
  simp only [map_restoredMembership_of_no_email S.db.memberships hwf.memberships_email]

/-- Witness of C19: the backup of `tenantWorld` taken by "admin", restored into the
empty tenant, is backed up again as it was. -/
theorem backup_restore_round_trip_witness :
    (Restore tenantService "admin" (tenantService.Backup "admin" tenantWorld).1.1
      (emptyWorld [])).1 = none ∧
    (tenantService.Backup "admin"
      (Restore tenantService "admin" (tenantService.Backup "admin" tenantWorld).1.1
        (emptyWorld [])).2).1
      = (⟨[thingT1, thingT2], [profileP1, profileP2], [groupG1, groupG2],
          [⟨"user", "g1", "", "viewer"⟩]⟩, none) :=
  have h := backup_restore_round_trip orgAuth directoryUsers "admin" tenantWorld []
    (by decide)
    ⟨by decide, by decide, by decide, by decide, by decide, by decide⟩
  ⟨h.2.1, h.2.2.trans (by decide)⟩

/-! ## C20: the org listings of a non-admin -/

/-- C20. For a token that fails the root check.  When the Viewer check on the org fails
with `e`, `ListThingsByOrg` and `ListProfilesByOrg` return the empty page and `e`
wrapped in the Authorization error, and call no repository.  When it passes, the token
is identified as `user` and `groups.RetrieveIDsByOrgMembership` returns `grIDs` for the
org and `user`, the result of each listing is the result of `RetrieveByGroups` over
`grIDs`, and its repository calls are these two: the group IDs of the whole org
(`RetrieveIDsByOrg`) are never read. -/
theorem listByOrg_scoped_to_memberships (ts : thingsService DB C I) (token orgID : String)
    (pm : PageMetadata) (w : World DB C I) (e0 : Error)
    (hnon : ts.auth.Authorize
      { Token := token, Object := "", Subject := RootSub, Action := "" } = some e0) :
    (∀ e, ts.auth.Authorize
        { Token := token, Object := orgID, Subject := OrgSub, Action := Viewer } = some e →
      (ListThingsByOrg ts token orgID pm w).1
        = (ThingsPage.zero, some (Error.wrap Error.ErrAuthorization e)) ∧
      (ListProfilesByOrg ts token orgID pm w).1
        = (ProfilesPage.zero, some (Error.wrap Error.ErrAuthorization e)) ∧
      (∀ c ∈ calls w (ListThingsByOrg ts token orgID pm w).2, c.isRepo = false) ∧
      (∀ c ∈ calls w (ListProfilesByOrg ts token orgID pm w).2, c.isRepo = false)) ∧
    (∀ user grIDs, ts.auth.Authorize
        { Token := token, Object := orgID, Subject := OrgSub, Action := Viewer } = none →
      ts.auth.Identify token = (user, none) →
      ts.groups.RetrieveIDsByOrgMembership w.db orgID user = (grIDs, none) →
      (ListThingsByOrg ts token orgID pm w).1 = ts.things.RetrieveByGroups w.db grIDs pm ∧
      (ListProfilesByOrg ts token orgID pm w).1
        = ts.profiles.RetrieveByGroups w.db grIDs pm ∧
      (calls w (ListThingsByOrg ts token orgID pm w).2).filter Call.isRepo
        = [.groupsRetrieveIDsByOrgMembership orgID user, .thingsRetrieveByGroups grIDs pm] ∧
      (calls w (ListProfilesByOrg ts token orgID pm w).2).filter Call.isRepo
        = [.groupsRetrieveIDsByOrgMembership orgID user,
            .profilesRetrieveByGroups grIDs pm]) := by
  constructor
  · intro e he
    simp [ListThingsByOrg, ListProfilesByOrg, isAdmin, canAccessOrg, hnon, he, calls,
      World.log, Call.isRepo]
  · intro user grIDs he hid hgr
    simp [ListThingsByOrg, ListProfilesByOrg, isAdmin, canAccessOrg, hnon, he, hid, hgr,
      calls, World.log, Call.isRepo]

/-- Witness of C20: in `tenantWorld` the org `o1` holds the groups `g1` (with thing `t1`
and profile `p1`) and `g2` (with `t2` and `p2`); "user" is no admin, passes the Viewer
check on `o1` and is a member of `g1` only: the listings return `t1` and `p1` and
nothing of `g2`. -/
theorem listByOrg_scoped_to_memberships_witness :
    (ListThingsByOrg tenantService "user" "o1" ⟨0, 10, "", "", ""⟩ tenantWorld).1
      = (⟨1, [thingT1]⟩, none) ∧
    (ListProfilesByOrg tenantService "user" "o1" ⟨0, 10, "", "", ""⟩ tenantWorld).1
      = (⟨1, [profileP1]⟩, none) :=
  have h := (listByOrg_scoped_to_memberships tenantService "user" "o1" ⟨0, 10, "", "", ""⟩
    tenantWorld (Error.other "unauthorized") (by decide)).2 "user" ["g1"]
    (by decide) (by decide) (by decide)
  ⟨h.1.trans (by decide), h.2.1.trans (by decide)⟩

/-! ## C21: the listings of an admin and of a member -/

/-- C21. `ListThings` and `ListProfiles`.  For a token that passes the root check the
result is the repository's `RetrieveAll` page.  For a token that fails it: when
`Identify` fails with `err`, the result is the empty page and `err` wrapped in the
Authentication error, and no repository is called; when `Identify` gives the member `m`,
the result is `RetrieveByGroups` over the group IDs of `m`, which are the answer of the
group cache on a hit (the memberships repository is then not read) and the answer of
`groupMemberships.RetrieveGroupIDsByMember` on a miss. -/
theorem list_scoped_to_member_groups (ts : thingsService DB C I) (token : String)
    (pm : PageMetadata) (w : World DB C I) :
    (ts.auth.Authorize { Token := token, Object := "", Subject := RootSub, Action := "" }
        = none →
      (ListThings ts token pm w).1 = ts.things.RetrieveAll w.db pm ∧
      (ListProfiles ts token pm w).1 = ts.profiles.RetrieveAll w.db pm) ∧
    (∀ e0 x err,
      ts.auth.Authorize { Token := token, Object := "", Subject := RootSub, Action := "" }
        = some e0 →
      ts.auth.Identify token = (x, some err) →
      (ListThings ts token pm w).1
        = (ThingsPage.zero, some (Error.wrap Error.ErrAuthentication err)) ∧
      (ListProfiles ts token pm w).1
        = (ProfilesPage.zero, some (Error.wrap Error.ErrAuthentication err)) ∧
      (∀ c ∈ calls w (ListThings ts token pm w).2, c.isRepo = false) ∧
      (∀ c ∈ calls w (ListProfiles ts token pm w).2, c.isRepo = false)) ∧
    (∀ e0 m grIDs,
      ts.auth.Authorize { Token := token, Object := "", Subject := RootSub, Action := "" }
        = some e0 →
      ts.auth.Identify token = (m, none) →
      ts.groupCache.RetrieveGroupIDsByMember w.cache m = (grIDs, none) →
      (ListThings ts token pm w).1 = ts.things.RetrieveByGroups w.db grIDs pm ∧
      (ListProfiles ts token pm w).1 = ts.profiles.RetrieveByGroups w.db grIDs pm ∧
      (calls w (ListThings ts token pm w).2).filter Call.isRepo
        = [.thingsRetrieveByGroups grIDs pm] ∧
      (calls w (ListProfiles ts token pm w).2).filter Call.isRepo
        = [.profilesRetrieveByGroups grIDs pm]) ∧
    (∀ e0 m x ce grIDs,
      ts.auth.Authorize { Token := token, Object := "", Subject := RootSub, Action := "" }
        = some e0 →
      ts.auth.Identify token = (m, none) →
      ts.groupCache.RetrieveGroupIDsByMember w.cache m = (x, some ce) →
      ts.groupMemberships.RetrieveGroupIDsByMember w.db m = (grIDs, none) →
      (ListThings ts token pm w).1 = ts.things.RetrieveByGroups w.db grIDs pm ∧
      (ListProfiles ts token pm w).1 = ts.profiles.RetrieveByGroups w.db grIDs pm ∧
      (calls w (ListThings ts token pm w).2).filter Call.isRepo
        = [.groupMembershipsRetrieveGroupIDsByMember m,
            .thingsRetrieveByGroups grIDs pm] ∧
      (calls w (ListProfiles ts token pm w).2).filter Call.isRepo
        = [.groupMembershipsRetrieveGroupIDsByMember m,
            .profilesRetrieveByGroups grIDs pm]) := by
  refine ⟨?_, ?_, ?_, ?_⟩
  · intro hadm
    simp [ListThings, ListProfiles, isAdmin, hadm]
  · intro e0 x err hnon hid
    simp [ListThings, ListProfiles, isAdmin, hnon, hid, calls, World.log, Call.isRepo]
  · intro e0 m grIDs hnon hid hc
    simp [ListThings, ListProfiles, isAdmin, getGroupIDsByMemberID, hnon, hid, hc, calls,
      World.log, Call.isRepo]
  · intro e0 m x ce grIDs hnon hid hc hr
    simp [ListThings, ListProfiles, isAdmin, getGroupIDsByMemberID, hnon, hid, hc, hr, calls,
      World.log, Call.isRepo]

/-- Witness of C21: in `tenantWorld` the group cache is empty and "user", no admin, is a
member of `g1` only; the listings read the memberships and return `t1` and `p1`. -/
theorem list_scoped_to_member_groups_witness :
    (ListThings tenantService "user" ⟨0, 10, "", "", ""⟩ tenantWorld).1
      = (⟨1, [thingT1]⟩, none) ∧
    (ListProfiles tenantService "user" ⟨0, 10, "", "", ""⟩ tenantWorld).1
      = (⟨1, [profileP1]⟩, none) :=
  have h := (list_scoped_to_member_groups tenantService "user" ⟨0, 10, "", "", ""⟩
    tenantWorld).2.2.2 (Error.other "unauthorized") "user" [] Error.ErrNotFound ["g1"]
    (by decide) (by decide) (by decide) (by decide)
  ⟨h.1.trans (by decide), h.2.1.trans (by decide)⟩

/-! ## C22: the backups of an org -/

/-- Counterexample to C22: the `BackupGroupsByOrg` of "admin" for the org `o1` of
`tenantWorld` succeeds with the two groups of the org; after the Owner check its only
call is `groups.BackupByOrg`, and the group IDs of the org are not resolved: there is no
`groups.RetrieveIDsByOrg` call. -/
theorem backupGroupsByOrg_resolves_no_group_ids :
    (tenantService.BackupGroupsByOrg "admin" "o1" tenantWorld).1
      = (⟨[groupG1, groupG2]⟩, none) ∧
    calls tenantWorld (tenantService.BackupGroupsByOrg "admin" "o1" tenantWorld).2
      = [.authAuthorize ⟨"admin", "o1", OrgSub, Owner⟩, .groupsBackupByOrg "o1"] ∧
    Call.groupsRetrieveIDsByOrg "o1"
      ∉ calls tenantWorld (tenantService.BackupGroupsByOrg "admin" "o1" tenantWorld).2 := by
  decide

/-- C22, amended.  When the Owner check on the org fails with `e`, each of
`BackupGroupsByOrg`, `BackupThingsByOrg` and `BackupProfilesByOrg` returns the empty
backup and `e` wrapped in the Authorization error, and calls no repository.  When it
passes: `BackupThingsByOrg` and `BackupProfilesByOrg` first read the group IDs of the
org with `groups.RetrieveIDsByOrg`, return its error if it fails, and otherwise return
what `BackupByGroups` returns for those group IDs; `BackupGroupsByOrg` returns what
`groups.BackupByOrg` returns for the org, that read being its only repository call. -/
theorem org_backups_scoped (ts : thingsService DB C I) (token orgID : String)
    (w : World DB C I) :
    (∀ e, ts.auth.Authorize
        { Token := token, Object := orgID, Subject := OrgSub, Action := Owner } = some e →
      (ts.BackupGroupsByOrg token orgID w).1
        = (⟨[]⟩, some (Error.wrap Error.ErrAuthorization e)) ∧
      (BackupThingsByOrg ts token orgID w).1
        = (⟨[]⟩, some (Error.wrap Error.ErrAuthorization e)) ∧
      (BackupProfilesByOrg ts token orgID w).1
        = (⟨[]⟩, some (Error.wrap Error.ErrAuthorization e)) ∧
      (∀ c ∈ calls w (ts.BackupGroupsByOrg token orgID w).2, c.isRepo = false) ∧
      (∀ c ∈ calls w (BackupThingsByOrg ts token orgID w).2, c.isRepo = false) ∧
      (∀ c ∈ calls w (BackupProfilesByOrg ts token orgID w).2, c.isRepo = false)) ∧
    (ts.auth.Authorize
        { Token := token, Object := orgID, Subject := OrgSub, Action := Owner } = none →
      (∀ x err, ts.groups.RetrieveIDsByOrg w.db orgID = (x, some err) →
        (BackupThingsByOrg ts token orgID w).1 = (⟨[]⟩, some err) ∧
        (BackupProfilesByOrg ts token orgID w).1 = (⟨[]⟩, some err)) ∧
      (∀ grIDs, ts.groups.RetrieveIDsByOrg w.db orgID = (grIDs, none) →
        (∀ things, ts.things.BackupByGroups w.db grIDs = (things, none) →
          (BackupThingsByOrg ts token orgID w).1 = (⟨things⟩, none)) ∧
        (∀ x err, ts.things.BackupByGroups w.db grIDs = (x, some err) →
          (BackupThingsByOrg ts token orgID w).1 = (⟨[]⟩, some err)) ∧
        (∀ profiles, ts.profiles.BackupByGroups w.db grIDs = (profiles, none) →
          (BackupProfilesByOrg ts token orgID w).1 = (⟨profiles⟩, none)) ∧
        (∀ x err, ts.profiles.BackupByGroups w.db grIDs = (x, some err) →
          (BackupProfilesByOrg ts token orgID w).1 = (⟨[]⟩, some err)) ∧
        (calls w (BackupThingsByOrg ts token orgID w).2).filter Call.isRepo
          = [.groupsRetrieveIDsByOrg orgID, .thingsBackupByGroups grIDs] ∧
        (calls w (BackupProfilesByOrg ts token orgID w).2).filter Call.isRepo
          = [.groupsRetrieveIDsByOrg orgID, .profilesBackupByGroups grIDs]) ∧
      (∀ groups, ts.groups.BackupByOrg w.db orgID = (groups, none) →
        (ts.BackupGroupsByOrg token orgID w).1 = (⟨groups⟩, none)) ∧
      (∀ x err, ts.groups.BackupByOrg w.db orgID = (x, some err) →
        (ts.BackupGroupsByOrg token orgID w).1 = (⟨[]⟩, some err)) ∧
      (calls w (ts.BackupGroupsByOrg token orgID w).2).filter Call.isRepo
        = [.groupsBackupByOrg orgID]) := by
  constructor
  · intro e he
    simp [thingsService.BackupGroupsByOrg, BackupThingsByOrg, BackupProfilesByOrg,
      canAccessOrg, he, calls, World.log, Call.isRepo]
  · intro hok
    refine ⟨?_, ?_, ?_, ?_, ?_⟩
    · intro x err hr
      simp [BackupThingsByOrg, BackupProfilesByOrg, canAccessOrg, hok, hr]
    · intro grIDs hr
      refine ⟨?_, ?_, ?_, ?_, ?_, ?_⟩
      · intro things hb
        simp [BackupThingsByOrg, canAccessOrg, hok, hr, hb]
      · intro x err hb
        simp [BackupThingsByOrg, canAccessOrg, hok, hr, hb]
      · intro profiles hb
        simp [BackupProfilesByOrg, canAccessOrg, hok, hr, hb]
      · intro x err hb
        simp [BackupProfilesByOrg, canAccessOrg, hok, hr, hb]
      · simp only [BackupThingsByOrg, canAccessOrg, hok, hr, World.log_db]
        rcases ts.things.BackupByGroups w.db grIDs with ⟨t, _ | e⟩ <;>
          simp [calls, World.log, Call.isRepo]
      · simp only [BackupProfilesByOrg, canAccessOrg, hok, hr, World.log_db]
        rcases ts.profiles.BackupByGroups w.db grIDs with ⟨t, _ | e⟩ <;>
          simp [calls, World.log, Call.isRepo]
    · intro groups hb
      simp [thingsService.BackupGroupsByOrg, canAccessOrg, hok, hb]
    · intro x err hb
      simp [thingsService.BackupGroupsByOrg, canAccessOrg, hok, hb]
    · simp only [thingsService.BackupGroupsByOrg, canAccessOrg, hok, World.log_db]
      rcases ts.groups.BackupByOrg w.db orgID with ⟨t, _ | e⟩ <;>
        simp [calls, World.log, Call.isRepo]

/-- Witness of C22, amended: "admin" backs up the org `o1` of `tenantWorld`, whose
groups are `g1` and `g2`: the things backup holds `t1` and `t2`, the profiles backup
`p1` and `p2`, the groups backup `g1` and `g2`. -/
theorem org_backups_scoped_witness :
    (BackupThingsByOrg tenantService "admin" "o1" tenantWorld).1
      = (⟨[thingT1, thingT2]⟩, none) ∧
    (BackupProfilesByOrg tenantService "admin" "o1" tenantWorld).1
      = (⟨[profileP1, profileP2]⟩, none) ∧
    (tenantService.BackupGroupsByOrg "admin" "o1" tenantWorld).1
      = (⟨[groupG1, groupG2]⟩, none) :=
  have h := (org_backups_scoped tenantService "admin" "o1" tenantWorld).2 (by decide)
  have hg := h.2.1 ["g1", "g2"] (by decide)
  ⟨hg.1 [thingT1, thingT2] (by decide), hg.2.2.1 [profileP1, profileP2] (by decide),
    h.2.2.1 [groupG1, groupG2] (by decide)⟩

/-! ## C23: a failing read of the group IDs of an org, for an admin -/

/-- C23 fails on the code.  For a token that passes the root check, when
`groups.RetrieveIDsByOrg` fails for the org, `ListThingsByOrg` and `ListProfilesByOrg`
return the empty page and a nil error: the error of the repository is lost (the `err`
returned is the one of `isAdmin`, which is nil in this branch). -/
theorem listByOrg_admin_loses_repository_error (ts : thingsService DB C I)
    (token orgID : String) (pm : PageMetadata) (w : World DB C I) (x : List String)
    (err : Error)
    (hadm : ts.auth.Authorize
      { Token := token, Object := "", Subject := RootSub, Action := "" } = none)
    (hfail : ts.groups.RetrieveIDsByOrg w.db orgID = (x, some err)) :
    (ListThingsByOrg ts token orgID pm w).1 = (ThingsPage.zero, none) ∧
    (ListProfilesByOrg ts token orgID pm w).1 = (ProfilesPage.zero, none) ∧
    calls w (ListThingsByOrg ts token orgID pm w).2
      = [.authAuthorize { Token := token, Object := "", Subject := RootSub, Action := "" },
          .groupsRetrieveIDsByOrg orgID] := by
  simp [ListThingsByOrg, ListProfilesByOrg, isAdmin, hadm, hfail, calls, World.log]

/-- The failing input of C23: over a group repository whose `RetrieveIDsByOrg` fails
with "db down", "admin" lists the things and the profiles of the org `o1` and gets
empty pages without an error. -/
theorem listByOrg_admin_loses_repository_error_witness :
    brokenGroupsService.groups.RetrieveIDsByOrg tenantWorld.db "o1"
      = ([], some (Error.other "db down")) ∧
    (ListThingsByOrg brokenGroupsService "admin" "o1" ⟨0, 10, "", "", ""⟩ tenantWorld).1
      = (⟨0, []⟩, none) ∧
    (ListProfilesByOrg brokenGroupsService "admin" "o1" ⟨0, 10, "", "", ""⟩ tenantWorld).1
      = (⟨0, []⟩, none) :=
  have h := listByOrg_admin_loses_repository_error brokenGroupsService "admin" "o1"
    ⟨0, 10, "", "", ""⟩ tenantWorld [] (Error.other "db down") (by decide) rfl
  ⟨rfl, h.1, h.2.1⟩

/-! ## C24: a failed cache write is a hard error -/

/-- C24. Whenever the cache lookup misses, the repository read succeeds and the cache
write fails with `ce`: `Identify` returns the empty ID and `ce`, and
`GetGroupIDByThingID` and `GetGroupIDByProfileID` return the empty group ID and `ce`,
not the value read from the repository; the database is left as it was. -/
theorem failed_cache_write_is_error (ts : thingsService DB C I) (w : World DB C I) :
    (∀ key x e id ce c, ts.thingCache.ID w.cache key = (x, some e) →
      ts.things.RetrieveByKey w.db key = (id, none) →
      ts.thingCache.Save w.cache key id = (some ce, c) →
      (Identify ts key w).1 = ("", some ce) ∧ (Identify ts key w).2.db = w.db ∧
      calls w (Identify ts key w).2
        = [.thingCacheID key, .thingsRetrieveByKey key, .thingCacheSave key id]) ∧
    (∀ thID x e th ce c, ts.thingCache.ViewGroup w.cache thID = (x, some e) →
      ts.things.RetrieveByID w.db thID = (th, none) →
      ts.thingCache.SaveGroup w.cache th.ID th.GroupID = (some ce, c) →
      (GetGroupIDByThingID ts thID w).1 = ("", some ce) ∧
      (GetGroupIDByThingID ts thID w).2.db = w.db ∧
      calls w (GetGroupIDByThingID ts thID w).2
        = [.thingCacheViewGroup thID, .thingsRetrieveByID thID,
            .thingCacheSaveGroup th.ID th.GroupID]) ∧
    (∀ prID x e pr ce c, ts.profileCache.ViewGroup w.cache prID = (x, some e) →
      ts.profiles.RetrieveByID w.db prID = (pr, none) →
      ts.profileCache.SaveGroup w.cache pr.ID pr.GroupID = (some ce, c) →
      (GetGroupIDByProfileID ts prID w).1 = ("", some ce) ∧
      (GetGroupIDByProfileID ts prID w).2.db = w.db ∧
      calls w (GetGroupIDByProfileID ts prID w).2
        = [.profileCacheViewGroup prID, .profilesRetrieveByID prID,
            .profileCacheSaveGroup pr.ID pr.GroupID]) := by
  refine ⟨?_, ?_, ?_⟩
  · intro key x e id ce c hmiss hrepo hsave
    simp [Identify, hmiss, hrepo, hsave, calls, World.log]
  · intro thID x e th ce c hmiss hrepo hsave
    simp [GetGroupIDByThingID, getGroupIDByThingID, hmiss, hrepo, hsave, calls, World.log]
  · intro prID x e pr ce c hmiss hrepo hsave
    simp [GetGroupIDByProfileID, getGroupIDByProfileID, hmiss, hrepo, hsave, calls,
      World.log]

/-- Witness of C24: over caches that miss and cannot be written, the key `k1`, the thing
`t1` and the profile `p1` of `sampleWorld` are read from the repositories, and each call
returns the error of the cache write and an empty result. -/
theorem failed_cache_write_is_error_witness :
    (Identify readOnlyCacheService "k1" sampleWorld).1
      = ("", some (Error.other "cache down")) ∧
    (GetGroupIDByThingID readOnlyCacheService "t1" sampleWorld).1
      = ("", some (Error.other "cache down")) ∧
    (GetGroupIDByProfileID readOnlyCacheService "p1" sampleWorld).1
      = ("", some (Error.other "cache down")) :=
  have h := failed_cache_write_is_error readOnlyCacheService sampleWorld
  ⟨(h.1 "k1" "" Error.ErrNotFound "t1" (Error.other "cache down") sampleWorld.cache
      rfl (by decide) rfl).1,
   (h.2.1 "t1" "" Error.ErrNotFound thingT1 (Error.other "cache down") sampleWorld.cache
      rfl (by decide) rfl).1,
   (h.2.2 "p1" "" Error.ErrNotFound profileP1 (Error.other "cache down") sampleWorld.cache
      rfl (by decide) rfl).1⟩

/-! ## C25: RemoveThings purges first and deletes last -/

/-- C25. `RemoveThings` on the IDs `pre ++ id :: post`, where the rounds of `pre`
complete (reaching `w1`) and the round of `id` fails with `e`, in its access check, in
`thingCache.Remove` or in `thingCache.RemoveGroup`: the call returns `e`; it has made no
`things.Remove` call and the database is as it was; the purges of every ID of `pre` have
been made, and the world returned is the one the failing round reached from `w1`, so
nothing purged is restored.  When the rounds of all IDs complete, the call makes exactly
one `things.Remove` call, with all the IDs, as its last call, and returns its result. -/
theorem removeThings_deletes_last (ts : thingsService DB C I) (token : String)
    (w : World DB C I) :
    (∀ pre id post w1 e, RemoveThings_loop ts token pre w = (none, w1) →
      ((CanUserAccessThing ts ⟨token, id, Editor⟩ w1).1 = some e ∨
       (∃ w2 c, CanUserAccessThing ts ⟨token, id, Editor⟩ w1 = (none, w2) ∧
          ts.thingCache.Remove w2.cache id = (some e, c)) ∨
       (∃ w2 c c', CanUserAccessThing ts ⟨token, id, Editor⟩ w1 = (none, w2) ∧
          ts.thingCache.Remove w2.cache id = (none, c) ∧
          ts.thingCache.RemoveGroup c id = (some e, c'))) →
      (RemoveThings ts token (pre ++ id :: post) w).1 = some e ∧
      (∀ ids, Call.thingsRemove ids
        ∉ calls w (RemoveThings ts token (pre ++ id :: post) w).2) ∧
      (RemoveThings ts token (pre ++ id :: post) w).2.db = w.db ∧
      (∀ j ∈ pre,
        Call.thingCacheRemove j
          ∈ calls w (RemoveThings ts token (pre ++ id :: post) w).2 ∧
        Call.thingCacheRemoveGroup j
          ∈ calls w (RemoveThings ts token (pre ++ id :: post) w).2) ∧
      (RemoveThings ts token (pre ++ id :: post) w).2
        = (RemoveThings_loop ts token [id] w1).2) ∧
    (∀ ids w1, RemoveThings_loop ts token ids w = (none, w1) →
      (RemoveThings ts token ids w).1 = (ts.things.Remove w.db ids).1 ∧
      calls w (RemoveThings ts token ids w).2 = calls w w1 ++ [.thingsRemove ids] ∧
      (∀ ids', Call.thingsRemove ids' ∉ calls w w1) ∧
      (RemoveThings ts token ids w).2.db = (ts.things.Remove w.db ids).2) := by
  constructor
  · intro pre id post w1 e hpre hfail
    have hround : RemoveThings_loop ts token (id :: post) w1
        = (some e, (RemoveThings_loop ts token [id] w1).2) := by
      rcases hfail with h | ⟨w2, c, ha, hr⟩ | ⟨w2, c, c', ha, hr, hg⟩
      · rcases ha : CanUserAccessThing ts ⟨token, id, Editor⟩ w1 with ⟨r, w2⟩
        rw [ha] at h
        simp only [] at h
        subst h
        simp [RemoveThings_loop, ha]
      · simp [RemoveThings_loop, ha, hr]
      · simp [RemoveThings_loop, ha, hr, hg]
    have hrun : RemoveThings ts token (pre ++ id :: post) w
        = (some e, (RemoveThings_loop ts token [id] w1).2) := by
      simp only [RemoveThings, RemoveThings_loop_append, hpre, hround]
    have hf1 := RemoveThings_loop_frame ts token pre w
    rw [hpre] at hf1
    have hf2 := RemoveThings_loop_frame ts token [id] w1
    have hext := hf1.2.2.trans hf2.2.2
    have hpur := RemoveThings_loop_purges ts token pre w w1 hpre
    rw [hrun]
    refine ⟨rfl, ?_, by rw [hf2.1]; exact hf1.1, ?_, rfl⟩
    · intro ids hmem
      have := hext.mem_calls _ hmem
      simp [Call.isCheck, Call.isResolution, Call.isAuthRPC] at this
    · intro j hj
      rw [calls_append hf1.2.2 hf2.2.2]
      exact ⟨List.mem_append_left _ (hpur j hj).1, List.mem_append_left _ (hpur j hj).2⟩
  · intro ids w1 hloop
    have hf1 := RemoveThings_loop_frame ts token ids w
    rw [hloop] at hf1
    obtain ⟨evs, ht, hp⟩ := hf1.2.2
    simp only [] at ht
    simp only [RemoveThings, hloop, World.log_db]
    rw [hf1.1]
    refine ⟨?_, ?_, ?_, ?_⟩
    · rcases ts.things.Remove w.db ids with ⟨_ | e, db⟩ <;> rfl
    · rw [calls_of_trace ht]
      apply calls_of_trace
      rcases ts.things.Remove w.db ids with ⟨_ | e, db⟩ <;> simp [World.log, ht]
    · intro ids' hmem
      rw [calls_of_trace ht] at hmem
      have := hp _ hmem
      simp [Call.isCheck, Call.isResolution, Call.isAuthRPC] at this
    · rcases ts.things.Remove w.db ids with ⟨_ | e, db⟩ <;> rfl

/-- Witness of C25: in `warmWorld` the keys and groups of `t1` and `t2` are cached.
"user", who may edit `g1` only, removes `t1` and `t2`: the round of `t1` completes, the
check of `t2` fails.  The call returns the error, both rows are still persisted, and the
cache entries of `t1` are gone while those of `t2` are kept. -/
theorem removeThings_deletes_last_witness :
    (RemoveThings sampleService "user" ["t1", "t2"] warmWorld).1
      = some (Error.wrap Error.ErrAuthorization (Error.other "unauthorized")) ∧
    (RemoveThings sampleService "user" ["t1", "t2"] warmWorld).2.db.things
      = [thingT1, thingT2] ∧
    (RemoveThings sampleService "user" ["t1", "t2"] warmWorld).2.cache
      = ⟨[("k2", "t2")], [("t2", "g2")], [], []⟩ :=
  have h := (removeThings_deletes_last sampleService "user" warmWorld).1 ["t1"] "t2" []
    (RemoveThings_loop sampleService "user" ["t1"] warmWorld).2
    (Error.wrap Error.ErrAuthorization (Error.other "unauthorized"))
    (Prod.ext (by decide) rfl) (Or.inl (by decide))
  ⟨h.1, (congrArg (fun d => d.things) h.2.2.1).trans (by decide), by decide⟩

/-! ## C26: CreateThings is not all-or-nothing -/

/-- C26. `CreateThings` on the batch `[t1, t2]`, where `t1` passes the Editor check and
the group comparison and is created as `th1` (reaching `w3`), and `t2` fails with `e` in
its Editor check, in the resolution of its profile's group, or in the group comparison:
the call returns `e` and no things; `t1` has been saved by a `things.Save` call that
returned `th1`, the database returned is the one that `Save` left, and no repository
write follows it, so the saved thing is not removed. -/
theorem createThings_not_atomic (ts : thingsService DB C I) (token : String)
    (t1 t2 th1 : Thing) (w w1 w2 w3 : World DB C I) (e : Error)
    (hacc : CanUserAccessGroup ts ⟨token, t1.GroupID, Editor⟩ w = (none, w1))
    (hres : getGroupIDByProfileID ts t1.ProfileID w1 = ((t1.GroupID, none), w2))
    (hsave : createThing ts t1 w2 = ((th1, none), w3))
    (hfail : (CanUserAccessGroup ts ⟨token, t2.GroupID, Editor⟩ w3).1 = some e ∨
      (∃ w4 x, CanUserAccessGroup ts ⟨token, t2.GroupID, Editor⟩ w3 = (none, w4) ∧
        (getGroupIDByProfileID ts t2.ProfileID w4).1 = (x, some e)) ∨
      (∃ w4 g, CanUserAccessGroup ts ⟨token, t2.GroupID, Editor⟩ w3 = (none, w4) ∧
        (getGroupIDByProfileID ts t2.ProfileID w4).1 = (g, none) ∧ g ≠ t2.GroupID ∧
        e = Error.ErrAuthorization)) :
    (CreateThings ts token [t1, t2] w).1 = ([], some e) ∧
    (∃ thing' rest, Call.thingsSave [thing'] ∈ calls w (CreateThings ts token [t1, t2] w).2 ∧
      ts.things.Save w.db [thing'] = ((th1 :: rest, none), w3.db)) ∧
    (CreateThings ts token [t1, t2] w).2.db = w3.db ∧
    (∀ c ∈ calls w3 (CreateThings ts token [t1, t2] w).2, c.isWrite = false) := by
  have hf1 := CanUserAccessGroup_frame ts ⟨token, t1.GroupID, Editor⟩ w
  rw [hacc] at hf1
  have hf2 := getGroupIDByProfileID_frame ts t1.ProfileID w1
  rw [hres] at hf2
  have hpre : Extends (fun _ => True) w w2 :=
    (hf1.2.2.2.mono fun _ _ => trivial).trans (hf2.2.2.mono fun _ _ => trivial)
  have hdb2 : w2.db = w.db := by rw [hf2.1, hf1.1]
  have hc3 := createThing_extends ts t1 w2
  rw [hsave] at hc3
  obtain ⟨thing', rest, hmem, hsv⟩ := createThing_ok ts t1 th1 w2 w3 hsave
  rw [hdb2] at hsv
  have hstep : CreateThings ts token [t1, t2] w = CreateThings_loop ts token [t2] [th1] w3 := by
    simp [CreateThings, CreateThings_loop, hacc, hres, hsave]
  have hlast : ∃ w5, CreateThings_loop ts token [t2] [th1] w3 = (([], some e), w5) ∧
      w5.db = w3.db ∧ Extends (fun c => c.isWrite = false) w3 w5 := by
    have hg1 := CanUserAccessGroup_frame ts ⟨token, t2.GroupID, Editor⟩ w3
    rcases hfail with h | ⟨w4, x, ha, hr⟩ | ⟨w4, g, ha, hr, hne, he⟩
    · rcases ha : CanUserAccessGroup ts ⟨token, t2.GroupID, Editor⟩ w3 with ⟨r, w4⟩
      rw [ha] at h hg1
      simp only [] at h
      subst h
      exact ⟨w4, by simp [CreateThings_loop, ha], hg1.1,
        hg1.2.2.2.mono fun c hc => Call.isCheck_not_write (Call.isAuthRPC_check hc)⟩
    · rw [ha] at hg1
      have hg2 := getGroupIDByProfileID_frame ts t2.ProfileID w4
      rcases hgp : getGroupIDByProfileID ts t2.ProfileID w4 with ⟨r, w5⟩
      rw [hgp] at hr hg2
      simp only [] at hr
      subst hr
      exact ⟨w5, by simp [CreateThings_loop, ha, hgp], by rw [hg2.1, hg1.1],
        (hg1.2.2.2.mono fun c hc => Call.isCheck_not_write (Call.isAuthRPC_check hc)).trans
          (hg2.2.2.mono fun c hc => Call.isResolution_not_write hc)⟩
    · rw [ha] at hg1
      have hg2 := getGroupIDByProfileID_frame ts t2.ProfileID w4
      rcases hgp : getGroupIDByProfileID ts t2.ProfileID w4 with ⟨r, w5⟩
      rw [hgp] at hr hg2
      simp only [] at hr
      subst hr
      subst he
      exact ⟨w5, by simp [CreateThings_loop, ha, hgp, hne], by rw [hg2.1, hg1.1],
        (hg1.2.2.2.mono fun c hc => Call.isCheck_not_write (Call.isAuthRPC_check hc)).trans
          (hg2.2.2.mono fun c hc => Call.isResolution_not_write hc)⟩
  obtain ⟨w5, hrun, hdb5, hext5⟩ := hlast
  rw [hstep, hrun]
  refine ⟨rfl, ⟨thing', rest, ?_, hsv⟩, hdb5, hext5.mem_calls⟩
  rw [calls_append (hpre.trans hc3) hext5, calls_append hpre hc3]
  exact List.mem_append_left _ (List.mem_append_right _ hmem)

/-- Witness of C26: in `sampleWorld` "user", who may edit `g1` only, creates `t3` in
`g1` and `t4` in `g2` in one call.  The call fails on `t4` and returns no things, and
`t3` is persisted. -/
theorem createThings_not_atomic_witness :
    (CreateThings sampleService "user"
      [⟨"t3", "g1", "p1", "thing-3", "k3", none⟩, ⟨"t4", "g2", "p2", "thing-4", "k4", none⟩]
      sampleWorld).1
      = ([], some (Error.wrap Error.ErrAuthorization (Error.other "unauthorized"))) ∧
    (CreateThings sampleService "user"
      [⟨"t3", "g1", "p1", "thing-3", "k3", none⟩, ⟨"t4", "g2", "p2", "thing-4", "k4", none⟩]
      sampleWorld).2.db.things
      = [thingT1, thingT2, ⟨"t3", "g1", "p1", "thing-3", "k3", none⟩] :=
  have h := createThings_not_atomic sampleService "user"
    ⟨"t3", "g1", "p1", "thing-3", "k3", none⟩ ⟨"t4", "g2", "p2", "thing-4", "k4", none⟩
    ⟨"t3", "g1", "p1", "thing-3", "k3", none⟩ sampleWorld
    (CanUserAccessGroup sampleService ⟨"user", "g1", Editor⟩ sampleWorld).2
    (getGroupIDByProfileID sampleService "p1"
      (CanUserAccessGroup sampleService ⟨"user", "g1", Editor⟩ sampleWorld).2).2
    (createThing sampleService ⟨"t3", "g1", "p1", "thing-3", "k3", none⟩
      (getGroupIDByProfileID sampleService "p1"
        (CanUserAccessGroup sampleService ⟨"user", "g1", Editor⟩ sampleWorld).2).2).2
    (Error.wrap Error.ErrAuthorization (Error.other "unauthorized"))
    (Prod.ext (by decide) rfl) (Prod.ext (by decide) rfl) (Prod.ext (by decide) rfl)
    (Or.inl (by decide))
  ⟨h.1, (congrArg (fun d => d.things) h.2.2.1).trans (by decide)⟩

/-! ## C27: UpdateKey and the cached key -/

/-- C27. Over a thing cache in which `SaveGroup` does not change the answers of `ID`:
`UpdateKey`, whatever its outcome, leaves every answer of `thingCache.ID` as it was.  So
when the old key `K` of the thing `id` is cached, `Identify(K)` after the update still
returns `id`, and its only call is the cache lookup: the repository is not read. -/
theorem updateKey_keeps_cached_key (ts : thingsService DB C I) (token id newKey K : String)
    (w : World DB C I)
    (hlaw : ∀ c i g k, ts.thingCache.ID (ts.thingCache.SaveGroup c i g).2 k
      = ts.thingCache.ID c k)
    (hcached : ts.thingCache.ID w.cache K = (id, none)) :
    (∀ k, ts.thingCache.ID (UpdateKey ts token id newKey w).2.cache k
      = ts.thingCache.ID w.cache k) ∧
    (Identify ts K (UpdateKey ts token id newKey w).2).1 = (id, none) ∧
    calls (UpdateKey ts token id newKey w).2
      (Identify ts K (UpdateKey ts token id newKey w).2).2 = [.thingCacheID K] := by
  have hcache : (UpdateKey ts token id newKey w).2.cache
      = (CanUserAccessThing ts ⟨token, id, Editor⟩ w).2.cache := by
    simp only [UpdateKey]
    rcases CanUserAccessThing ts ⟨token, id, Editor⟩ w with ⟨_ | e, w1⟩
    · simp only [World.log_db]
      rcases ts.things.UpdateKey w1.db id newKey with ⟨r, db⟩
      rfl
    · rfl
  have hkeep : ∀ k, ts.thingCache.ID (UpdateKey ts token id newKey w).2.cache k
      = ts.thingCache.ID w.cache k := by
    intro k
    rw [hcache]
    rcases CanUserAccessThing_cache ts ⟨token, id, Editor⟩ w with h | ⟨i, g, h⟩
    · rw [h]
    · rw [h, hlaw]
  have hhit := (hkeep K).trans hcached
  refine ⟨hkeep, ?_, ?_⟩
  · simp [Identify, hhit]
  · simp [Identify, hhit, calls, World.log]

/-- Witness of C27: in `warmWorld` the key `k1` of `t1` is cached.  "user" gives `t1`
the key `k1-new`; afterwards the repository knows no thing with the key `k1`, and
`Identify` of `k1` still returns `t1`, from the cache. -/
theorem updateKey_keeps_cached_key_witness :
    (UpdateKey sampleService "user" "t1" "k1-new" warmWorld).1 = none ∧
    memThings.RetrieveByKey (UpdateKey sampleService "user" "t1" "k1-new" warmWorld).2.db "k1"
      = ("", some Error.ErrNotFound) ∧
    (Identify sampleService "k1"
      (UpdateKey sampleService "user" "t1" "k1-new" warmWorld).2).1 = ("t1", none) ∧
    calls (UpdateKey sampleService "user" "t1" "k1-new" warmWorld).2
      (Identify sampleService "k1"
        (UpdateKey sampleService "user" "t1" "k1-new" warmWorld).2).2
      = [.thingCacheID "k1"] :=
  have h := updateKey_keeps_cached_key sampleService "user" "t1" "k1-new" "k1" warmWorld
    (fun _ _ _ _ => rfl) (by decide)
  ⟨by decide, by decide, h.2.1, h.2.2⟩

/-! ## C28: merging into a thing without metadata -/

/-- C28 fails on the code.  An `UpdateThingsMetadata` call that passes the Editor check,
on a stored thing whose metadata is absent (a nil map), with incoming metadata that has
at least one entry: the first assignment into the nil map panics.  The call does not
return, and `things.Update` is never called. -/
theorem updateThingsMetadata_panics_on_nil_map (ts : thingsService DB C I) (token : String)
    (thing th : Thing) (rest : List Thing) (w : World DB C I) (e : String × Value)
    (es : Entries)
    (hacc : (CanUserAccessThing ts ⟨token, thing.ID, Editor⟩ w).1 = none)
    (hread : ts.things.RetrieveByID w.db thing.ID = (th, none))
    (hnil : th.Metadata = none)
    (hin : thing.Metadata = some (e :: es)) :
    (UpdateThingsMetadata ts token (thing :: rest) w).1 = .panicked ∧
    (∀ t, Call.thingsUpdate t ∉ calls w (UpdateThingsMetadata ts token (thing :: rest) w).2) ∧
    (UpdateThingsMetadata ts token (thing :: rest) w).2.db = w.db := by
  have hf := CanUserAccessThing_frame ts ⟨token, thing.ID, Editor⟩ w
  rcases ha : CanUserAccessThing ts ⟨token, thing.ID, Editor⟩ w with ⟨r, w1⟩
  rw [ha] at hacc hf
  simp only [] at hacc hf
  subst hacc
  have hrun : UpdateThingsMetadata ts token (thing :: rest) w
      = (.panicked, w1.log (.thingsRetrieveByID thing.ID)) := by
    simp [UpdateThingsMetadata, ha, hf.1, hread, hnil, hin, mergeMetadata]
  rw [hrun]
  have hext : Extends (fun c => c.isWrite = false) w (w1.log (.thingsRetrieveByID thing.ID)) := by
    obtain ⟨evs, ht, hp⟩ := hf.2.2
    refine ⟨evs ++ [.thingsRetrieveByID thing.ID], by simp [World.log, ht], ?_⟩
    intro c hc
    rcases List.mem_append.mp hc with h | h
    · exact Call.isCheck_not_write (hp c h)
    · simp only [List.mem_singleton] at h
      subst h
      rfl
  refine ⟨rfl, ?_, hf.1⟩
  intro t hmem
  have := hext.mem_calls _ hmem
  simp [Call.isWrite] at this

/-- The failing input of C28: in `sampleWorld` the thing `t2` has no metadata; "admin"
sends `a = 1` for it and the call panics, with `t2` unchanged. -/
theorem updateThingsMetadata_panics_on_nil_map_witness :
    (UpdateThingsMetadata sampleService "admin"
      [{ thingT2 with Metadata := some [("a", .number 1)] }] sampleWorld).1 = .panicked ∧
    (UpdateThingsMetadata sampleService "admin"
      [{ thingT2 with Metadata := some [("a", .number 1)] }] sampleWorld).2.db
      = sampleWorld.db :=
  have h := updateThingsMetadata_panics_on_nil_map sampleService "admin"
    { thingT2 with Metadata := some [("a", .number 1)] } thingT2 [] sampleWorld
    ("a", .number 1) [] (by decide) (by decide) rfl rfl
  ⟨h.1, h.2.2⟩

/-! ## C29: GetPubConfByKey resolves the publisher as Identify does -/

/-- C29. `GetPubConfByKey` is `Identify` followed by the read of the profile: from
every state and for every key it makes the calls of `Identify` and reaches the world of
`Identify`; when `Identify` fails with an error it returns that error without reading
the profile, and otherwise it reads the profile of the ID that `Identify` returns and
reports that ID as `PublisherID`.  So it fails in the resolution step, before the
profile is read, if and only if `Identify` fails, with the same error, and both leave
the same cache. -/
theorem getPubConfByKey_resolves_as_identify (ts : thingsService DB C I) (key : String)
    (w : World DB C I) :
    (GetPubConfByKey ts key w =
      match Identify ts key w with
      | ((_, some err), w1) => ((PubConfInfo.zero, some err), w1)
      | ((thID, none), w1) =>
        match ts.profiles.RetrieveByThing w1.db thID with
        | (_, some err) =>
          ((PubConfInfo.zero, some err), w1.log (.profilesRetrieveByThing thID))
        | (profile, none) =>
          (({ PublisherID := thID, ProfileConfig := profile.Config }, none),
            w1.log (.profilesRetrieveByThing thID))) ∧
    (GetPubConfByKey ts key w).2.cache = (Identify ts key w).2.cache ∧
    (∀ err, (Identify ts key w).1.2 = some err ↔
      ((GetPubConfByKey ts key w).1.2 = some err ∧
        ∀ id, Call.profilesRetrieveByThing id ∉ calls w (GetPubConfByKey ts key w).2)) ∧
    (∀ id conf, (Identify ts key w).1 = (id, none) →
      (GetPubConfByKey ts key w).1 = (conf, none) → conf.PublisherID = id) := by
  have hI := Identify_frame ts key w
  have heq : GetPubConfByKey ts key w =
      match Identify ts key w with
      | ((_, some err), w1) => ((PubConfInfo.zero, some err), w1)
      | ((thID, none), w1) =>
        match ts.profiles.RetrieveByThing w1.db thID with
        | (_, some err) =>
          ((PubConfInfo.zero, some err), w1.log (.profilesRetrieveByThing thID))
        | (profile, none) =>
          (({ PublisherID := thID, ProfileConfig := profile.Config }, none),
            w1.log (.profilesRetrieveByThing thID)) := by
    rcases h1 : ts.thingCache.ID w.cache key with ⟨id, _ | e⟩
    · rcases hp : ts.profiles.RetrieveByThing w.db id with ⟨p, _ | e⟩ <;>
        simp [GetPubConfByKey, Identify, h1, hp]
    · rcases h2 : ts.things.RetrieveByKey w.db key with ⟨id, _ | e⟩
      · rcases h3 : ts.thingCache.Save w.cache key id with ⟨_ | e, c⟩
        · rcases hp : ts.profiles.RetrieveByThing w.db id with ⟨p, _ | e⟩ <;>
            simp [GetPubConfByKey, Identify, h1, h2, h3, hp]
        · simp [GetPubConfByKey, Identify, h1, h2, h3]
      · simp [GetPubConfByKey, Identify, h1, h2]
  refine ⟨heq, ?_, ?_, ?_⟩
  · rw [heq]
    rcases Identify ts key w with ⟨⟨id, _ | e⟩, w1⟩
    · simp only []
      rcases ts.profiles.RetrieveByThing w1.db id with ⟨p, _ | e⟩ <;> rfl
    · rfl
  · intro err
    rw [heq]
    rcases hi : Identify ts key w with ⟨⟨id, _ | e⟩, w1⟩
    · rw [hi] at hI
      obtain ⟨evs, ht, _⟩ := hI.2.2
      simp only [] at ht
      simp only [reduceCtorEq, false_iff, not_and, not_forall, not_not]
      intro _
      refine ⟨id, ?_⟩
      rcases ts.profiles.RetrieveByThing w1.db id with ⟨p, _ | e⟩ <;>
        simp [calls, World.log, ht]
    · rw [hi] at hI
      simp only [Option.some.injEq]
      constructor
      · intro h
        refine ⟨h, ?_⟩
        intro id hmem
        have := hI.2.2.mem_calls _ hmem
        simp [Call.isResolution] at this
      · intro h
        exact h.1
  · intro id conf hi hg
    rw [heq] at hg
    rcases hi' : Identify ts key w with ⟨⟨id', _ | e⟩, w1⟩
    · rw [hi'] at hi hg
      simp only [Prod.mk.injEq, and_true] at hi
      subst hi
      simp only [] at hg
      rcases hp : ts.profiles.RetrieveByThing w1.db id' with ⟨p, _ | e⟩
      · rw [hp] at hg
        simp only [Prod.mk.injEq, and_true] at hg
        rw [← hg]
      · rw [hp] at hg
        simp at hg
    · rw [hi'] at hi
      simp at hi

/-- Witness of C29: in `sampleWorld` the key `k1` is resolved to `t1` by `Identify`,
from the repository, and `GetPubConfByKey` reports the publisher `t1`; both leave the
same cache, which now holds the key. -/
theorem getPubConfByKey_resolves_as_identify_witness :
    (GetPubConfByKey sampleService "k1" sampleWorld).1.1.PublisherID = "t1" ∧
    (GetPubConfByKey sampleService "k1" sampleWorld).2.cache
      = (Identify sampleService "k1" sampleWorld).2.cache ∧
    (Identify sampleService "k1" sampleWorld).2.cache.thingIDs = [("k1", "t1")] :=
  have h := getPubConfByKey_resolves_as_identify sampleService "k1" sampleWorld
  ⟨h.2.2.2 "t1" (GetPubConfByKey sampleService "k1" sampleWorld).1.1 (by decide)
      (Prod.ext rfl (by decide)), h.2.1, by decide⟩

/-! ## C30: an smtp or smpp action ends Publish -/

end Mainflux
